import Mathlib

/-!
# Topology manager of horaemeta (`server/cluster/topology_manager.go`)

A shallow embedding of `TopologyManagerImpl` and of the operations on it.

* Go maps are association lists (`GoMap`) read through `get?`; the order in
  which Go ranges over a map is unspecified, the embedding ranges in
  insertion order.
* A nil map and an empty map read the same way; the embedding uses the empty
  map for both.  The only writes to a map that can be nil are the two at the
  end of `AddTable`, reached after a view was read from `shardTablesMapping`,
  which `loadShardView` allocates together with `tableShardMapping`.
* `storage.Storage` is an interface: the operations take an implementation
  `Storage σ ε` (store state `σ`, storage errors `ε`) and thread the store
  explicitly.  Every call made on it is recorded in `Outcome.calls`.
* `time.Now()` and the raw output of the random source are arguments.
* A Go panic is a result of its own (`Result.panic`).
* `uint64` additions wrap at `2 ^ 64`.
-/

namespace Horaemeta

/-! ## Go maps -/

/-- Go map as an association list; a key is read at its first entry. -/
structure GoMap (K V : Type) where
  entries : List (K × V)
deriving DecidableEq, Repr

namespace GoMap

variable {K V : Type} [DecidableEq K]

/-- Result of `make(map[K]V)` (and the nil map, for reads). -/
def empty : GoMap K V := ⟨[]⟩

/-- Lookup in the entry list. -/
def lookup : List (K × V) → K → Option V
  | [], _ => none
  | (k', v) :: rest, k => if k' = k then some v else lookup rest k

/-- The read `v, ok := m[k]`. -/
def get? (m : GoMap K V) (k : K) : Option V := lookup m.entries k

/-- Overwrite the entry of `k`, or append one. -/
def insert : List (K × V) → K → V → List (K × V)
  | [], k, v => [(k, v)]
  | (k', v') :: rest, k, v =>
    if k' = k then (k', v) :: rest else (k', v') :: insert rest k v

/-- The write `m[k] = v`. -/
def set (m : GoMap K V) (k : K) (v : V) : GoMap K V := ⟨insert m.entries k v⟩

/-- Keys of the entry list, each once. -/
def keysOf : List (K × V) → List K
  | [] => []
  | (k, _) :: rest => k :: (keysOf rest).filter (fun k' => decide (k' ≠ k))

/-- The keys `for k := range m` visits. -/
def keys (m : GoMap K V) : List K := keysOf m.entries

/-- Two maps hold the same value at every key (equality of Go maps by value). -/
def SameAs (m₁ m₂ : GoMap K V) : Prop := ∀ k, m₁.get? k = m₂.get? k

end GoMap

/-! ## Storage types (`server/storage`) -/

abbrev ClusterID := Nat
abbrev ShardID := Nat
abbrev TableID := Nat
abbrev SchemaID := Nat

/-- Role of a replica: `storage.ShardRole`. -/
inductive ShardRole where
  | Leader
  | Follower
deriving DecidableEq, Repr

/-- State of a cluster: `storage.ClusterState`. -/
inductive ClusterState where
  | Empty
  | Prepare
  | Stable
deriving DecidableEq, Repr

/-- Replica placement: `storage.ShardNode`. -/
structure ShardNode where
  ID : ShardID
  ShardRole : ShardRole
  Node : String
deriving DecidableEq, Repr

/-- Versioned table list of a shard: `storage.ShardView`. -/
structure ShardView where
  ShardID : ShardID
  Version : Nat
  TableIDs : List TableID
  CreatedAt : Nat
deriving DecidableEq, Repr

/-- Versioned shard placement of a cluster: `storage.ClusterView`. -/
structure ClusterView where
  ClusterID : ClusterID
  Version : Nat
  State : ClusterState
  ShardNodes : List ShardNode
  CreatedAt : Nat
deriving DecidableEq, Repr

/-- State of a node: `storage.NodeState`. -/
inductive NodeState where
  | Online
  | Offline
deriving DecidableEq, Repr

/-- Data-plane server: `storage.Node`. -/
structure Node where
  Name : String
  LastTouchTime : Nat
  State : NodeState
deriving DecidableEq, Repr

/-- Table record: `storage.Table`; only `ID` is read by the manager. -/
structure Table where
  ID : TableID
  Name : String
  SchemaID : SchemaID
deriving DecidableEq, Repr

/-- Request of `Storage.UpdateShardView`. -/
structure PutShardViewRequest where
  ClusterID : ClusterID
  ShardView : ShardView
  LatestVersion : Nat
deriving DecidableEq, Repr

/-- Request of `Storage.UpdateClusterView`. -/
structure UpdateClusterViewRequest where
  ClusterID : ClusterID
  ClusterView : ClusterView
  LatestVersion : Nat
deriving DecidableEq, Repr

/-- Request of `Storage.ListShardViews`. -/
structure ListShardViewsRequest where
  ClusterID : ClusterID
  ShardIDs : List ShardID
deriving DecidableEq, Repr

/-- Request of `Storage.CreateShardViews`. -/
structure CreateShardViewsRequest where
  ClusterID : ClusterID
  ShardViews : List ShardView
deriving DecidableEq, Repr

/-- One call on the storage interface, with its request. -/
inductive StorageCall where
  | UpdateShardView (req : PutShardViewRequest)
  | CreateClusterView (cv : ClusterView)
  | UpdateClusterView (req : UpdateClusterViewRequest)
  | GetClusterView (clusterID : ClusterID)
  | CreateShardViews (req : CreateShardViewsRequest)
  | ListShardViews (req : ListShardViewsRequest)
  | ListNodes (clusterID : ClusterID)
deriving DecidableEq, Repr

/-- The methods of `storage.Storage` the manager calls, over a store state `σ`
and storage errors `ε`; a write returns `none` for a nil error. -/
structure Storage (σ ε : Type) where
  UpdateShardView : σ → PutShardViewRequest → σ × Option ε
  CreateClusterView : σ → ClusterView → σ × Option ε
  UpdateClusterView : σ → UpdateClusterViewRequest → σ × Option ε
  GetClusterView : σ → ClusterID → σ × Except ε ClusterView
  CreateShardViews : σ → CreateShardViewsRequest → σ × Option ε
  ListShardViews : σ → ListShardViewsRequest → σ × Except ε (List ShardView)
  ListNodes : σ → ClusterID → σ × Except ε (List Node)

/-! ## Results -/

/-- Errors the manager returns: its own coded errors and wrapped storage
errors (`errors.WithMessage`). -/
inductive Error (ε : Type) where
  | TableNotFound (tableID : TableID)
  | ShardNotFound (shardID : ShardID)
  | storage (e : ε)
  | WithMessage (cause : Error ε) (msg : String)
deriving DecidableEq, Repr

/-- Run-time panics of the Go code. -/
inductive Panic where
  | int31nInvalidArgument
  | indexOutOfRange
  | nilPointerDereference
  | sliceBoundsOutOfRange
deriving DecidableEq, Repr

/-- What a call comes back with: a value, an error, or a panic. -/
inductive Result (ε α : Type) where
  | ok (a : α)
  | err (e : Error ε)
  | panic (p : Panic)
deriving DecidableEq, Repr

/-- The storage error at the bottom of an error chain (`errors.Cause`). -/
def Error.cause? {ε : Type} : Error ε → Option ε
  | .storage e => some e
  | .WithMessage c _ => c.cause?
  | _ => none

/-! ## The manager -/

/-- The fields of `TopologyManagerImpl` protected by its lock, and `clusterID`. -/
structure TopologyManagerImpl where
  clusterID : ClusterID
  clusterView : ClusterView
  shardNodesMapping : GoMap ShardID (List ShardNode)
  nodeShardsMapping : GoMap String (List ShardNode)
  shardTablesMapping : GoMap ShardID ShardView
  tableShardMapping : GoMap TableID ShardID
  nodes : GoMap String Node
deriving DecidableEq, Repr

/-- Return value of `AddTable` and `RemoveTable`. -/
structure ShardVersionUpdate where
  ShardID : ShardID
  CurrVersion : Nat
  PrevVersion : Nat
deriving DecidableEq, Repr

/-- Entry of the map `GetTableIDs` returns. -/
structure ShardTableIDs where
  ShardNode : ShardNode
  TableIDs : List TableID
  Version : Nat
deriving DecidableEq, Repr

/-- Return value of `GetShardNodesByTableIDs`. -/
structure GetShardNodesByTableIDsResult where
  ShardNodes : GoMap TableID (List ShardNode)
  Version : GoMap ShardID Nat
deriving DecidableEq, Repr

/-- State after a call: memory, store, the storage calls made, the result. -/
structure Outcome (σ ε α : Type) where
  mem : TopologyManagerImpl
  store : σ
  calls : List StorageCall
  result : Result ε α

/-! ## Go primitives -/

/-- Addition of `uint64` values. -/
def u64add (a b : Nat) : Nat := (a + b) % 2 ^ 64

/-- Conversion `int32(n)` of a length. -/
def toInt32 (n : Nat) : Int :=
  if n % 2 ^ 32 < 2 ^ 31 then ((n % 2 ^ 32 : Nat) : Int) else ((n % 2 ^ 32 : Nat) : Int) - 2 ^ 32

/-- The call `rand.Int31n(n)`: panics for `n ≤ 0`, otherwise a value in `[0, n)`;
`raw` is the output of the random source, every value of `[0, n)` is reached. -/
def Int31n (raw : Nat) (n : Int) : Option Nat :=
  if n ≤ 0 then none else some (raw % n.toNat)

/-- The slice `make([]T, len, cap)`: `len` zero values. -/
def goMake (len : Nat) : List TableID := List.replicate len 0

/-- The builtin `copy(dst, src)`: overwrites the first `min(len(dst), len(src))`
elements of `dst`. -/
def goCopy (dst src : List TableID) : List TableID :=
  src.take (min dst.length src.length) ++ dst.drop (min dst.length src.length)

/-! ## Write paths -/

/-- The loop of `AddTable` over `m.nodeShardsMapping[nodeName]`: the IDs of the
shards whose entry names `nodeName` with role leader. -/
def leaderShardIDs (nodeName : String) : List ShardNode → List ShardID
  | [] => []
  | shardNode :: rest =>
    if shardNode.Node = nodeName ∧ shardNode.ShardRole = ShardRole.Leader then
      shardNode.ID :: leaderShardIDs nodeName rest
    else leaderShardIDs nodeName rest

/-- The method `TopologyManagerImpl.AddTable`. -/
def AddTable {σ ε : Type} (S : Storage σ ε) (m : TopologyManagerImpl) (st : σ)
    (raw now : Nat) (nodeName : String) (table : Table) : Outcome σ ε ShardVersionUpdate :=
  let shardNodes := (m.nodeShardsMapping.get? nodeName).getD []
  let shardIDs := leaderShardIDs nodeName shardNodes
  match Int31n raw (toInt32 shardIDs.length) with
  | none => ⟨m, st, [], .panic .int31nInvalidArgument⟩
  | some idx =>
    match shardIDs.get? idx with
    | none => ⟨m, st, [], .panic .indexOutOfRange⟩
    | some shardID =>
      match m.shardTablesMapping.get? shardID with
      | none => ⟨m, st, [], .panic .nilPointerDereference⟩
      | some shardView =>
        let prevVersion := shardView.Version
        let tableIDs := goCopy (goMake 0) shardView.TableIDs ++ [table.ID]
        let newShardView : ShardView :=
          { ShardID := shardID, Version := u64add prevVersion 1,
            TableIDs := tableIDs, CreatedAt := now }
        let req : PutShardViewRequest :=
          { ClusterID := m.clusterID, ShardView := newShardView, LatestVersion := prevVersion }
        match S.UpdateShardView st req with
        | (st', some e) =>
          ⟨m, st', [.UpdateShardView req],
            .err (.WithMessage (.storage e) "storage update shard view")⟩
        | (st', none) =>
          ⟨{ m with
              shardTablesMapping := m.shardTablesMapping.set shardID newShardView,
              tableShardMapping := m.tableShardMapping.set table.ID shardID },
            st', [.UpdateShardView req],
            .ok { ShardID := shardID, CurrVersion := u64add prevVersion 1,
                  PrevVersion := prevVersion }⟩

/-- The loop of `RemoveTable` over `shardView.TableIDs`: keeps the IDs other
than `tableID`, in order. -/
def removeTableID (tableID : TableID) : List TableID → List TableID
  | [] => []
  | id :: rest =>
    if id ≠ tableID then id :: removeTableID tableID rest else removeTableID tableID rest

/-- The method `TopologyManagerImpl.RemoveTable`.  The shard view is held by
pointer: the two assignments after the storage call change the version and
the table IDs of the view stored under `shardID`, and nothing else. -/
def RemoveTable {σ ε : Type} (S : Storage σ ε) (m : TopologyManagerImpl) (st : σ)
    (now : Nat) (tableID : TableID) : Outcome σ ε ShardVersionUpdate :=
  match m.tableShardMapping.get? tableID with
  | none => ⟨m, st, [], .err (.TableNotFound tableID)⟩
  | some shardID =>
    match m.shardTablesMapping.get? shardID with
    | none => ⟨m, st, [], .err (.ShardNotFound shardID)⟩
    | some shardView =>
      let prevVersion := shardView.Version
      let tableIDs := removeTableID tableID shardView.TableIDs
      let req : PutShardViewRequest :=
        { ClusterID := m.clusterID,
          ShardView :=
            { ShardID := shardView.ShardID, Version := u64add prevVersion 1,
              TableIDs := tableIDs, CreatedAt := now },
          LatestVersion := prevVersion }
      match S.UpdateShardView st req with
      | (st', some e) =>
        ⟨m, st', [.UpdateShardView req],
          .err (.WithMessage (.storage e) "update shard view in storage")⟩
      | (st', none) =>
        ⟨{ m with
            shardTablesMapping :=
              m.shardTablesMapping.set shardID
                { shardView with Version := u64add prevVersion 1, TableIDs := tableIDs } },
          st', [.UpdateShardView req],
          .ok { ShardID := shardID, CurrVersion := u64add prevVersion 1,
                PrevVersion := prevVersion }⟩

/-! ## Loading -/

/-- The loop of `loadClusterView`: appends every shard node to the list of its
shard and to the list of its node. -/
def indexShardNodes :
    List ShardNode → GoMap ShardID (List ShardNode) × GoMap String (List ShardNode) →
    GoMap ShardID (List ShardNode) × GoMap String (List ShardNode)
  | [], acc => acc
  | shardNode :: rest, (byShard, byNode) =>
    indexShardNodes rest
      (byShard.set shardNode.ID ((byShard.get? shardNode.ID).getD [] ++ [shardNode]),
       byNode.set shardNode.Node ((byNode.get? shardNode.Node).getD [] ++ [shardNode]))

/-- The method `TopologyManagerImpl.loadClusterView`. -/
def loadClusterView {σ ε : Type} (S : Storage σ ε) (m : TopologyManagerImpl) (st : σ) :
    Outcome σ ε Unit :=
  match S.GetClusterView st m.clusterID with
  | (st', .error e) =>
    ⟨m, st', [.GetClusterView m.clusterID],
      .err (.WithMessage (.storage e) "get cluster view")⟩
  | (st', .ok clusterView) =>
    let idx := indexShardNodes clusterView.ShardNodes (GoMap.empty, GoMap.empty)
    ⟨{ m with shardNodesMapping := idx.1, nodeShardsMapping := idx.2,
              clusterView := clusterView },
      st', [.GetClusterView m.clusterID], .ok ()⟩

/-- The inner loop of `loadShardView`: maps every table of a view to its shard. -/
def indexTables (shardID : ShardID) : List TableID → GoMap TableID ShardID → GoMap TableID ShardID
  | [], acc => acc
  | tableID :: rest, acc => indexTables shardID rest (acc.set tableID shardID)

/-- The outer loop of `loadShardView` over the views storage returned. -/
def indexShardViews :
    List ShardView → GoMap ShardID ShardView × GoMap TableID ShardID →
    GoMap ShardID ShardView × GoMap TableID ShardID
  | [], acc => acc
  | shardView :: rest, (views, tables) =>
    indexShardViews rest
      (views.set shardView.ShardID shardView,
       indexTables shardView.ShardID shardView.TableIDs tables)

/-- The method `TopologyManagerImpl.loadShardView`. -/
def loadShardView {σ ε : Type} (S : Storage σ ε) (m : TopologyManagerImpl) (st : σ) :
    Outcome σ ε Unit :=
  let req : ListShardViewsRequest :=
    { ClusterID := m.clusterID, ShardIDs := m.shardNodesMapping.keys }
  match S.ListShardViews st req with
  | (st', .error e) =>
    ⟨m, st', [.ListShardViews req], .err (.WithMessage (.storage e) "list shard views")⟩
  | (st', .ok shardViews) =>
    let idx := indexShardViews shardViews (GoMap.empty, GoMap.empty)
    ⟨{ m with shardTablesMapping := idx.1, tableShardMapping := idx.2 },
      st', [.ListShardViews req], .ok ()⟩

/-- The loop of `loadNode`. -/
def indexNodes : List Node → GoMap String Node → GoMap String Node
  | [], acc => acc
  | node :: rest, acc => indexNodes rest (acc.set node.Name node)

/-- The method `TopologyManagerImpl.loadNode`. -/
def loadNode {σ ε : Type} (S : Storage σ ε) (m : TopologyManagerImpl) (st : σ) :
    Outcome σ ε Unit :=
  match S.ListNodes st m.clusterID with
  | (st', .error e) =>
    ⟨m, st', [.ListNodes m.clusterID], .err (.WithMessage (.storage e) "list nodes")⟩
  | (st', .ok nodes) =>
    ⟨{ m with nodes := indexNodes nodes GoMap.empty }, st', [.ListNodes m.clusterID], .ok ()⟩

/-- Sequencing of `if err := step(); err != nil { return errors.WithMessage(err, msg) }`:
an error of the first step is wrapped with `msg` and returned, a panic
propagates, otherwise `next` runs from the state the step left. -/
def Outcome.andThen {σ ε : Type} (o : Outcome σ ε Unit) (msg : String)
    (next : TopologyManagerImpl → σ → Outcome σ ε Unit) : Outcome σ ε Unit :=
  match o.result with
  | .ok _ =>
    let o' := next o.mem o.store
    ⟨o'.mem, o'.store, o.calls ++ o'.calls, o'.result⟩
  | .err e => ⟨o.mem, o.store, o.calls, .err (.WithMessage e msg)⟩
  | .panic p => ⟨o.mem, o.store, o.calls, .panic p⟩

/-- The method `TopologyManagerImpl.Load`. -/
def Load {σ ε : Type} (S : Storage σ ε) (m : TopologyManagerImpl) (st : σ) : Outcome σ ε Unit :=
  (loadClusterView S m st).andThen "load cluster view" fun m₁ st₁ =>
    (loadShardView S m₁ st₁).andThen "load shard view" fun m₂ st₂ =>
      (loadNode S m₂ st₂).andThen "load node" fun m₃ st₃ => ⟨m₃, st₃, [], .ok ()⟩

/-- The method `TopologyManagerImpl.UpdateClusterView`. -/
def UpdateClusterView {σ ε : Type} (S : Storage σ ε) (m : TopologyManagerImpl) (st : σ)
    (now : Nat) (state : ClusterState) (shardNodes : List ShardNode) : Outcome σ ε Unit :=
  let newClusterView : ClusterView :=
    { ClusterID := m.clusterID, Version := u64add m.clusterView.Version 1,
      State := state, ShardNodes := shardNodes, CreatedAt := now }
  let req : UpdateClusterViewRequest :=
    { ClusterID := m.clusterID, ClusterView := newClusterView,
      LatestVersion := m.clusterView.Version }
  match S.UpdateClusterView st req with
  | (st', some e) =>
    ⟨m, st', [.UpdateClusterView req], .err (.WithMessage (.storage e) "update cluster view")⟩
  | (st', none) =>
    let o := (loadClusterView S m st').andThen "load cluster view" fun m₁ st₁ =>
      ⟨m₁, st₁, [], .ok ()⟩
    ⟨o.mem, o.store, .UpdateClusterView req :: o.calls, o.result⟩

/-- The method `TopologyManagerImpl.InitClusterView`. -/
def InitClusterView {σ ε : Type} (S : Storage σ ε) (m : TopologyManagerImpl) (st : σ)
    (now : Nat) : Outcome σ ε Unit :=
  let clusterView : ClusterView :=
    { ClusterID := m.clusterID, Version := 0, State := .Empty, ShardNodes := [],
      CreatedAt := now }
  match S.CreateClusterView st clusterView with
  | (st', some e) =>
    ⟨m, st', [.CreateClusterView clusterView],
      .err (.WithMessage (.storage e) "create cluster view")⟩
  | (st', none) => ⟨m, st', [.CreateClusterView clusterView], .ok ()⟩

/-- Argument of `CreateShardViews`: a shard and its tables. -/
structure CreateShardView where
  ShardID : ShardID
  Tables : List TableID
deriving DecidableEq, Repr

/-- The loop of `CreateShardViews`: a view at version 0 for every listed shard. -/
def newShardViews (now : Nat) : List CreateShardView → List ShardView
  | [] => []
  | createShardView :: rest =>
    { ShardID := createShardView.ShardID, Version := 0, TableIDs := createShardView.Tables,
      CreatedAt := now } :: newShardViews now rest

/-- The method `TopologyManagerImpl.CreateShardViews`. -/
def CreateShardViews {σ ε : Type} (S : Storage σ ε) (m : TopologyManagerImpl) (st : σ)
    (now : Nat) (createShardViews : List CreateShardView) : Outcome σ ε Unit :=
  let req : CreateShardViewsRequest :=
    { ClusterID := m.clusterID, ShardViews := newShardViews now createShardViews }
  match S.CreateShardViews st req with
  | (st', some e) =>
    ⟨m, st', [.CreateShardViews req], .err (.WithMessage (.storage e) "create shard view")⟩
  | (st', none) =>
    let o := (loadShardView S m st').andThen "load shard view" fun m₁ st₁ =>
      ⟨m₁, st₁, [], .ok ()⟩
    ⟨o.mem, o.store, .CreateShardViews req :: o.calls, o.result⟩

/-! ## Read paths -/

/-- The inner loop of `GetTableIDs`: the first shard node of the list on
`nodeName` (the loop breaks there). -/
def findShardNode (nodeName : String) : List ShardNode → Option ShardNode
  | [] => none
  | shardNode :: rest =>
    if shardNode.Node = nodeName then some shardNode else findShardNode nodeName rest

/-- The outer loop of `GetTableIDs` over the requested shard IDs;
`m.shardTablesMapping[shardID]` is a pointer, reading a field of the nil
pointer of a missing shard panics. -/
def getTableIDsLoop (m : TopologyManagerImpl) (nodeName : String) :
    List ShardID → GoMap ShardID ShardTableIDs → Except Panic (GoMap ShardID ShardTableIDs)
  | [], shardTableIDs => .ok shardTableIDs
  | shardID :: rest, shardTableIDs =>
    match findShardNode nodeName ((m.shardNodesMapping.get? shardID).getD []) with
    | none => getTableIDsLoop m nodeName rest shardTableIDs
    | some shardNode =>
      match m.shardTablesMapping.get? shardID with
      | none => .error .nilPointerDereference
      | some shardView =>
        getTableIDsLoop m nodeName rest
          (shardTableIDs.set shardID
            { ShardNode := shardNode, TableIDs := shardView.TableIDs,
              Version := shardView.Version })

/-- The method `TopologyManagerImpl.GetTableIDs`. -/
def GetTableIDs (m : TopologyManagerImpl) (shardIDs : List ShardID) (nodeName : String) :
    Except Panic (GoMap ShardID ShardTableIDs) :=
  getTableIDsLoop m nodeName shardIDs GoMap.empty

/-- The loop of `GetShardNodesByTableIDs` over the listed table IDs. -/
def getShardNodesByTableIDsLoop (m : TopologyManagerImpl) :
    List TableID → GoMap TableID (List ShardNode) → GoMap ShardID Nat →
    Result Empty GetShardNodesByTableIDsResult
  | [], tableShardNodes, shardViewVersions =>
    .ok { ShardNodes := tableShardNodes, Version := shardViewVersions }
  | tableID :: rest, tableShardNodes, shardViewVersions =>
    match m.tableShardMapping.get? tableID with
    | none => .err (.TableNotFound tableID)
    | some shardID =>
      match m.shardNodesMapping.get? shardID with
      | none => .err (.ShardNotFound shardID)
      | some shardNodes =>
        match shardViewVersions.get? shardID with
        | some _ =>
          getShardNodesByTableIDsLoop m rest (tableShardNodes.set tableID shardNodes)
            shardViewVersions
        | none =>
          match m.shardTablesMapping.get? shardID with
          | none => .panic .nilPointerDereference
          | some shardView =>
            getShardNodesByTableIDsLoop m rest (tableShardNodes.set tableID shardNodes)
              (shardViewVersions.set shardID shardView.Version)

/-- The method `TopologyManagerImpl.GetShardNodesByTableIDs`. -/
def GetShardNodesByTableIDs (m : TopologyManagerImpl) (tableIDs : List TableID) :
    Result Empty GetShardNodesByTableIDsResult :=
  getShardNodesByTableIDsLoop m tableIDs GoMap.empty GoMap.empty

/-! ## A store that keeps what is written -/

/-- Errors of the storage adapter. -/
inductive StoreError where
  | NotFound
  | VersionMismatch
  | AlreadyExists
deriving DecidableEq, Repr

/-- Modelled from the spec: the persisted state of the storage adapter
(`server/storage`, of which only `key_path.go` is among the sources), one
map per key family of the key-path schema: the latest version and the
versioned blobs of the cluster views and of the shard views, and the nodes. -/
structure MemStore where
  clusterLatest : GoMap ClusterID Nat
  clusterViews : GoMap (ClusterID × Nat) ClusterView
  shardLatest : GoMap (ClusterID × ShardID) Nat
  shardViews : GoMap (ClusterID × ShardID × Nat) ShardView
  nodes : List (ClusterID × Node)
deriving DecidableEq, Repr

/-- Modelled from the spec: `CreateClusterView(cv)`, one transaction: if the
latest-version key is absent, put latest = 0 and the versioned blob. -/
def MemStore.CreateClusterView (st : MemStore) (cv : ClusterView) : MemStore × Option StoreError :=
  match st.clusterLatest.get? cv.ClusterID with
  | some _ => (st, some .AlreadyExists)
  | none =>
    ({ st with clusterLatest := st.clusterLatest.set cv.ClusterID 0,
               clusterViews := st.clusterViews.set (cv.ClusterID, cv.Version) cv }, none)

/-- Modelled from the spec: `UpdateClusterView(cv, expected)`, one transaction:
if latest = expected, put latest = expected + 1 and the versioned blob;
VersionMismatch otherwise. -/
def MemStore.UpdateClusterView (st : MemStore) (req : UpdateClusterViewRequest) :
    MemStore × Option StoreError :=
  if st.clusterLatest.get? req.ClusterID = some req.LatestVersion then
    ({ st with
        clusterLatest := st.clusterLatest.set req.ClusterID (req.LatestVersion + 1),
        clusterViews :=
          st.clusterViews.set (req.ClusterID, req.ClusterView.Version) req.ClusterView }, none)
  else (st, some .VersionMismatch)

/-- Modelled from the spec: `GetClusterView(cluster_id)`: reads latest, then the
versioned blob; NotFound if latest is absent. -/
def MemStore.GetClusterView (st : MemStore) (clusterID : ClusterID) :
    MemStore × Except StoreError ClusterView :=
  match st.clusterLatest.get? clusterID with
  | none => (st, .error .NotFound)
  | some version =>
    match st.clusterViews.get? (clusterID, version) with
    | none => (st, .error .NotFound)
    | some cv => (st, .ok cv)

/-- Modelled from the spec: the writes of `CreateShardViews`, view by view, each
as `CreateClusterView` does; `none` as soon as one view already exists. -/
def MemStore.createShardViewsLoop (clusterID : ClusterID) :
    List ShardView → MemStore → Option MemStore
  | [], st => some st
  | view :: rest, st =>
    match st.shardLatest.get? (clusterID, view.ShardID) with
    | some _ => none
    | none =>
      MemStore.createShardViewsLoop clusterID rest
        { st with
          shardLatest := st.shardLatest.set (clusterID, view.ShardID) 0,
          shardViews := st.shardViews.set (clusterID, view.ShardID, view.Version) view }

/-- Modelled from the spec: `CreateShardViews(cluster_id, views)`; no view is
written unless all are. -/
def MemStore.CreateShardViews (st : MemStore) (req : CreateShardViewsRequest) :
    MemStore × Option StoreError :=
  match MemStore.createShardViewsLoop req.ClusterID req.ShardViews st with
  | some st' => (st', none)
  | none => (st, some .AlreadyExists)

/-- Modelled from the spec: `UpdateShardView(cluster_id, view, expected)`, the
same optimistic contract as `UpdateClusterView`. -/
def MemStore.UpdateShardView (st : MemStore) (req : PutShardViewRequest) :
    MemStore × Option StoreError :=
  if st.shardLatest.get? (req.ClusterID, req.ShardView.ShardID) = some req.LatestVersion then
    ({ st with
        shardLatest :=
          st.shardLatest.set (req.ClusterID, req.ShardView.ShardID) (req.LatestVersion + 1),
        shardViews :=
          st.shardViews.set (req.ClusterID, req.ShardView.ShardID, req.ShardView.Version)
            req.ShardView }, none)
  else (st, some .VersionMismatch)

/-- Modelled from the spec: the reads of `ListShardViews`: for each listed shard
its latest version, then its blob; shards without a visible view are left out. -/
def MemStore.listShardViewsLoop (st : MemStore) (clusterID : ClusterID) :
    List ShardID → List ShardView
  | [] => []
  | shardID :: rest =>
    match st.shardLatest.get? (clusterID, shardID) with
    | none => MemStore.listShardViewsLoop st clusterID rest
    | some version =>
      match st.shardViews.get? (clusterID, shardID, version) with
      | none => MemStore.listShardViewsLoop st clusterID rest
      | some view => view :: MemStore.listShardViewsLoop st clusterID rest

/-- Modelled from the spec: `ListShardViews(cluster_id, shard_ids)`. -/
def MemStore.ListShardViews (st : MemStore) (req : ListShardViewsRequest) :
    MemStore × Except StoreError (List ShardView) :=
  (st, .ok (MemStore.listShardViewsLoop st req.ClusterID req.ShardIDs))

/-- Modelled from the spec: `ListNodes(cluster_id)`, the range scan under the
node keys of the cluster. -/
def MemStore.ListNodes (st : MemStore) (clusterID : ClusterID) :
    MemStore × Except StoreError (List Node) :=
  (st, .ok ((st.nodes.filter (fun e => decide (e.1 = clusterID))).map Prod.snd))

/-- Modelled from the spec: the storage adapter over `MemStore`, as an
implementation of the interface the manager calls. -/
def memStorage : Storage MemStore StoreError where
  UpdateShardView := MemStore.UpdateShardView
  CreateClusterView := MemStore.CreateClusterView
  UpdateClusterView := MemStore.UpdateClusterView
  GetClusterView := MemStore.GetClusterView
  CreateShardViews := MemStore.CreateShardViews
  ListShardViews := MemStore.ListShardViews
  ListNodes := MemStore.ListNodes

/-! ## Scenario state -/

/-- The function `NewTopologyManagerImpl`: every protected field has its zero
value. -/
def NewTopologyManagerImpl (clusterID : ClusterID) : TopologyManagerImpl :=
  { clusterID := clusterID,
    clusterView := ⟨0, 0, .Empty, [], 0⟩,
    shardNodesMapping := GoMap.empty,
    nodeShardsMapping := GoMap.empty,
    shardTablesMapping := GoMap.empty,
    tableShardMapping := GoMap.empty,
    nodes := GoMap.empty }

/-- Cluster view of the placement scenario: node n1 leads shards 1 and 3 and
follows shard 2, node n2 leads shard 2, node n3 follows shard 1. -/
def scenarioClusterView : ClusterView :=
  ⟨1, 0, .Stable,
    [⟨1, .Leader, "n1"⟩, ⟨3, .Leader, "n1"⟩, ⟨2, .Leader, "n2"⟩, ⟨2, .Follower, "n1"⟩,
     ⟨1, .Follower, "n3"⟩], 5⟩

/-- Store of the placement scenario: cluster 1 with `scenarioClusterView`;
shard 1 holds table 7, shards 2 and 3 hold no table, all at version 0. -/
def scenarioStore : MemStore :=
  ⟨⟨[(1, 0)]⟩, ⟨[((1, 0), scenarioClusterView)]⟩,
    ⟨[((1, 1), 0), ((1, 2), 0), ((1, 3), 0)]⟩,
    ⟨[((1, 1, 0), ⟨1, 0, [7], 5⟩), ((1, 2, 0), ⟨2, 0, [], 5⟩), ((1, 3, 0), ⟨3, 0, [], 5⟩)]⟩,
    [(1, ⟨"n1", 0, .Online⟩), (1, ⟨"n2", 0, .Online⟩), (1, ⟨"n3", 0, .Online⟩)]⟩

/-- Manager of cluster 1 after `Load` from `scenarioStore`. -/
def scenarioManager : TopologyManagerImpl :=
  (Load memStorage (NewTopologyManagerImpl 1) scenarioStore).mem

/-- Equality by value of two in-memory states: the same cluster view and, in
each of the maps, the same value at every key. -/
def TopologyManagerImpl.SameAs (a b : TopologyManagerImpl) : Prop :=
  a.clusterView = b.clusterView ∧
  a.shardNodesMapping.SameAs b.shardNodesMapping ∧
  a.nodeShardsMapping.SameAs b.nodeShardsMapping ∧
  a.shardTablesMapping.SameAs b.shardTablesMapping ∧
  a.tableShardMapping.SameAs b.tableShardMapping ∧
  a.nodes.SameAs b.nodes

/-- Scenario: `RemoveTable(7)` at time 9 on the loaded scenario state. -/
def scenarioRemove : Outcome MemStore StoreError ShardVersionUpdate :=
  RemoveTable memStorage scenarioManager scenarioStore 9 7

/-- Scenario: `AddTable("n1", table 100)` at time 9 on the loaded scenario
state, the pick on shard 1. -/
def scenarioAdd : Outcome MemStore StoreError ShardVersionUpdate :=
  AddTable memStorage scenarioManager scenarioStore 0 9 "n1" ⟨100, "t", 0⟩

/-- State reached from the loaded scenario state by
`UpdateClusterView(Stable, [{4, leader, "n2"}])`: the new cluster view places
shard 4, for which no shard view was ever created. -/
def scenarioUpdate : Outcome MemStore StoreError Unit :=
  UpdateClusterView memStorage scenarioManager scenarioStore 9 .Stable [⟨4, .Leader, "n2"⟩]

/-- The entry `GetTableIDs` builds for a shard: the first shard node of the shard
on `nodeName`, with the table IDs and the version of the view of the shard. -/
def shardTableIDsOf (m : TopologyManagerImpl) (nodeName : String) (s : ShardID) :
    Option ShardTableIDs :=
  match findShardNode nodeName ((m.shardNodesMapping.get? s).getD []),
      m.shardTablesMapping.get? s with
  | some shardNode, some shardView =>
    some { ShardNode := shardNode, TableIDs := shardView.TableIDs, Version := shardView.Version }
  | _, _ => none

/-! ## States of the manager -/

/-- Every shard a table is mapped to has a shard view. -/
def TablesHaveViews (m : TopologyManagerImpl) : Prop :=
  ∀ t s, m.tableShardMapping.get? t = some s → ∃ v, m.shardTablesMapping.get? s = some v

/-- The states a manager goes through: the one `NewTopologyManagerImpl` makes, and
the memory after any call of a method that writes it, whatever the call
returns, over any store. -/
inductive Reachable {σ ε : Type} (S : Storage σ ε) : TopologyManagerImpl → Prop where
  | new (clusterID : ClusterID) : Reachable S (NewTopologyManagerImpl clusterID)
  | load {m : TopologyManagerImpl} (st : σ) :
    Reachable S m → Reachable S (Load S m st).mem
  | addTable {m : TopologyManagerImpl} (st : σ) (raw now : Nat) (nodeName : String)
      (table : Table) :
    Reachable S m → Reachable S (AddTable S m st raw now nodeName table).mem
  | removeTable {m : TopologyManagerImpl} (st : σ) (now : Nat) (tableID : TableID) :
    Reachable S m → Reachable S (RemoveTable S m st now tableID).mem
  | initClusterView {m : TopologyManagerImpl} (st : σ) (now : Nat) :
    Reachable S m → Reachable S (InitClusterView S m st now).mem
  | updateClusterView {m : TopologyManagerImpl} (st : σ) (now : Nat) (state : ClusterState)
      (shardNodes : List ShardNode) :
    Reachable S m → Reachable S (UpdateClusterView S m st now state shardNodes).mem
  | createShardViews {m : TopologyManagerImpl} (st : σ) (now : Nat)
      (createShardViews : List CreateShardView) :
    Reachable S m → Reachable S (CreateShardViews S m st now createShardViews).mem

/-! ## Invariant I1 and runs of calls -/

/-- Invariant I1: every table ID is on the table list of at most one shard
view of the manager. -/
def I1 (m : TopologyManagerImpl) : Prop :=
  ∀ (s₁ s₂ : ShardID) (v₁ v₂ : ShardView) (t : TableID),
    m.shardTablesMapping.get? s₁ = some v₁ → m.shardTablesMapping.get? s₂ = some v₂ →
    t ∈ v₁.TableIDs → t ∈ v₂.TableIDs → s₁ = s₂

/-- Table `t` is on the view of a shard other than `shardID`. -/
def onOtherShard (m : TopologyManagerImpl) (shardID : ShardID) (t : TableID) : Bool :=
  m.shardTablesMapping.keys.any fun s =>
    decide (s ≠ shardID) &&
      match m.shardTablesMapping.get? s with
      | some v => decide (t ∈ v.TableIDs)
      | none => false

/-- One call of a write path on shard views, with its arguments, the time and
the output of the random source. -/
inductive Op where
  | AddTable (nodeName : String) (table : Table) (raw now : Nat)
  | RemoveTable (tableID : TableID) (now : Nat)
deriving DecidableEq, Repr

/-- The call `op` on memory `m` and store `st`. -/
def applyOp {σ ε : Type} (S : Storage σ ε) (m : TopologyManagerImpl) (st : σ) :
    Op → Outcome σ ε ShardVersionUpdate
  | .AddTable nodeName table raw now => AddTable S m st raw now nodeName table
  | .RemoveTable tableID now => RemoveTable S m st now tableID

/-- The calls of the list in order, each on the memory and the store the one
before left; `none` as soon as a call does not return a value. -/
def runOps {σ ε : Type} (S : Storage σ ε) :
    TopologyManagerImpl → σ → List Op → Option (TopologyManagerImpl × σ)
  | m, st, [] => some (m, st)
  | m, st, op :: rest =>
    match (applyOp S m st op).result with
    | .ok _ => runOps S (applyOp S m st op).mem (applyOp S m st op).store rest
    | _ => none

/-- Along the run of the list, every `AddTable` is given a table ID that, when
the call is made, is on no shard view other than the one the call picks. -/
def addsAvoidOtherShards {σ ε : Type} (S : Storage σ ε) :
    TopologyManagerImpl → σ → List Op → Bool
  | _, _, [] => true
  | m, st, op :: rest =>
    (match op, (applyOp S m st op).result with
      | .AddTable _ table _ _, .ok u => !onOtherShard m u.ShardID table.ID
      | _, _ => true) &&
    addsAvoidOtherShards S (applyOp S m st op).mem (applyOp S m st op).store rest

/-! ## Invariant I2 and the bootstrap scenario -/

/-- Scenario: `UpdateClusterView(Stable, [{1, follower, "n3"}, {1, leader, "n1"}])`
at time 9 on the loaded scenario state: the follower of shard 1 is listed
before its leader. -/
def scenarioReorder : Outcome MemStore StoreError Unit :=
  UpdateClusterView memStorage scenarioManager scenarioStore 9 .Stable
    [⟨1, .Follower, "n3"⟩, ⟨1, .Leader, "n1"⟩]

/-- Store with no key. -/
def emptyStore : MemStore := ⟨GoMap.empty, GoMap.empty, GoMap.empty, GoMap.empty, []⟩

/-- Bootstrap, second step: `InitClusterView` at time 5 by a new manager of
cluster 1 on the empty store. -/
def bootstrapInit : Outcome MemStore StoreError Unit :=
  InitClusterView memStorage (NewTopologyManagerImpl 1) emptyStore 5

/-- Bootstrap, third step: `CreateShardViews` for shards 1 to 4 without tables,
after `bootstrapInit`. -/
def bootstrapCreate : Outcome MemStore StoreError Unit :=
  CreateShardViews memStorage bootstrapInit.mem bootstrapInit.store 5
    [⟨1, []⟩, ⟨2, []⟩, ⟨3, []⟩, ⟨4, []⟩]

/-! ## Lease (`server/member/lease.go`) -/

/-- An instant (`time.Time`), in nanoseconds counted from the zero value of
`time.Time`; no instant before the zero value occurs. -/
abbrev Time := Nat

/-- The fields of `lease` the methods below read or write; `rawLease` is the
etcd client, its answers are arguments of the methods. -/
structure lease where
  rpcTimeout : Nat
  ttlSec : Int
  ID : Int
  expireTime : Time
deriving DecidableEq, Repr

/-- The function `newLease`: `ID` and `expireTime` have their zero values. -/
def newLease (rpcTimeout : Nat) (ttlSec : Int) : lease :=
  { rpcTimeout := rpcTimeout, ttlSec := ttlSec, ID := 0, expireTime := 0 }

/-- The method `lease.setExpireTime`. -/
def lease.setExpireTime (l : lease) (newExpireTime : Time) : lease :=
  { l with expireTime := newExpireTime }

/-- The method `lease.getExpireTime`. -/
def lease.getExpireTime (l : lease) : Time := l.expireTime

/-- The method `lease.IsLeader`; `now` is the value of `time.Now()`, and
`t.After(u)` holds when `t` is strictly later than `u`. -/
def lease.IsLeader (l : lease) (now : Time) : Bool :=
  decide (now > l.getExpireTime)

/-- The constant `waitReasonFailEtcd`. -/
def waitReasonFailEtcd : String := "fail to access etcd"

/-- The constant `waitReasonResetLeader`. -/
def waitReasonResetLeader : String := "leader is reset"

/-- The constant `waitReasonElectLeader`. -/
def waitReasonElectLeader : String := "leader is electing"

/-- The constant `waitReasonNoWait`. -/
def waitReasonNoWait : String := ""

/-- The leader a `GetLeader` answer names; only `Id` is read by the watcher. -/
structure MemberDescriptor where
  Id : Nat
  Name : String
deriving DecidableEq, Repr

/-- Answer of `Member.GetLeader`: the leader, if the leader key exists, and the
revision of the read. -/
structure GetLeaderResp where
  Leader : Option MemberDescriptor
  Revision : Int
deriving DecidableEq, Repr

/-- The call on the member one round of `Watch` makes after `GetLeader`. -/
inductive WatchAction where
  | CampaignAndKeepLeader (leaseTTLSec : Int)
  | WaitForLeaderChange (revision : Int)
  | ResetLeader
deriving DecidableEq, Repr

/-- What one round of the loop of `Watch` did: it returned, or it went through:
whether it slept first, the call it made on the member after `GetLeader` (if
any) and the value of `wait` for the next round. -/
inductive WatchRound where
  | stopped
  | continued (slept : Bool) (action : Option WatchAction) (wait : String)
deriving DecidableEq, Repr

/-- One round of the loop of `Watch`.  Arguments: the IDs of the member and of
the etcd leader, the lease TTL, the value of `wait` left by the round before,
whether `ShouldStop()` holds and whether the context is done, the answer of
`GetLeader` (`none` for an error), and whether `CampaignAndKeepLeader` and
`ResetLeader` return an error if the round calls them. -/
def watchRound (selfID etcdLeaderID : Nat) (leaseTTLSec : Int) (wait : String)
    (shouldStop ctxDone : Bool) (leaderResp : Option GetLeaderResp)
    (campaignFails resetFails : Bool) : WatchRound :=
  if shouldStop then .stopped
  else if ctxDone then .stopped
  else
    let slept := decide (wait ≠ waitReasonNoWait)
    match leaderResp with
    | none => .continued slept none waitReasonFailEtcd
    | some resp =>
      match resp.Leader with
      | none =>
        if selfID = etcdLeaderID then
          if campaignFails then
            .continued slept (some (.CampaignAndKeepLeader leaseTTLSec)) waitReasonFailEtcd
          else .continued slept (some (.CampaignAndKeepLeader leaseTTLSec)) waitReasonNoWait
        else .continued slept none waitReasonElectLeader
      | some leader =>
        if etcdLeaderID = leader.Id then
          .continued slept (some (.WaitForLeaderChange resp.Revision)) waitReasonNoWait
        else if leader.Id = selfID then
          if resetFails then .continued slept (some .ResetLeader) waitReasonFailEtcd
          else .continued slept (some .ResetLeader) waitReasonNoWait
        else .continued slept none waitReasonResetLeader

/-! ## Transfer-leader procedure (`server/coordinator/procedure/transfer_leader.go`) -/

/-- The events of the procedure: `EventTransferLeader...`. -/
inductive TransferLeaderEvent where
  | EventTransferLeaderPrepare
  | EventTransferLeaderFailed
  | EventTransferLeaderSuccess
deriving DecidableEq, Repr

/-- The states of the state machine of the procedure: `StateTransferLeader...`. -/
inductive TransferLeaderState where
  | StateTransferLeaderBegin
  | StateTransferLeaderWaiting
  | StateTransferLeaderFinish
  | StateTransferLeaderFailed
deriving DecidableEq, Repr

/-- The state of a procedure: the type `State` of the package and its values. -/
inductive State where
  | StateInit
  | StateRunning
  | StateFinished
  | StateFailed
  | StateCancelled
deriving DecidableEq, Repr

/-- A shard replica as the procedure sees it: `clusterpb.Shard`. -/
structure Shard where
  Id : Nat
  ShardRole : ShardRole
  Node : String
deriving DecidableEq, Repr

/-- The table `transferLeaderEvents`: event, source states, destination. -/
def transferLeaderEvents :
    List (TransferLeaderEvent × List TransferLeaderState × TransferLeaderState) :=
  [(.EventTransferLeaderPrepare, [.StateTransferLeaderBegin], .StateTransferLeaderWaiting),
   (.EventTransferLeaderSuccess, [.StateTransferLeaderWaiting], .StateTransferLeaderFinish),
   (.EventTransferLeaderFailed, [.StateTransferLeaderWaiting], .StateTransferLeaderFailed)]

/-- Errors of the procedure: an error of a collaborator, a wrapped error
(`errors.WithMessage`), and the error `fsm.Event` returns for an event that
has no transition from the current state. -/
inductive ProcedureError (ε : Type) where
  | cause (e : ε)
  | WithMessage (inner : ProcedureError ε) (msg : String)
  | InvalidEvent (event : TransferLeaderEvent) (current : TransferLeaderState)
deriving DecidableEq, Repr

/-- The function `errors.WithMessage`: nil for a nil error. -/
def withMessage {ε : Type} (err : Option (ProcedureError ε)) (msg : String) :
    Option (ProcedureError ε) :=
  err.map fun e => .WithMessage e msg

/-- What the procedure does to the outside, and the transitions of its state
machine, in the order they happen. -/
inductive Effect where
  | Transition (src dst : TransferLeaderState)
  | CloseShards (node : String) (shardIDs : List Nat)
  | OpenShards (node : String) (shardIDs : List Nat)
  | UpdateClusterTopology (state : ClusterState) (shardView : List Shard)
deriving DecidableEq, Repr

/-- The collaborators of the procedure, `dispatch.ActionDispatch` and
`cluster.Cluster`, as the answers they give; a call that returns an error
gives `some`. -/
structure Collaborators (ε : Type) where
  CloseShards : String → List Nat → Option ε
  OpenShards : String → List Nat → Option ε
  GetClusterShardView : Except ε (List Shard)
  GetClusterState : ClusterState
  UpdateClusterTopology : ClusterState → List Shard → Option ε

/-- What a callback did: its effects, and the error it passed to `event.Cancel`
(`none` when it did not cancel), or a panic. -/
structure CallbackOutcome (ε : Type) where
  effects : List Effect
  result : Except Panic (Option (ProcedureError ε))

/-- The function `transferLeaderPrepareCallback`. -/
def transferLeaderPrepareCallback {ε : Type} (c : Collaborators ε) (oldLeader newLeader : Shard) :
    CallbackOutcome ε :=
  match c.CloseShards oldLeader.Node [oldLeader.Id] with
  | some err =>
    ⟨[.CloseShards oldLeader.Node [oldLeader.Id]],
      .ok (some (.WithMessage (.cause err) "coordinator transferLeaderShard prepare callback"))⟩
  | none =>
    match c.OpenShards newLeader.Node [newLeader.Id] with
    | some err =>
      ⟨[.CloseShards oldLeader.Node [oldLeader.Id], .OpenShards newLeader.Node [newLeader.Id]],
        .ok (some (.WithMessage (.cause err)
          "coordinator transferLeaderShard prepare callback"))⟩
    | none =>
      ⟨[.CloseShards oldLeader.Node [oldLeader.Id], .OpenShards newLeader.Node [newLeader.Id]],
        .ok none⟩

/-- The function `transferLeaderFailedCallback`: it does nothing. -/
def transferLeaderFailedCallback {ε : Type} : CallbackOutcome ε := ⟨[], .ok none⟩

/-- The first loop of `transferLeaderSuccessCallback`: `oldLeaderIndex` is set
to every index `i` whose shard has the ID of the old leader, so it ends as
the last of them, or as it started. -/
def oldLeaderIndexLoop (oldLeaderId : Nat) : List Shard → Nat → Nat → Nat
  | [], _, oldLeaderIndex => oldLeaderIndex
  | shard :: rest, i, oldLeaderIndex =>
    if shard.Id = oldLeaderId then oldLeaderIndexLoop oldLeaderId rest (i + 1) i
    else oldLeaderIndexLoop oldLeaderId rest (i + 1) oldLeaderIndex

/-- The list `transferLeaderSuccessCallback` commits, from the shard view it
read: `append(shardView[:oldLeaderIndex], shardView[oldLeaderIndex+1:]...)`,
then the new leader appended; `none` when the slice expression panics
(`oldLeaderIndex + 1` beyond the length). -/
def newShardView (oldLeader newLeader : Shard) (shardView : List Shard) : Option (List Shard) :=
  let oldLeaderIndex := oldLeaderIndexLoop oldLeader.Id shardView 0 0
  if shardView.length < oldLeaderIndex + 1 then none
  else some (shardView.take oldLeaderIndex ++ shardView.drop (oldLeaderIndex + 1) ++ [newLeader])

/-- The function `transferLeaderSuccessCallback`. -/
def transferLeaderSuccessCallback {ε : Type} (c : Collaborators ε) (oldLeader newLeader : Shard) :
    CallbackOutcome ε :=
  match c.GetClusterShardView with
  | .error err =>
    ⟨[], .ok (some (.WithMessage (.cause err) "TransferLeaderProcedure success callback"))⟩
  | .ok shardView =>
    match newShardView oldLeader newLeader shardView with
    | none => ⟨[], .error .sliceBoundsOutOfRange⟩
    | some shardView' =>
      match c.UpdateClusterTopology c.GetClusterState shardView' with
      | some err =>
        ⟨[.UpdateClusterTopology c.GetClusterState shardView'],
          .ok (some (.WithMessage (.cause err)
            "TransferLeaderProcedure start success callback"))⟩
      | none => ⟨[.UpdateClusterTopology c.GetClusterState shardView'], .ok none⟩

/-- The table `transferLeaderCallbacks`: the callback registered under each
event name. -/
def transferLeaderCallbacks {ε : Type} (c : Collaborators ε) (oldLeader newLeader : Shard) :
    TransferLeaderEvent → CallbackOutcome ε
  | .EventTransferLeaderPrepare => transferLeaderPrepareCallback c oldLeader newLeader
  | .EventTransferLeaderFailed => transferLeaderFailedCallback
  | .EventTransferLeaderSuccess => transferLeaderSuccessCallback c oldLeader newLeader

/-- Destination of `event` from `current` in a table of events, if any. -/
def destination (current : TransferLeaderState) (event : TransferLeaderEvent) :
    List (TransferLeaderEvent × List TransferLeaderState × TransferLeaderState) →
    Option TransferLeaderState
  | [] => none
  | (name, src, dst) :: rest =>
    if name = event ∧ current ∈ src then some dst else destination current event rest

/-- What `fsm.Event` leaves: the current state, the effects, and the error it
returns, or a panic. -/
structure EventOutcome (ε : Type) where
  current : TransferLeaderState
  effects : List Effect
  result : Except Panic (Option (ProcedureError ε))

/-- The method `fsm.Event` of `github.com/looplab/fsm` (a library, v0.x, whose
`Event` takes no context), for the table `transferLeaderEvents` and a
callback registered under the plain name of the event.  Such a callback is
an after-event callback: without a transition for the event from the current
state `Event` returns an error and calls nothing; otherwise the state machine
moves to the destination first, then the callback runs, and `Event` returns
the error the callback passed to `Cancel`, which cannot undo the transition.
No event of the table leads to one of its own source states. -/
def Event {ε : Type} (current : TransferLeaderState) (event : TransferLeaderEvent)
    (callback : CallbackOutcome ε) : EventOutcome ε :=
  match destination current event transferLeaderEvents with
  | none => ⟨current, [], .ok (some (.InvalidEvent event current))⟩
  | some dst => ⟨dst, .Transition current dst :: callback.effects, callback.result⟩

/-- The fields of `TransferLeaderProcedure` that change or are read: the
current state of `fsm`, `id`, `state`, and the two leaders. -/
structure TransferLeaderProcedure where
  fsm : TransferLeaderState
  id : Nat
  state : State
  oldLeader : Shard
  newLeader : Shard
deriving DecidableEq, Repr

/-- The function `NewTransferLeaderProcedure`. -/
def NewTransferLeaderProcedure (oldLeader newLeader : Shard) (id : Nat) :
    TransferLeaderProcedure :=
  { fsm := .StateTransferLeaderBegin, id := id, state := .StateInit,
    oldLeader := oldLeader, newLeader := newLeader }

/-- What `Start` leaves: the procedure, the effects in order, and the error it
returns (`none` for nil), or a panic. -/
structure StartOutcome (ε : Type) where
  proc : TransferLeaderProcedure
  effects : List Effect
  result : Except Panic (Option (ProcedureError ε))

/-- The method `TransferLeaderProcedure.Start`. -/
def Start {ε : Type} (c : Collaborators ε) (p : TransferLeaderProcedure) : StartOutcome ε :=
  let callbacks := transferLeaderCallbacks c p.oldLeader p.newLeader
  let prepare := Event p.fsm .EventTransferLeaderPrepare
    (callbacks .EventTransferLeaderPrepare)
  match prepare.result with
  | .error panic =>
    ⟨{ p with state := .StateRunning, fsm := prepare.current }, prepare.effects, .error panic⟩
  | .ok (some _) =>
    let failed := Event prepare.current .EventTransferLeaderFailed
      (callbacks .EventTransferLeaderFailed)
    match failed.result with
    | .error panic =>
      ⟨{ p with state := .StateRunning, fsm := failed.current },
        prepare.effects ++ failed.effects, .error panic⟩
    | .ok err =>
      ⟨{ p with state := .StateFailed, fsm := failed.current },
        prepare.effects ++ failed.effects,
        .ok (withMessage err "coordinator transferLeaderShard start")⟩
  | .ok none =>
    let success := Event prepare.current .EventTransferLeaderSuccess
      (callbacks .EventTransferLeaderSuccess)
    match success.result with
    | .error panic =>
      ⟨{ p with state := .StateRunning, fsm := success.current },
        prepare.effects ++ success.effects, .error panic⟩
    | .ok (some err) =>
      ⟨{ p with state := .StateRunning, fsm := success.current },
        prepare.effects ++ success.effects,
        .ok (withMessage (some err) "coordinator transferLeaderShard start")⟩
    | .ok none =>
      ⟨{ p with state := .StateFinished, fsm := success.current },
        prepare.effects ++ success.effects, .ok none⟩

/-- Collaborators that give the same answer whatever they are asked: the errors
of `CloseShards`, `OpenShards` and `UpdateClusterTopology` (`none` for nil)
and the answer of `GetClusterShardView`; the cluster state is stable. -/
def fixedCollaborators (close open_ : Option String) (shardView : Except String (List Shard))
    (update : Option String) : Collaborators String :=
  { CloseShards := fun _ _ => close,
    OpenShards := fun _ _ => open_,
    GetClusterShardView := shardView,
    GetClusterState := .Stable,
    UpdateClusterTopology := fun _ _ => update }

/-! ## Key paths (`server/storage/key_path.go`) -/

/-- The function `fmtID`, `fmt.Sprintf("%020d", id)`: the decimal digits of `id`,
with zeros in front up to a width of 20. -/
def fmtID (id : Nat) : String :=
  String.mk (List.replicate (20 - (Nat.toDigits 10 id).length) '0' ++ Nat.toDigits 10 id)

/-- The loop of `path.Clean` (Go library), element by element: `out` holds the
elements kept so far, the last one first.  An empty element and `.` are
dropped; `..` removes the element kept last, unless there is none or it is a
`..` that was kept: then `..` is dropped in a rooted path and kept
otherwise; any other element is kept. -/
def cleanElements (rooted : Bool) : List (List Char) → List (List Char) → List (List Char)
  | [], out => out.reverse
  | element :: rest, out =>
    if element = [] then cleanElements rooted rest out
    else if element = ['.'] then cleanElements rooted rest out
    else if element = ['.', '.'] then
      match out with
      | last :: kept =>
        if last = ['.', '.'] then cleanElements rooted rest (element :: out)
        else cleanElements rooted rest kept
      | [] =>
        if rooted then cleanElements rooted rest [] else cleanElements rooted rest [element]
    else cleanElements rooted rest (element :: out)

/-- The function `path.Clean` of the Go library, on the characters of the path:
the shortest equivalent path (slashes merged, `.` elements dropped, `..`
elements resolved, no trailing slash), `.` for an empty result. -/
def Clean (path : List Char) : List Char :=
  if path = [] then ['.']
  else
    let rooted := decide (path.head? = some '/')
    let out := cleanElements rooted (path.splitOn '/') []
    let cleaned := (if rooted then ['/'] else []) ++ List.intercalate ['/'] out
    if cleaned = [] then ['.'] else cleaned

/-- The loop of `path.Join`: the elements in order, a slash between them;
empty elements in front are skipped. -/
def joinElements : List (List Char) → List Char → List Char
  | [], buf => buf
  | e :: rest, buf =>
    if buf ≠ [] ∨ e ≠ [] then
      joinElements rest ((if buf ≠ [] then buf ++ ['/'] else buf) ++ e)
    else joinElements rest buf

/-- The function `path.Join` of the Go library: the empty string when every
element is empty, otherwise `Clean` of the elements joined by slashes. -/
def Join (elem : List String) : String :=
  if joinElements (elem.map String.data) [] = [] then ""
  else String.mk (Clean (joinElements (elem.map String.data) []))

/-- The constant `version`. -/
def version : String := "v1"

/-- The constant `cluster`. -/
def cluster : String := "cluster"

/-- The constant `schema`. -/
def schema : String := "schema"

/-- The constant `table`. -/
def table : String := "table"

/-- The constant `tableNameToID`. -/
def tableNameToID : String := "table_name_to_id"

/-- The constant `shard`. -/
def shard : String := "shard"

/-- The constant `node`. -/
def node : String := "node"

/-- The constant `topology`. -/
def topology : String := "topo"

/-- The constant `latestVersion`. -/
def latestVersion : String := "latest_version"

/-- The constant `info`. -/
def info : String := "info"

/-- The function `makeSchemaKey`. -/
def makeSchemaKey (rootPath : String) (clusterID schemaID : Nat) : String :=
  Join [rootPath, version, cluster, fmtID clusterID, schema, info, fmtID schemaID]

/-- The function `makeClusterKey`. -/
def makeClusterKey (rootPath : String) (clusterID : Nat) : String :=
  Join [rootPath, version, cluster, info, fmtID clusterID]

/-- The function `makeClusterTopologyLatestVersionKey`. -/
def makeClusterTopologyLatestVersionKey (rootPath : String) (clusterID : Nat) : String :=
  Join [rootPath, version, cluster, fmtID clusterID, topology, latestVersion]

/-- The function `makeClusterTopologyKey`; its last argument is the version, as a
string. -/
def makeClusterTopologyKey (rootPath : String) (clusterID : Nat) (latestVersion : String) :
    String :=
  Join [rootPath, version, cluster, fmtID clusterID, topology, latestVersion]

/-- The function `makeShardLatestVersionKey`. -/
def makeShardLatestVersionKey (rootPath : String) (clusterID shardID : Nat) : String :=
  Join [rootPath, version, cluster, fmtID clusterID, shard, fmtID shardID, latestVersion]

/-- The function `makeShardTopologyKey`; its last argument is the version, as a
string. -/
def makeShardTopologyKey (rootPath : String) (clusterID shardID : Nat)
    (latestVersion : String) : String :=
  Join [rootPath, version, cluster, fmtID clusterID, shard, fmtID shardID, latestVersion]

/-- The function `makeNodeKey`. -/
def makeNodeKey (rootPath : String) (clusterID : Nat) (nodeName : String) : String :=
  Join [rootPath, version, cluster, fmtID clusterID, node, nodeName]

/-- The function `makeTableKey`. -/
def makeTableKey (rootPath : String) (clusterID schemaID tableID : Nat) : String :=
  Join [rootPath, version, cluster, fmtID clusterID, schema, fmtID schemaID, table,
    fmtID tableID]

/-- The function `makeNameToIDKey`. -/
def makeNameToIDKey (rootPath : String) (clusterID schemaID : Nat) (tableName : String) :
    String :=
  Join [rootPath, version, cluster, fmtID clusterID, schema, fmtID schemaID, tableNameToID,
    tableName]

/-- The digits of `id`, most significant first, with zeros in front up to 20
digits. -/
def paddedDigits (id : Nat) : List Nat :=
  List.replicate (20 - (Nat.digits 10 id).length) 0 ++ (Nat.digits 10 id).reverse

/-- The number a list of decimal digits writes, most significant digit first. -/
def digitsValue (l : List Nat) : Nat := l.foldl (fun n d => n * 10 + d) 0

/-- A path element that `path.Clean` keeps as it is: not empty, without a slash,
and neither `.` nor `..`. -/
def PlainElement (e : List Char) : Prop := e ≠ [] ∧ '/' ∉ e ∧ e ≠ ['.'] ∧ e ≠ ['.', '.']

/-- A path made of one or more plain elements with single slashes between
them, after a leading slash or not (as `/rootPath`). -/
def PlainPath (p : String) : Prop :=
  ∃ (rooted : Bool) (elements : List (List Char)), elements ≠ [] ∧
    (∀ e ∈ elements, PlainElement e) ∧
    p.data = (if rooted then ['/'] else []) ++ List.intercalate ['/'] elements

/-- Scenario: `RemoveTable(7)` a second time, at time 10, on the state and the
store left by `scenarioRemove`. -/
def scenarioRemoveAgain : Outcome MemStore StoreError ShardVersionUpdate :=
  RemoveTable memStorage scenarioRemove.mem scenarioRemove.store 10 7

/-- The leading slash `path.Clean` keeps in front of a key: one when the root
path starts with a slash. -/
def rootSlash (rootPath : String) : List Char :=
  if rootPath.data.head? = some '/' then ['/'] else []

/-- The elements `path.Clean` keeps of the root path. -/
def rootElements (rootPath : String) : List (List Char) :=
  cleanElements (decide (rootPath.data.head? = some '/')) (rootPath.data.splitOn '/') []

/-! ## Shard picker (spec §4.8; the sources hold its tests only) -/

/-- Modelled from the spec: the cluster snapshot the shard pickers read, whose
type is not in the sources: the shard views and the shard nodes of the cluster
view. -/
structure ClusterSnapshot where
  shardViews : List ShardView
  shardNodes : List ShardNode
deriving DecidableEq, Repr

/-- Modelled from the spec: the leader shards of a snapshot, the shard nodes with
role leader, in the order of the cluster view. -/
def leaderShards (snapshot : ClusterSnapshot) : List ShardNode :=
  snapshot.shardNodes.filter fun shardNode => decide (shardNode.ShardRole = .Leader)

/-- Modelled from the spec: the current `len(table_ids)` of a shard, from its
shard view; 0 for a shard without a view. -/
def tableCount (snapshot : ClusterSnapshot) (shardID : ShardID) : Nat :=
  match snapshot.shardViews.find? fun view => decide (view.ShardID = shardID) with
  | some view => view.TableIDs.length
  | none => 0

/-- Modelled from the spec: `count` passes over the shards laid end to end,
starting with pass number `k`. -/
def passesFrom (pass : Nat → List ShardNode) : Nat → Nat → List ShardNode
  | 0, _ => []
  | count + 1, k => pass k ++ passesFrom pass count (k + 1)

/-- Modelled from the spec: the first `min(n, len)` of the first pass, and as long
as fewer than `n` shards are taken, the next pass goes on; `n` passes are
enough, since a pass over one shard or more gives at least one. -/
def pickPasses (pass : Nat → List ShardNode) (n : Nat) : List ShardNode :=
  (passesFrom pass n 0).take n

/-- Modelled from the spec: `PickShards` of the random-balanced picker, which is
not in the sources.  Each pass shuffles the leader shards; `shuffle k` is the
shuffle of pass number `k`. -/
def RandomBalancedShardPicker.PickShards (shuffle : Nat → List ShardNode → List ShardNode)
    (snapshot : ClusterSnapshot) (expectShardNum : Nat) : List ShardNode :=
  pickPasses (fun k => shuffle k (leaderShards snapshot)) expectShardNum

/-- Modelled from the spec: the order of the least-table picker, by
`len(table_ids)` ascending, ties broken by shard ID. -/
def lessLoaded (snapshot : ClusterSnapshot) (a b : ShardNode) : Bool :=
  decide (tableCount snapshot a.ID < tableCount snapshot b.ID ∨
    (tableCount snapshot a.ID = tableCount snapshot b.ID ∧ a.ID ≤ b.ID))

/-- Modelled from the spec: the shards sorted by `lessLoaded`. -/
def sortByTableCount (snapshot : ClusterSnapshot) (shards : List ShardNode) : List ShardNode :=
  shards.insertionSort fun a b => lessLoaded snapshot a b = true

/-- Modelled from the spec: `PickShards` of the least-table picker, which is not
in the sources: the first `n` of the sorted leader shards, cycling from the
start when `n` exceeds their number. -/
def LeastTableShardPicker.PickShards (snapshot : ClusterSnapshot) (expectShardNum : Nat) :
    List ShardNode :=
  pickPasses (fun _ => sortByTableCount snapshot (leaderShards snapshot)) expectShardNum

/-- Snapshot of a stable cluster as in the tests of the pickers: four shards, 0
to 3, without tables, each with its leader, on two nodes. -/
def testSnapshot : ClusterSnapshot :=
  ⟨[⟨0, 0, [], 5⟩, ⟨1, 0, [], 5⟩, ⟨2, 0, [], 5⟩, ⟨3, 0, [], 5⟩],
   [⟨0, .Leader, "n1"⟩, ⟨1, .Leader, "n2"⟩, ⟨2, .Leader, "n1"⟩, ⟨3, .Leader, "n2"⟩]⟩

/-- Snapshot of `testSnapshot` after one table was placed on shard 0. -/
def placedSnapshot : ClusterSnapshot :=
  ⟨[⟨0, 1, [100], 5⟩, ⟨1, 0, [], 5⟩, ⟨2, 0, [], 5⟩, ⟨3, 0, [], 5⟩],
   [⟨0, .Leader, "n1"⟩, ⟨1, .Leader, "n2"⟩, ⟨2, .Leader, "n1"⟩, ⟨3, .Leader, "n2"⟩]⟩

/-- Snapshot with two shards, of which shard 2 has a follower and no leader. -/
def followerOnlySnapshot : ClusterSnapshot :=
  ⟨[⟨1, 0, [], 5⟩, ⟨2, 0, [], 5⟩], [⟨1, .Leader, "n1"⟩, ⟨2, .Follower, "n2"⟩]⟩

/-- Snapshot with two shards, of which shard 1 has a leader on two nodes (the
shape of cluster view the transfer-leader procedure can commit). -/
def twoLeadersSnapshot : ClusterSnapshot :=
  ⟨[⟨1, 0, [], 5⟩, ⟨2, 0, [], 5⟩],
   [⟨1, .Leader, "nA"⟩, ⟨1, .Leader, "nB"⟩, ⟨2, .Leader, "nC"⟩]⟩

/-! ## Lemmas on Go maps and primitives -/

namespace GoMap

variable {K V : Type} [DecidableEq K]

theorem lookup_insert (l : List (K × V)) (k k' : K) (v : V) :
    lookup (insert l k v) k' = if k = k' then some v else lookup l k' := by
  induction l with
  | nil => simp [insert, lookup]
  | cons hd tl ih =>
    obtain ⟨a, b⟩ := hd
    by_cases hak : a = k
    · subst hak
      by_cases hk : a = k' <;> simp [insert, lookup, hk]
    · by_cases hk : k = k'
      · subst hk
        simp [insert, lookup, hak, ih]
      · have hkk : ¬ k' = k := fun h => hk h.symm
        by_cases hak' : a = k' <;> simp [insert, lookup, hak, hak', hk, hkk, ih]

theorem get?_set (m : GoMap K V) (k k' : K) (v : V) :
    (m.set k v).get? k' = if k = k' then some v else m.get? k' := by
  simp [get?, set, lookup_insert]

theorem get?_set_self (m : GoMap K V) (k : K) (v : V) : (m.set k v).get? k = some v := by
  simp [get?_set]

theorem get?_set_ne (m : GoMap K V) {k k' : K} (v : V) (h : k ≠ k') :
    (m.set k v).get? k' = m.get? k' := by
  simp [get?_set, h]

theorem get?_empty (k : K) : (empty : GoMap K V).get? k = none := rfl

theorem mem_entries_of_lookup {l : List (K × V)} {k : K} {v : V} (h : lookup l k = some v) :
    (k, v) ∈ l := by
  induction l with
  | nil => simp [lookup] at h
  | cons hd tl ih =>
    obtain ⟨a, b⟩ := hd
    by_cases hak : a = k
    · subst hak
      simp [lookup] at h
      simp [h]
    · simp [lookup, hak] at h
      exact List.mem_cons_of_mem _ (ih h)

theorem mem_entries_of_get? {m : GoMap K V} {k : K} {v : V} (h : m.get? k = some v) :
    (k, v) ∈ m.entries :=
  mem_entries_of_lookup h

end GoMap

theorem goCopy_goMake_zero (src : List TableID) : goCopy (goMake 0) src = [] := by
  simp [goCopy, goMake]

theorem mem_leaderShardIDs {nodeName : String} {l : List ShardNode} {s : ShardID} :
    s ∈ leaderShardIDs nodeName l ↔
      ∃ sn ∈ l, sn.Node = nodeName ∧ sn.ShardRole = ShardRole.Leader ∧ sn.ID = s := by
  induction l with
  | nil => simp [leaderShardIDs]
  | cons hd tl ih =>
    by_cases h : hd.Node = nodeName ∧ hd.ShardRole = ShardRole.Leader
    · simp only [leaderShardIDs, h, and_self, if_true, List.mem_cons, ih]
      constructor
      · rintro (rfl | ⟨sn, hsn, h1, h2, h3⟩)
        · exact ⟨hd, Or.inl rfl, h.1, h.2, rfl⟩
        · exact ⟨sn, Or.inr hsn, h1, h2, h3⟩
      · rintro ⟨sn, hsn | hsn, h1, h2, h3⟩
        · subst hsn
          exact Or.inl h3.symm
        · exact Or.inr ⟨sn, hsn, h1, h2, h3⟩
    · simp only [leaderShardIDs, h, if_false, ih, List.mem_cons]
      constructor
      · rintro ⟨sn, hsn, h1, h2, h3⟩
        exact ⟨sn, Or.inr hsn, h1, h2, h3⟩
      · rintro ⟨sn, hsn | hsn, h1, h2, h3⟩
        · subst hsn
          exact absurd ⟨h1, h2⟩ h
        · exact ⟨sn, hsn, h1, h2, h3⟩

theorem removeTableID_eq_filter (tableID : TableID) (l : List TableID) :
    removeTableID tableID l = l.filter (fun id => decide (id ≠ tableID)) := by
  induction l with
  | nil => rfl
  | cons hd tl ih =>
    by_cases h : hd = tableID <;> simp [removeTableID, h, ih]

theorem mem_removeTableID {tableID t : TableID} {l : List TableID} :
    t ∈ removeTableID tableID l ↔ t ∈ l ∧ t ≠ tableID := by
  simp [removeTableID_eq_filter]

/-! ## What the write paths do -/

/-- Every way `AddTable` returns a value: the shard is one `nodeName` leads, it
has a view, one storage call was made and accepted, and the memory is the old
one with the new view, whose table IDs are the result of `copy` into a slice
of length 0 followed by the new ID, under the shard and the table mapped to
the shard. -/
theorem AddTable_ok {σ ε : Type} (S : Storage σ ε) (m : TopologyManagerImpl) (st : σ)
    (raw now : Nat) (nodeName : String) (table : Table) (u : ShardVersionUpdate)
    (h : (AddTable S m st raw now nodeName table).result = .ok u) :
    ∃ shardView : ShardView,
      u.ShardID ∈ leaderShardIDs nodeName ((m.nodeShardsMapping.get? nodeName).getD []) ∧
      m.shardTablesMapping.get? u.ShardID = some shardView ∧
      u.PrevVersion = shardView.Version ∧
      u.CurrVersion = u64add shardView.Version 1 ∧
      (AddTable S m st raw now nodeName table).calls =
        [.UpdateShardView ⟨m.clusterID,
          ⟨u.ShardID, u64add shardView.Version 1, [table.ID], now⟩, shardView.Version⟩] ∧
      (S.UpdateShardView st ⟨m.clusterID,
          ⟨u.ShardID, u64add shardView.Version 1, [table.ID], now⟩, shardView.Version⟩).2 = none ∧
      (AddTable S m st raw now nodeName table).mem =
        { m with
          shardTablesMapping :=
            m.shardTablesMapping.set u.ShardID
              ⟨u.ShardID, u64add shardView.Version 1, [table.ID], now⟩,
          tableShardMapping := m.tableShardMapping.set table.ID u.ShardID } := by
  unfold AddTable at h ⊢
  simp only [goCopy_goMake_zero, List.nil_append] at h ⊢
  split at h
  · simp at h
  · rename_i idx hidx
    split at h
    · simp at h
    · rename_i shardID hget
      split at h
      · simp at h
      · rename_i shardView hview
        split at h
        · simp at h
        · rename_i st' hst
          simp only [Result.ok.injEq] at h
          subst h
          refine ⟨shardView, ?_, hview, rfl, rfl, ?_⟩
          · exact List.get?_mem hget
          · simp [hidx, hget, hview, hst]

/-- Every way `RemoveTable` returns a value: the table is mapped to the shard,
the shard has a view, one storage call was made and accepted, and the memory
is the old one with the version and the table IDs of that view replaced. -/
theorem RemoveTable_ok {σ ε : Type} (S : Storage σ ε) (m : TopologyManagerImpl) (st : σ)
    (now : Nat) (tableID : TableID) (u : ShardVersionUpdate)
    (h : (RemoveTable S m st now tableID).result = .ok u) :
    ∃ shardView : ShardView,
      m.tableShardMapping.get? tableID = some u.ShardID ∧
      m.shardTablesMapping.get? u.ShardID = some shardView ∧
      u.PrevVersion = shardView.Version ∧
      u.CurrVersion = u64add shardView.Version 1 ∧
      (RemoveTable S m st now tableID).calls =
        [.UpdateShardView ⟨m.clusterID,
          ⟨shardView.ShardID, u64add shardView.Version 1,
            removeTableID tableID shardView.TableIDs, now⟩, shardView.Version⟩] ∧
      (S.UpdateShardView st ⟨m.clusterID,
          ⟨shardView.ShardID, u64add shardView.Version 1,
            removeTableID tableID shardView.TableIDs, now⟩, shardView.Version⟩).2 = none ∧
      (RemoveTable S m st now tableID).mem =
        { m with
          shardTablesMapping :=
            m.shardTablesMapping.set u.ShardID
              ⟨shardView.ShardID, u64add shardView.Version 1,
                removeTableID tableID shardView.TableIDs, shardView.CreatedAt⟩ } := by
  unfold RemoveTable at h ⊢
  split at h
  · simp at h
  · rename_i shardID hmap
    split at h
    · simp at h
    · rename_i shardView hview
      dsimp only at h ⊢
      split at h
      · simp at h
      · rename_i st' hst
        simp only [Result.ok.injEq] at h
        subst h
        refine ⟨shardView, hmap, hview, rfl, rfl, ?_⟩
        simp [hmap, hview, hst]

/-! ## C1 – C3 -/

/-- C1 (code defect): on the scenario state node n1 leads shard 1, which holds
table 7 at version 0.  `AddTable("n1", table 100)` with the pick on shard 1
succeeds and commits version 1, but the table IDs it sends to storage and keeps
in memory are `[100]`: table 7, on the shard before the call, is not on it
afterwards. -/
theorem AddTable_drops_previous_table_ids :
    scenarioManager.shardTablesMapping.get? 1 = some ⟨1, 0, [7], 5⟩ ∧
    (AddTable memStorage scenarioManager scenarioStore 0 9 "n1" ⟨100, "t", 0⟩).result =
      .ok ⟨1, 1, 0⟩ ∧
    (AddTable memStorage scenarioManager scenarioStore 0 9 "n1" ⟨100, "t", 0⟩).calls =
      [.UpdateShardView ⟨1, ⟨1, 1, [100], 9⟩, 0⟩] ∧
    (AddTable memStorage scenarioManager scenarioStore 0 9 "n1"
        ⟨100, "t", 0⟩).mem.shardTablesMapping.get? 1 = some ⟨1, 1, [100], 9⟩ ∧
    (AddTable memStorage scenarioManager scenarioStore 0 9 "n1"
        ⟨100, "t", 0⟩).store.shardViews.get? (1, 1, 1) = some ⟨1, 1, [100], 9⟩ := by
  decide

/-- C2 (code defect): in every state in which `nodeName` leads no shard (its
entry in `nodeShardsMapping` holds no shard node on that node with role
leader, or it has no entry), for every storage, pick and table, `AddTable`
panics inside `rand.Int31n(0)` instead of returning an error; it makes no
storage call and leaves memory and store as they were. -/
theorem AddTable_panics_without_leader_shard {σ ε : Type} (S : Storage σ ε)
    (m : TopologyManagerImpl) (st : σ) (raw now : Nat) (nodeName : String) (table : Table)
    (hnone : ∀ sn ∈ (m.nodeShardsMapping.get? nodeName).getD [],
      ¬ (sn.Node = nodeName ∧ sn.ShardRole = ShardRole.Leader)) :
    (AddTable S m st raw now nodeName table).result = .panic .int31nInvalidArgument ∧
    (AddTable S m st raw now nodeName table).calls = [] ∧
    (AddTable S m st raw now nodeName table).mem = m ∧
    (AddTable S m st raw now nodeName table).store = st := by
  have hnil : leaderShardIDs nodeName ((m.nodeShardsMapping.get? nodeName).getD []) = [] := by
    apply List.eq_nil_iff_forall_not_mem.mpr
    intro s hs
    obtain ⟨sn, hsn, h₁, h₂, -⟩ := mem_leaderShardIDs.mp hs
    exact hnone sn hsn ⟨h₁, h₂⟩
  have hpanic : Int31n raw (toInt32 ([] : List ShardID).length) = none := rfl
  unfold AddTable
  simp only [hnil, hpanic, and_self]

/-- Witness for C2: on the loaded scenario state node n3 only follows shard 1 and
node n9 is unknown; `AddTable` for either panics. -/
theorem AddTable_panics_without_leader_shard_witness :
    (AddTable memStorage scenarioManager scenarioStore 0 9 "n3" ⟨100, "t", 0⟩).result =
      .panic .int31nInvalidArgument ∧
    (AddTable memStorage scenarioManager scenarioStore 0 9 "n9" ⟨100, "t", 0⟩).result =
      .panic .int31nInvalidArgument :=
  ⟨(AddTable_panics_without_leader_shard memStorage scenarioManager scenarioStore 0 9 "n3"
      ⟨100, "t", 0⟩ (by decide)).1,
   (AddTable_panics_without_leader_shard memStorage scenarioManager scenarioStore 0 9 "n9"
      ⟨100, "t", 0⟩ (by decide)).1⟩

/-- C3: atomicity of the write paths.  For every storage implementation and
every state: whenever the storage call `AddTable` or `RemoveTable` makes, or
either of the two storage calls `UpdateClusterView` makes (the update, then the
read that reloads the view), returns an error `e`, the operation returns an
error whose cause is `e` and the in-memory state is the one before the call. -/
theorem write_paths_keep_memory_on_storage_error {σ ε : Type} (S : Storage σ ε)
    (m : TopologyManagerImpl) (st : σ) (now : Nat) :
    (∀ (raw : Nat) (nodeName : String) (table : Table) (req : PutShardViewRequest)
        (st' : σ) (e : ε),
      (AddTable S m st raw now nodeName table).calls = [.UpdateShardView req] →
      S.UpdateShardView st req = (st', some e) →
      (AddTable S m st raw now nodeName table).mem = m ∧
      ∃ err, (AddTable S m st raw now nodeName table).result = .err err ∧
        err.cause? = some e) ∧
    (∀ (tableID : TableID) (req : PutShardViewRequest) (st' : σ) (e : ε),
      (RemoveTable S m st now tableID).calls = [.UpdateShardView req] →
      S.UpdateShardView st req = (st', some e) →
      (RemoveTable S m st now tableID).mem = m ∧
      ∃ err, (RemoveTable S m st now tableID).result = .err err ∧ err.cause? = some e) ∧
    (∀ (state : ClusterState) (shardNodes : List ShardNode) (req : UpdateClusterViewRequest)
        (st' : σ) (e : ε),
      (UpdateClusterView S m st now state shardNodes).calls.head? =
        some (.UpdateClusterView req) →
      S.UpdateClusterView st req = (st', some e) →
      (UpdateClusterView S m st now state shardNodes).mem = m ∧
      ∃ err, (UpdateClusterView S m st now state shardNodes).result = .err err ∧
        err.cause? = some e) ∧
    (∀ (state : ClusterState) (shardNodes : List ShardNode) (req : UpdateClusterViewRequest)
        (st' st'' : σ) (e : ε),
      (UpdateClusterView S m st now state shardNodes).calls.head? =
        some (.UpdateClusterView req) →
      S.UpdateClusterView st req = (st', none) →
      S.GetClusterView st' m.clusterID = (st'', .error e) →
      (UpdateClusterView S m st now state shardNodes).mem = m ∧
      ∃ err, (UpdateClusterView S m st now state shardNodes).result = .err err ∧
        err.cause? = some e) := by
  refine ⟨?_, ?_, ?_, ?_⟩
  · intro raw nodeName table req st' e hcalls hst
    unfold AddTable at hcalls ⊢
    simp only [goCopy_goMake_zero, List.nil_append] at hcalls ⊢
    split at hcalls
    · simp at hcalls
    · split at hcalls
      · simp at hcalls
      · split at hcalls
        · simp at hcalls
        · split at hcalls
          · rename_i st₁ e₁ heq
            simp only [List.cons.injEq, StorageCall.UpdateShardView.injEq, and_true] at hcalls
            subst hcalls
            rw [heq] at hst
            simp only [Prod.mk.injEq, Option.some.injEq] at hst
            obtain ⟨rfl, rfl⟩ := hst
            exact ⟨rfl, _, rfl, by simp [Error.cause?]⟩
          · rename_i st₁ heq
            simp only [List.cons.injEq, StorageCall.UpdateShardView.injEq, and_true] at hcalls
            subst hcalls
            rw [heq] at hst
            simp at hst
  · intro tableID req st' e hcalls hst
    unfold RemoveTable at hcalls ⊢
    split at hcalls
    · simp at hcalls
    · split at hcalls
      · simp at hcalls
      · dsimp only at hcalls ⊢
        split at hcalls
        · rename_i st₁ e₁ heq
          simp only [List.cons.injEq, StorageCall.UpdateShardView.injEq, and_true] at hcalls
          subst hcalls
          rw [heq] at hst
          simp only [Prod.mk.injEq, Option.some.injEq] at hst
          obtain ⟨rfl, rfl⟩ := hst
          exact ⟨rfl, _, rfl, by simp [Error.cause?]⟩
        · rename_i st₁ heq
          simp only [List.cons.injEq, StorageCall.UpdateShardView.injEq, and_true] at hcalls
          subst hcalls
          rw [heq] at hst
          simp at hst
  · intro state shardNodes req st' e hcalls hst
    unfold UpdateClusterView at hcalls ⊢
    dsimp only at hcalls ⊢
    split at hcalls
    · rename_i st₁ e₁ heq
      simp only [List.head?_cons, Option.some.injEq, StorageCall.UpdateClusterView.injEq] at hcalls
      subst hcalls
      rw [heq] at hst
      simp only [Prod.mk.injEq, Option.some.injEq] at hst
      obtain ⟨rfl, rfl⟩ := hst
      exact ⟨rfl, _, rfl, by simp [Error.cause?]⟩
    · rename_i st₁ heq
      simp only [List.head?_cons, Option.some.injEq, StorageCall.UpdateClusterView.injEq] at hcalls
      subst hcalls
      rw [heq] at hst
      simp at hst
  · intro state shardNodes req st' st'' e hcalls hst hget
    unfold UpdateClusterView at hcalls ⊢
    dsimp only at hcalls ⊢
    split at hcalls
    · rename_i st₁ e₁ heq
      simp only [List.head?_cons, Option.some.injEq, StorageCall.UpdateClusterView.injEq] at hcalls
      subst hcalls
      rw [heq] at hst
      simp at hst
    · rename_i st₁ heq
      simp only [List.head?_cons, Option.some.injEq, StorageCall.UpdateClusterView.injEq] at hcalls
      subst hcalls
      rw [heq] at hst
      simp only [Prod.mk.injEq, and_true] at hst
      subst hst
      simp [heq, loadClusterView, hget, Outcome.andThen, Error.cause?]

/-- Witness for C3: on the scenario state with a store whose shard 1 has moved on to
version 3, `AddTable` gets a version mismatch from storage, returns an error
with that cause and keeps the memory. -/
theorem write_paths_keep_memory_on_storage_error_witness :
    (AddTable memStorage scenarioManager
        { scenarioStore with shardLatest := ⟨[((1, 1), 3), ((1, 2), 0), ((1, 3), 0)]⟩ }
        0 9 "n1" ⟨100, "t", 0⟩).mem = scenarioManager ∧
    ∃ err, (AddTable memStorage scenarioManager
        { scenarioStore with shardLatest := ⟨[((1, 1), 3), ((1, 2), 0), ((1, 3), 0)]⟩ }
        0 9 "n1" ⟨100, "t", 0⟩).result = .err err ∧
      err.cause? = some StoreError.VersionMismatch :=
  (write_paths_keep_memory_on_storage_error memStorage scenarioManager
      { scenarioStore with shardLatest := ⟨[((1, 1), 3), ((1, 2), 0), ((1, 3), 0)]⟩ } 9).1
    0 "n1" ⟨100, "t", 0⟩ ⟨1, ⟨1, 1, [100], 9⟩, 0⟩
    { scenarioStore with shardLatest := ⟨[((1, 1), 3), ((1, 2), 0), ((1, 3), 0)]⟩ }
    StoreError.VersionMismatch (by decide) (by decide)

/-! ## C4: invariant I1 -/

theorem GoMap.mem_keysOf {K V : Type} [DecidableEq K] {l : List (K × V)} {k : K} :
    k ∈ GoMap.keysOf l ↔ ∃ v, (k, v) ∈ l := by
  induction l with
  | nil => simp [GoMap.keysOf]
  | cons hd tl ih =>
    obtain ⟨a, b⟩ := hd
    simp only [GoMap.keysOf, List.mem_cons, List.mem_filter, ih, Prod.mk.injEq,
      decide_eq_true_eq]
    constructor
    · rintro (rfl | ⟨⟨v, hv⟩, _⟩)
      · exact ⟨b, Or.inl ⟨rfl, rfl⟩⟩
      · exact ⟨v, Or.inr hv⟩
    · rintro ⟨v, ⟨rfl, rfl⟩ | hv⟩
      · exact Or.inl rfl
      · by_cases hka : k = a
        · exact Or.inl hka
        · exact Or.inr ⟨⟨v, hv⟩, hka⟩

theorem GoMap.mem_keys_of_get? {K V : Type} [DecidableEq K] {m : GoMap K V} {k : K} {v : V}
    (h : m.get? k = some v) : k ∈ m.keys :=
  GoMap.mem_keysOf.mpr ⟨v, GoMap.mem_entries_of_get? h⟩

theorem onOtherShard_false {m : TopologyManagerImpl} {shardID : ShardID} {t : TableID}
    (h : onOtherShard m shardID t = false) {s : ShardID} {v : ShardView}
    (hs : s ≠ shardID) (hv : m.shardTablesMapping.get? s = some v) : t ∉ v.TableIDs := by
  intro ht
  have hk : s ∈ m.shardTablesMapping.keys := GoMap.mem_keys_of_get? hv
  have : onOtherShard m shardID t = true := by
    simp only [onOtherShard, List.any_eq_true]
    exact ⟨s, hk, by simp [hs, hv, ht]⟩
  rw [h] at this
  exact Bool.noConfusion this

/-- A check on the entries that gives I1. -/
theorem I1_of_entries {m : TopologyManagerImpl}
    (h : ∀ e₁ ∈ m.shardTablesMapping.entries, ∀ e₂ ∈ m.shardTablesMapping.entries,
      ∀ t ∈ e₁.2.TableIDs, t ∈ e₂.2.TableIDs → e₁.1 = e₂.1) : I1 m := by
  intro s₁ s₂ v₁ v₂ t h₁ h₂ ht₁ ht₂
  exact h (s₁, v₁) (GoMap.mem_entries_of_get? h₁) (s₂, v₂) (GoMap.mem_entries_of_get? h₂) t ht₁ ht₂

/-- Replacing the view of one shard keeps I1 when no table of the new view is
on the view of another shard. -/
theorem I1_set {m m' : TopologyManagerImpl} {shardID : ShardID} {view : ShardView}
    (hI : I1 m) (hm : m'.shardTablesMapping = m.shardTablesMapping.set shardID view)
    (hnew : ∀ s v, s ≠ shardID → m.shardTablesMapping.get? s = some v →
      ∀ t ∈ view.TableIDs, t ∉ v.TableIDs) : I1 m' := by
  intro s₁ s₂ v₁ v₂ t h₁ h₂ ht₁ ht₂
  rw [hm, GoMap.get?_set] at h₁ h₂
  by_cases e₁ : shardID = s₁
  · by_cases e₂ : shardID = s₂
    · exact e₁.symm.trans e₂
    · rw [if_pos e₁] at h₁
      rw [if_neg e₂] at h₂
      cases h₁
      exact absurd ht₂ (hnew s₂ v₂ (fun h => e₂ h.symm) h₂ t ht₁)
  · by_cases e₂ : shardID = s₂
    · rw [if_neg e₁] at h₁
      rw [if_pos e₂] at h₂
      cases h₂
      exact absurd ht₁ (hnew s₁ v₁ (fun h => e₁ h.symm) h₁ t ht₂)
    · rw [if_neg e₁] at h₁
      rw [if_neg e₂] at h₂
      exact hI s₁ s₂ v₁ v₂ t h₁ h₂ ht₁ ht₂

theorem AddTable_preserves_I1 {σ ε : Type} (S : Storage σ ε) (m : TopologyManagerImpl) (st : σ)
    (raw now : Nat) (nodeName : String) (table : Table) (u : ShardVersionUpdate)
    (hI : I1 m) (hok : (AddTable S m st raw now nodeName table).result = .ok u)
    (hfresh : onOtherShard m u.ShardID table.ID = false) :
    I1 (AddTable S m st raw now nodeName table).mem := by
  obtain ⟨shardView, -, -, -, -, -, -, hmem⟩ := AddTable_ok S m st raw now nodeName table u hok
  refine I1_set hI (congrArg TopologyManagerImpl.shardTablesMapping hmem) ?_
  intro s v hs hv t ht
  simp only [List.mem_singleton] at ht
  subst ht
  exact onOtherShard_false hfresh hs hv

theorem RemoveTable_preserves_I1 {σ ε : Type} (S : Storage σ ε) (m : TopologyManagerImpl)
    (st : σ) (now : Nat) (tableID : TableID) (u : ShardVersionUpdate)
    (hI : I1 m) (hok : (RemoveTable S m st now tableID).result = .ok u) :
    I1 (RemoveTable S m st now tableID).mem := by
  obtain ⟨shardView, -, hview, -, -, -, -, hmem⟩ := RemoveTable_ok S m st now tableID u hok
  refine I1_set hI (congrArg TopologyManagerImpl.shardTablesMapping hmem) ?_
  intro s v hs hv t ht ht'
  simp only [mem_removeTableID] at ht
  exact hs (hI s u.ShardID v shardView t hv hview ht' ht.1)

/-- C4 as stated fails: on the scenario state, which satisfies I1 (only shard 1
holds a table, table 7), `AddTable("n1", table 7)` with the pick on shard 3
succeeds, and afterwards table 7 is on the views of shard 1 and of shard 3. -/
theorem I1_broken_by_AddTable_of_placed_table :
    I1 scenarioManager ∧
    ∃ m' st', runOps memStorage scenarioManager scenarioStore
        [Op.AddTable "n1" ⟨7, "t", 0⟩ 1 9] = some (m', st') ∧ ¬ I1 m' := by
  refine ⟨I1_of_entries (by decide), _, _, rfl, ?_⟩
  intro h
  have := h 1 3 ⟨1, 0, [7], 5⟩ ⟨3, 1, [7], 9⟩ 7 (by decide) (by decide) (by decide) (by decide)
  exact absurd this (by decide)

/-- C4 (amended): from a state satisfying I1, after any finite sequence of
successful `AddTable` and `RemoveTable` calls (any storage, node names, table
IDs and picks) in which every `AddTable` is given a table ID that, when the
call is made, is on no shard view other than the one the call picks, I1 holds. -/
theorem I1_preserved_by_runs {σ ε : Type} (S : Storage σ ε) (ops : List Op)
    (m : TopologyManagerImpl) (st : σ) (m' : TopologyManagerImpl) (st' : σ)
    (hI : I1 m) (hrun : runOps S m st ops = some (m', st'))
    (hfresh : addsAvoidOtherShards S m st ops = true) : I1 m' := by
  induction ops generalizing m st with
  | nil =>
    simp only [runOps, Option.some.injEq, Prod.mk.injEq] at hrun
    exact hrun.1 ▸ hI
  | cons op rest ih =>
    simp only [runOps] at hrun
    simp only [addsAvoidOtherShards, Bool.and_eq_true] at hfresh
    obtain ⟨hop, hrest⟩ := hfresh
    split at hrun
    · rename_i u hok
      refine ih _ _ ?_ hrun hrest
      cases op with
      | AddTable nodeName table raw now =>
        simp only [applyOp] at hok hop ⊢
        simp only [hok, Bool.not_eq_true'] at hop
        exact AddTable_preserves_I1 S m st raw now nodeName table u hI hok hop
      | RemoveTable tableID now =>
        simp only [applyOp] at hok ⊢
        exact RemoveTable_preserves_I1 S m st now tableID u hI hok
    · simp at hrun

/-- Witness for C4 (amended): from the scenario state, add table 100 (lands on shard 3),
add table 101 (lands on shard 1), remove table 100. -/
theorem I1_preserved_by_runs_witness :
    I1 (RemoveTable memStorage
      (AddTable memStorage
        (AddTable memStorage scenarioManager scenarioStore 1 9 "n1" ⟨100, "t", 0⟩).mem
        (AddTable memStorage scenarioManager scenarioStore 1 9 "n1" ⟨100, "t", 0⟩).store
        0 10 "n1" ⟨101, "u", 0⟩).mem
      (AddTable memStorage
        (AddTable memStorage scenarioManager scenarioStore 1 9 "n1" ⟨100, "t", 0⟩).mem
        (AddTable memStorage scenarioManager scenarioStore 1 9 "n1" ⟨100, "t", 0⟩).store
        0 10 "n1" ⟨101, "u", 0⟩).store
      11 100).mem :=
  I1_preserved_by_runs memStorage
    [Op.AddTable "n1" ⟨100, "t", 0⟩ 1 9, Op.AddTable "n1" ⟨101, "u", 0⟩ 0 10,
      Op.RemoveTable 100 11]
    scenarioManager scenarioStore _ _ (I1_of_entries (by decide)) rfl (by decide)

/-! ## C5 – C8 -/

/-- C5 (code defect): over the store that keeps exactly what is written, `Load`
right after a successful `RemoveTable(7)` on the loaded scenario state does not
give back the state the manager holds: the manager still maps table 7 to shard
1 and keeps the old creation time of the view, the loaded state has no entry
for table 7 and the creation time sent to storage.  The same happens after a
successful `AddTable` on a shard that held a table: the manager still maps the
dropped table 7 to shard 1, the loaded state does not. -/
theorem Load_after_mutation_differs :
    scenarioRemove.result = .ok ⟨1, 1, 0⟩ ∧
    (Load memStorage scenarioRemove.mem scenarioRemove.store).result = .ok () ∧
    scenarioRemove.mem.tableShardMapping.get? 7 = some 1 ∧
    (Load memStorage scenarioRemove.mem scenarioRemove.store).mem.tableShardMapping.get? 7
      = none ∧
    scenarioRemove.mem.shardTablesMapping.get? 1 = some ⟨1, 1, [], 5⟩ ∧
    (Load memStorage scenarioRemove.mem scenarioRemove.store).mem.shardTablesMapping.get? 1
      = some ⟨1, 1, [], 9⟩ ∧
    ¬ (Load memStorage scenarioRemove.mem scenarioRemove.store).mem.SameAs
        scenarioRemove.mem ∧
    scenarioAdd.result = .ok ⟨1, 1, 0⟩ ∧
    (Load memStorage scenarioAdd.mem scenarioAdd.store).result = .ok () ∧
    scenarioAdd.mem.tableShardMapping.get? 7 = some 1 ∧
    (Load memStorage scenarioAdd.mem scenarioAdd.store).mem.tableShardMapping.get? 7 = none ∧
    ¬ (Load memStorage scenarioAdd.mem scenarioAdd.store).mem.SameAs scenarioAdd.mem := by
  refine ⟨by decide, by decide, by decide, by decide, by decide, by decide, ?_,
    by decide, by decide, by decide, by decide, ?_⟩
  · intro h
    exact absurd (h.2.2.2.2.1 7) (by decide)
  · intro h
    exact absurd (h.2.2.2.2.1 7) (by decide)

/-- C6: in every state where `tableID` is mapped to `shardID` and `shardID` has
the view `prev`, a successful `RemoveTable(tableID)` returns
`{ShardID = shardID, PrevVersion = prev.Version, CurrVersion = prev.Version + 1}`
(addition of `uint64`), makes exactly one storage call, `UpdateShardView` with
expected latest version `prev.Version` and a view of version `prev.Version + 1`
whose table IDs are those of `prev` without any occurrence of `tableID`, the
others in order, and holds afterwards, under `shardID`, a view with that
version and those table IDs.  The view sent to storage carries the shard ID
written in `prev`, which is `shardID` whenever views are stored under their own
ID. -/
theorem RemoveTable_commits_view_without_table {σ ε : Type} (S : Storage σ ε)
    (m : TopologyManagerImpl) (st : σ) (now : Nat) (tableID : TableID) (shardID : ShardID)
    (prev : ShardView) (u : ShardVersionUpdate)
    (hmap : m.tableShardMapping.get? tableID = some shardID)
    (hview : m.shardTablesMapping.get? shardID = some prev)
    (hok : (RemoveTable S m st now tableID).result = .ok u) :
    u = ⟨shardID, u64add prev.Version 1, prev.Version⟩ ∧
    (prev.Version + 1 < 2 ^ 64 → u.CurrVersion = prev.Version + 1) ∧
    (RemoveTable S m st now tableID).calls =
      [.UpdateShardView ⟨m.clusterID,
        ⟨prev.ShardID, u64add prev.Version 1,
          prev.TableIDs.filter (fun id => decide (id ≠ tableID)), now⟩, prev.Version⟩] ∧
    (RemoveTable S m st now tableID).mem.shardTablesMapping.get? shardID =
      some ⟨prev.ShardID, u64add prev.Version 1,
        prev.TableIDs.filter (fun id => decide (id ≠ tableID)), prev.CreatedAt⟩ := by
  obtain ⟨shardView, hmap', hview', hprev, hcurr, hcalls, -, hmem⟩ :=
    RemoveTable_ok S m st now tableID u hok
  have hs : u.ShardID = shardID := by
    rw [hmap] at hmap'
    exact (Option.some.inj hmap').symm
  rw [hs] at hview'
  have hv : shardView = prev := by
    rw [hview] at hview'
    exact (Option.some.inj hview').symm
  subst hv
  refine ⟨?_, ?_, ?_, ?_⟩
  · cases u
    simp only [ShardVersionUpdate.mk.injEq]
    exact ⟨hs, hcurr, hprev⟩
  · intro hlt
    rw [hcurr, u64add, Nat.mod_eq_of_lt hlt]
  · rw [hcalls, removeTableID_eq_filter]
  · rw [hmem, hs, removeTableID_eq_filter]
    exact GoMap.get?_set_self _ _ _

/-- Witness for C6: `RemoveTable(7)` on the scenario state, where table 7 is on shard 1
at version 0. -/
theorem RemoveTable_commits_view_without_table_witness :
    (RemoveTable memStorage scenarioManager scenarioStore 9 7).mem.shardTablesMapping.get? 1 =
      some ⟨1, u64add 0 1, [7].filter (fun id => decide (id ≠ 7)), 5⟩ :=
  (RemoveTable_commits_view_without_table memStorage scenarioManager scenarioStore 9 7 1
    ⟨1, 0, [7], 5⟩ ⟨1, 1, 0⟩ (by decide) (by decide) (by decide)).2.2.2

/-- C7: `RemoveTable(tableID)` returns TableNotFound exactly when `tableID` has no
entry in `tableShardMapping`, and ShardNotFound exactly when `tableID` is
mapped to a shard without a shard view; in both cases it makes no storage
call and leaves memory and store as they were. -/
theorem RemoveTable_not_found_iff {σ ε : Type} (S : Storage σ ε) (m : TopologyManagerImpl)
    (st : σ) (now : Nat) (tableID : TableID) :
    ((∃ t, (RemoveTable S m st now tableID).result = .err (.TableNotFound t)) ↔
      m.tableShardMapping.get? tableID = none) ∧
    (m.tableShardMapping.get? tableID = none →
      (RemoveTable S m st now tableID).result = .err (.TableNotFound tableID)) ∧
    (∀ s, (RemoveTable S m st now tableID).result = .err (.ShardNotFound s) ↔
      (m.tableShardMapping.get? tableID = some s ∧ m.shardTablesMapping.get? s = none)) ∧
    (∀ e, (RemoveTable S m st now tableID).result = .err e →
      (e = .TableNotFound tableID ∨ ∃ s, e = .ShardNotFound s) →
      (RemoveTable S m st now tableID).calls = [] ∧
      (RemoveTable S m st now tableID).mem = m ∧
      (RemoveTable S m st now tableID).store = st) := by
  unfold RemoveTable
  split
  · rename_i hmap
    simp [hmap]
  · rename_i shardID hmap
    split
    · rename_i hview
      simp only [hmap]
      refine ⟨by simp, by simp, ?_, by simp⟩
      intro s
      constructor
      · intro h
        simp only [Result.err.injEq, Error.ShardNotFound.injEq] at h
        subst h
        exact ⟨rfl, hview⟩
      · rintro ⟨h, -⟩
        simp only [Option.some.injEq] at h
        subst h
        rfl
    · rename_i shardView hview
      dsimp only
      split
      · refine ⟨by simp [hmap], by simp [hmap], ?_, ?_⟩
        · intro s
          simp only [Result.err.injEq, hmap, Option.some.injEq]
          constructor
          · intro h
            cases h
          · rintro ⟨rfl, h⟩
            rw [hview] at h
            cases h
        · rintro e he (h | ⟨s, h⟩) <;> simp [h] at he
      · refine ⟨by simp [hmap], by simp [hmap], ?_, ?_⟩
        · intro s
          simp only [hmap, Option.some.injEq]
          constructor
          · intro h
            cases h
          · rintro ⟨rfl, h⟩
            rw [hview] at h
            cases h
        · rintro e he
          simp at he

/-- C8: placement postcondition of `AddTable`.  In every state, for every storage
and pick, a successful `AddTable(nodeName, table)` returns the ID of a shard
that `nodeName` leads (an entry of `nodeShardsMapping[nodeName]` on that node
with role leader), with `CurrVersion = PrevVersion + 1` (addition of `uint64`)
and `PrevVersion` the version of the view the shard had; afterwards
`tableShardMapping[table.ID]` is that shard, the view of every other shard, the
cluster view, the two node indices and the nodes are unchanged. -/
theorem AddTable_placement {σ ε : Type} (S : Storage σ ε) (m : TopologyManagerImpl) (st : σ)
    (raw now : Nat) (nodeName : String) (table : Table) (u : ShardVersionUpdate)
    (hok : (AddTable S m st raw now nodeName table).result = .ok u) :
    (∃ sn ∈ (m.nodeShardsMapping.get? nodeName).getD [],
      sn.Node = nodeName ∧ sn.ShardRole = ShardRole.Leader ∧ sn.ID = u.ShardID) ∧
    (∃ prev, m.shardTablesMapping.get? u.ShardID = some prev ∧ u.PrevVersion = prev.Version) ∧
    u.CurrVersion = u64add u.PrevVersion 1 ∧
    (u.PrevVersion + 1 < 2 ^ 64 → u.CurrVersion = u.PrevVersion + 1) ∧
    (AddTable S m st raw now nodeName table).mem.tableShardMapping.get? table.ID =
      some u.ShardID ∧
    (∀ s, s ≠ u.ShardID →
      (AddTable S m st raw now nodeName table).mem.shardTablesMapping.get? s =
        m.shardTablesMapping.get? s) ∧
    (AddTable S m st raw now nodeName table).mem.clusterView = m.clusterView ∧
    (AddTable S m st raw now nodeName table).mem.shardNodesMapping = m.shardNodesMapping ∧
    (AddTable S m st raw now nodeName table).mem.nodeShardsMapping = m.nodeShardsMapping ∧
    (AddTable S m st raw now nodeName table).mem.nodes = m.nodes := by
  obtain ⟨shardView, hmem, hview, hprev, hcurr, -, -, hm⟩ :=
    AddTable_ok S m st raw now nodeName table u hok
  rw [hm]
  refine ⟨mem_leaderShardIDs.mp hmem, ⟨shardView, hview, hprev⟩, ?_, ?_, ?_, ?_,
    rfl, rfl, rfl, rfl⟩
  · rw [hcurr, hprev]
  · intro hlt
    rw [hcurr, hprev, u64add, Nat.mod_eq_of_lt (hprev ▸ hlt)]
  · exact GoMap.get?_set_self _ _ _
  · intro s hs
    exact GoMap.get?_set_ne _ _ (fun h => hs h.symm)

/-- Witness for C8, the placement scenario: node n1 leads shards 1 and 3; table 100
lands on shard 3 at version 1, and shard 1 keeps its view. -/
theorem AddTable_placement_witness :
    (AddTable memStorage scenarioManager scenarioStore 1 9 "n1" ⟨100, "t", 0⟩).result =
      .ok ⟨3, 1, 0⟩ ∧
    (AddTable memStorage scenarioManager scenarioStore 1 9 "n1"
        ⟨100, "t", 0⟩).mem.shardTablesMapping.get? 3 = some ⟨3, 1, [100], 9⟩ ∧
    (AddTable memStorage scenarioManager scenarioStore 1 9 "n1"
        ⟨100, "t", 0⟩).mem.tableShardMapping.get? (Table.mk 100 "t" 0).ID = some 3 ∧
    (AddTable memStorage scenarioManager scenarioStore 1 9 "n1"
        ⟨100, "t", 0⟩).mem.shardTablesMapping.get? 1 = scenarioManager.shardTablesMapping.get? 1 :=
  ⟨by decide, by decide,
    (AddTable_placement memStorage scenarioManager scenarioStore 1 9 "n1" ⟨100, "t", 0⟩
      ⟨3, 1, 0⟩ (by decide)).2.2.2.2.1,
    (AddTable_placement memStorage scenarioManager scenarioStore 1 9 "n1" ⟨100, "t", 0⟩
      ⟨3, 1, 0⟩ (by decide)).2.2.2.2.2.1 1 (by decide)⟩

/-! ## C9: `GetTableIDs` -/

theorem findShardNode_eq_some {nodeName : String} {l : List ShardNode} {sn : ShardNode}
    (h : findShardNode nodeName l = some sn) : sn ∈ l ∧ sn.Node = nodeName := by
  induction l with
  | nil => simp [findShardNode] at h
  | cons hd tl ih =>
    by_cases hn : hd.Node = nodeName
    · simp only [findShardNode, hn, if_true, Option.some.injEq] at h
      subst h
      exact ⟨List.mem_cons_self _ _, hn⟩
    · simp only [findShardNode, hn, if_false] at h
      exact ⟨List.mem_cons_of_mem _ (ih h).1, (ih h).2⟩

theorem findShardNode_isSome_iff {nodeName : String} {l : List ShardNode} :
    (∃ sn, findShardNode nodeName l = some sn) ↔ ∃ sn ∈ l, sn.Node = nodeName := by
  constructor
  · rintro ⟨sn, h⟩
    exact ⟨sn, findShardNode_eq_some h⟩
  · rintro ⟨sn, hmem, hn⟩
    induction l with
    | nil => cases hmem
    | cons hd tl ih =>
      by_cases hh : hd.Node = nodeName
      · exact ⟨hd, by simp [findShardNode, hh]⟩
      · rcases List.mem_cons.mp hmem with rfl | htl
        · exact absurd hn hh
        · obtain ⟨sn', h'⟩ := ih htl
          exact ⟨sn', by simp [findShardNode, hh, h']⟩

/-- The loop of `GetTableIDs`, when every listed shard that holds the node has a
view: it ends without panic, with the entry of each listed shard that holds
the node and the entries it started from elsewhere. -/
theorem getTableIDsLoop_ok (m : TopologyManagerImpl) (nodeName : String) (ids : List ShardID) :
    ∀ acc : GoMap ShardID ShardTableIDs,
    (∀ s ∈ ids, (∃ sn, findShardNode nodeName ((m.shardNodesMapping.get? s).getD []) = some sn) →
      ∃ v, m.shardTablesMapping.get? s = some v) →
    ∃ res, getTableIDsLoop m nodeName ids acc = .ok res ∧
      ∀ s, res.get? s =
        match (if s ∈ ids then shardTableIDsOf m nodeName s else none) with
        | some e => some e
        | none => acc.get? s := by
  induction ids with
  | nil =>
    intro acc _
    exact ⟨acc, rfl, fun s => by simp⟩
  | cons id rest ih =>
    intro acc hviews
    have hrest : ∀ s ∈ rest,
        (∃ sn, findShardNode nodeName ((m.shardNodesMapping.get? s).getD []) = some sn) →
        ∃ v, m.shardTablesMapping.get? s = some v :=
      fun s hs => hviews s (List.mem_cons_of_mem _ hs)
    cases hfind : findShardNode nodeName ((m.shardNodesMapping.get? id).getD []) with
    | none =>
      obtain ⟨res, hres, hget⟩ := ih acc hrest
      refine ⟨res, by simp only [getTableIDsLoop, hfind, hres], ?_⟩
      intro s
      rw [hget s]
      by_cases hs : s = id
      · subst hs
        simp [shardTableIDsOf, hfind]
      · simp [hs]
    | some shardNode =>
      obtain ⟨v, hv⟩ := hviews id (List.mem_cons_self _ _) ⟨shardNode, hfind⟩
      obtain ⟨res, hres, hget⟩ := ih (acc.set id ⟨shardNode, v.TableIDs, v.Version⟩) hrest
      refine ⟨res, by simp only [getTableIDsLoop, hfind, hv, hres], ?_⟩
      intro s
      rw [hget s]
      by_cases hs : s = id
      · subst hs
        by_cases hmem : s ∈ rest
        · simp [hmem, shardTableIDsOf, hfind, hv]
        · simp [hmem, shardTableIDsOf, hfind, hv, GoMap.get?_set_self]
      · have hs' : ¬ id = s := fun h => hs h.symm
        simp [hs, GoMap.get?_set, hs']

/-- C9 as stated fails: `UpdateClusterView(Stable, [{4, leader, "n2"}])` succeeds
on the loaded scenario state and leaves shard 4 with a node but without a
shard view; `GetTableIDs([4], "n2")` then dereferences the nil view and
panics. -/
theorem GetTableIDs_panics_on_shard_without_view :
    scenarioUpdate.result = .ok () ∧
    scenarioUpdate.mem.shardNodesMapping.get? 4 = some [⟨4, .Leader, "n2"⟩] ∧
    scenarioUpdate.mem.shardTablesMapping.get? 4 = none ∧
    GetTableIDs scenarioUpdate.mem [4] "n2" = .error .nilPointerDereference :=
  ⟨by decide, by decide, by decide, rfl⟩

/-- C9 (amended): in every state, for every list of shard IDs and node name such
that each requested shard on which `nodeName` has a shard node also has a
shard view, `GetTableIDs` returns a map without panic; its keys are exactly
the requested shards on which `nodeName` has a shard node, and the entry of
a shard carries the first shard node of the shard on `nodeName` and the
table IDs and version of the view of the shard. -/
theorem GetTableIDs_spec (m : TopologyManagerImpl) (shardIDs : List ShardID)
    (nodeName : String)
    (hviews : ∀ s ∈ shardIDs,
      (∃ sn ∈ (m.shardNodesMapping.get? s).getD [], sn.Node = nodeName) →
      ∃ v, m.shardTablesMapping.get? s = some v) :
    ∃ res, GetTableIDs m shardIDs nodeName = .ok res ∧
      (∀ s, (∃ e, res.get? s = some e) ↔
        (s ∈ shardIDs ∧ ∃ sn ∈ (m.shardNodesMapping.get? s).getD [], sn.Node = nodeName)) ∧
      (∀ s e, res.get? s = some e →
        e.ShardNode ∈ (m.shardNodesMapping.get? s).getD [] ∧
        e.ShardNode.Node = nodeName ∧
        findShardNode nodeName ((m.shardNodesMapping.get? s).getD []) = some e.ShardNode ∧
        ∃ v, m.shardTablesMapping.get? s = some v ∧
          e.TableIDs = v.TableIDs ∧ e.Version = v.Version) := by
  obtain ⟨res, hres, hget⟩ := getTableIDsLoop_ok m nodeName shardIDs GoMap.empty
    (fun s hs h => hviews s hs (findShardNode_isSome_iff.mp h))
  have hentry : ∀ s e, res.get? s = some e →
      s ∈ shardIDs ∧ shardTableIDsOf m nodeName s = some e := by
    intro s e h
    rw [hget s] at h
    by_cases hs : s ∈ shardIDs
    · simp only [hs, if_true] at h
      cases hof : shardTableIDsOf m nodeName s with
      | none => simp [hof, GoMap.get?_empty] at h
      | some e' =>
        simp only [hof, Option.some.injEq] at h
        exact ⟨hs, by rw [h]⟩
    · simp [hs, GoMap.get?_empty] at h
  refine ⟨res, hres, ?_, ?_⟩
  · intro s
    constructor
    · rintro ⟨e, h⟩
      obtain ⟨hs, hof⟩ := hentry s e h
      refine ⟨hs, findShardNode_isSome_iff.mp ?_⟩
      unfold shardTableIDsOf at hof
      split at hof
      · rename_i shardNode _ hfind _
        exact ⟨shardNode, hfind⟩
      · cases hof
    · rintro ⟨hs, hnode⟩
      obtain ⟨sn, hfind⟩ := findShardNode_isSome_iff.mpr hnode
      obtain ⟨v, hv⟩ := hviews s hs hnode
      refine ⟨⟨sn, v.TableIDs, v.Version⟩, ?_⟩
      rw [hget s]
      simp [hs, shardTableIDsOf, hfind, hv]
  · intro s e h
    obtain ⟨-, hof⟩ := hentry s e h
    unfold shardTableIDsOf at hof
    split at hof
    · rename_i shardNode shardView hfind hview
      simp only [Option.some.injEq] at hof
      subst hof
      exact ⟨(findShardNode_eq_some hfind).1, (findShardNode_eq_some hfind).2, hfind,
        shardView, hview, rfl, rfl⟩
    · cases hof

/-- Witness for C9 (amended): on the loaded scenario state, node n1 asks for shards 1, 2
and 5; it leads shard 1, follows shard 2 and shard 5 does not exist. -/
theorem GetTableIDs_spec_witness :
    ∃ res, GetTableIDs scenarioManager [1, 2, 5] "n1" = .ok res ∧
      (∀ s, (∃ e, res.get? s = some e) ↔
        (s ∈ [1, 2, 5] ∧
          ∃ sn ∈ (scenarioManager.shardNodesMapping.get? s).getD [], sn.Node = "n1")) ∧
      (∀ s e, res.get? s = some e →
        e.ShardNode ∈ (scenarioManager.shardNodesMapping.get? s).getD [] ∧
        e.ShardNode.Node = "n1" ∧
        findShardNode "n1" ((scenarioManager.shardNodesMapping.get? s).getD [])
          = some e.ShardNode ∧
        ∃ v, scenarioManager.shardTablesMapping.get? s = some v ∧
          e.TableIDs = v.TableIDs ∧ e.Version = v.Version) :=
  GetTableIDs_spec scenarioManager [1, 2, 5] "n1" (by
    intro s hs _
    simp only [List.mem_cons, List.mem_singleton, List.not_mem_nil, or_false] at hs
    rcases hs with rfl | rfl | rfl
    · exact ⟨⟨1, 0, [7], 5⟩, by decide⟩
    · exact ⟨⟨2, 0, [], 5⟩, by decide⟩
    · rename_i h
      obtain ⟨sn, hsn, -⟩ := h
      have hnil : (scenarioManager.shardNodesMapping.get? 5).getD [] = [] := by decide
      rw [hnil] at hsn
      cases hsn)

/-! ## Every table of a reachable state is mapped to a shard with a view -/

theorem indexTables_get? (shardID : ShardID) (tableIDs : List TableID) :
    ∀ (acc : GoMap TableID ShardID) (t : TableID) (s : ShardID),
      (indexTables shardID tableIDs acc).get? t = some s → s = shardID ∨ acc.get? t = some s := by
  induction tableIDs with
  | nil => exact fun acc t s h => Or.inr h
  | cons tableID rest ih =>
    intro acc t s h
    rcases ih (acc.set tableID shardID) t s h with h' | h'
    · exact Or.inl h'
    · rw [GoMap.get?_set] at h'
      by_cases e : tableID = t
      · rw [if_pos e] at h'
        exact Or.inl (Option.some.inj h').symm
      · rw [if_neg e] at h'
        exact Or.inr h'

theorem indexShardViews_tables (shardViews : List ShardView) :
    ∀ (views : GoMap ShardID ShardView) (tables : GoMap TableID ShardID),
      (∀ t s, tables.get? t = some s → ∃ v, views.get? s = some v) →
      ∀ t s, (indexShardViews shardViews (views, tables)).2.get? t = some s →
        ∃ v, (indexShardViews shardViews (views, tables)).1.get? s = some v := by
  induction shardViews with
  | nil => exact fun views tables h => h
  | cons shardView rest ih =>
    intro views tables h
    refine ih _ _ ?_
    intro t s hts
    rw [GoMap.get?_set]
    by_cases e : shardView.ShardID = s
    · exact ⟨shardView, by rw [if_pos e]⟩
    · rw [if_neg e]
      rcases indexTables_get? _ _ _ _ _ hts with h' | h'
      · exact absurd h'.symm e
      · exact h t s h'

theorem andThen_mem {σ ε : Type} (P : TopologyManagerImpl → Prop) (o : Outcome σ ε Unit)
    (msg : String) (next : TopologyManagerImpl → σ → Outcome σ ε Unit)
    (ho : P o.mem) (hnext : ∀ m st, P m → P (next m st).mem) :
    P (o.andThen msg next).mem := by
  unfold Outcome.andThen
  split
  · exact hnext _ _ ho
  · exact ho
  · exact ho

theorem TablesHaveViews_loadClusterView {σ ε : Type} (S : Storage σ ε)
    (m : TopologyManagerImpl) (st : σ) (h : TablesHaveViews m) :
    TablesHaveViews (loadClusterView S m st).mem := by
  unfold loadClusterView
  split
  · exact h
  · exact h

theorem TablesHaveViews_loadShardView {σ ε : Type} (S : Storage σ ε)
    (m : TopologyManagerImpl) (st : σ) (h : TablesHaveViews m) :
    TablesHaveViews (loadShardView S m st).mem := by
  unfold loadShardView
  dsimp only
  split
  · exact h
  · rename_i shardViews _
    exact indexShardViews_tables shardViews GoMap.empty GoMap.empty
      (fun t s hts => by simp [GoMap.get?_empty] at hts)

theorem TablesHaveViews_loadNode {σ ε : Type} (S : Storage σ ε)
    (m : TopologyManagerImpl) (st : σ) (h : TablesHaveViews m) :
    TablesHaveViews (loadNode S m st).mem := by
  unfold loadNode
  split
  · exact h
  · exact h

theorem TablesHaveViews_Load {σ ε : Type} (S : Storage σ ε)
    (m : TopologyManagerImpl) (st : σ) (h : TablesHaveViews m) :
    TablesHaveViews (Load S m st).mem := by
  unfold Load
  refine andThen_mem _ _ _ _ (TablesHaveViews_loadClusterView S m st h) ?_
  intro m₁ st₁ h₁
  refine andThen_mem _ _ _ _ (TablesHaveViews_loadShardView S m₁ st₁ h₁) ?_
  intro m₂ st₂ h₂
  refine andThen_mem _ _ _ _ (TablesHaveViews_loadNode S m₂ st₂ h₂) ?_
  exact fun m₃ _ h₃ => h₃

theorem TablesHaveViews_UpdateClusterView {σ ε : Type} (S : Storage σ ε)
    (m : TopologyManagerImpl) (st : σ) (now : Nat) (state : ClusterState)
    (shardNodes : List ShardNode) (h : TablesHaveViews m) :
    TablesHaveViews (UpdateClusterView S m st now state shardNodes).mem := by
  unfold UpdateClusterView
  dsimp only
  split
  · exact h
  · exact andThen_mem _ _ _ _ (TablesHaveViews_loadClusterView S m _ h) (fun _ _ h₁ => h₁)

theorem TablesHaveViews_CreateShardViews {σ ε : Type} (S : Storage σ ε)
    (m : TopologyManagerImpl) (st : σ) (now : Nat) (createShardViews : List CreateShardView)
    (h : TablesHaveViews m) :
    TablesHaveViews (CreateShardViews S m st now createShardViews).mem := by
  unfold CreateShardViews
  dsimp only
  split
  · exact h
  · exact andThen_mem _ _ _ _ (TablesHaveViews_loadShardView S m _ h) (fun _ _ h₁ => h₁)

theorem TablesHaveViews_InitClusterView {σ ε : Type} (S : Storage σ ε)
    (m : TopologyManagerImpl) (st : σ) (now : Nat) (h : TablesHaveViews m) :
    TablesHaveViews (InitClusterView S m st now).mem := by
  unfold InitClusterView
  dsimp only
  split
  · exact h
  · exact h

theorem AddTable_mem_cases {σ ε : Type} (S : Storage σ ε) (m : TopologyManagerImpl) (st : σ)
    (raw now : Nat) (nodeName : String) (table : Table) :
    (AddTable S m st raw now nodeName table).mem = m ∨
      ∃ u, (AddTable S m st raw now nodeName table).result = .ok u := by
  unfold AddTable
  dsimp only
  split
  · exact Or.inl rfl
  · split
    · exact Or.inl rfl
    · split
      · exact Or.inl rfl
      · split
        · exact Or.inl rfl
        · exact Or.inr ⟨_, rfl⟩

theorem RemoveTable_mem_cases {σ ε : Type} (S : Storage σ ε) (m : TopologyManagerImpl)
    (st : σ) (now : Nat) (tableID : TableID) :
    (RemoveTable S m st now tableID).mem = m ∨
      ∃ u, (RemoveTable S m st now tableID).result = .ok u := by
  unfold RemoveTable
  split
  · exact Or.inl rfl
  · split
    · exact Or.inl rfl
    · dsimp only
      split
      · exact Or.inl rfl
      · exact Or.inr ⟨_, rfl⟩

theorem TablesHaveViews_AddTable {σ ε : Type} (S : Storage σ ε) (m : TopologyManagerImpl)
    (st : σ) (raw now : Nat) (nodeName : String) (table : Table) (h : TablesHaveViews m) :
    TablesHaveViews (AddTable S m st raw now nodeName table).mem := by
  rcases AddTable_mem_cases S m st raw now nodeName table with hm | ⟨u, hok⟩
  · rw [hm]
    exact h
  · obtain ⟨shardView, -, -, -, -, -, -, hmem⟩ := AddTable_ok S m st raw now nodeName table u hok
    rw [hmem]
    intro t s hts
    simp only [GoMap.get?_set] at hts ⊢
    by_cases e : u.ShardID = s
    · exact ⟨_, by rw [if_pos e]⟩
    · rw [if_neg e]
      by_cases e' : table.ID = t
      · rw [if_pos e'] at hts
        exact absurd (Option.some.inj hts) e
      · rw [if_neg e'] at hts
        exact h t s hts

theorem TablesHaveViews_RemoveTable {σ ε : Type} (S : Storage σ ε) (m : TopologyManagerImpl)
    (st : σ) (now : Nat) (tableID : TableID) (h : TablesHaveViews m) :
    TablesHaveViews (RemoveTable S m st now tableID).mem := by
  rcases RemoveTable_mem_cases S m st now tableID with hm | ⟨u, hok⟩
  · rw [hm]
    exact h
  · obtain ⟨shardView, -, -, -, -, -, -, hmem⟩ := RemoveTable_ok S m st now tableID u hok
    rw [hmem]
    intro t s hts
    simp only [GoMap.get?_set]
    by_cases e : u.ShardID = s
    · exact ⟨_, by rw [if_pos e]⟩
    · rw [if_neg e]
      exact h t s hts

/-- In every state the manager reaches, every table is mapped to a shard that
has a view. -/
theorem Reachable.tablesHaveViews {σ ε : Type} {S : Storage σ ε} {m : TopologyManagerImpl}
    (h : Reachable S m) : TablesHaveViews m := by
  induction h with
  | new clusterID =>
    intro t s hts
    simp [NewTopologyManagerImpl, GoMap.get?_empty] at hts
  | load st _ ih => exact TablesHaveViews_Load S _ st ih
  | addTable st raw now nodeName table _ ih =>
    exact TablesHaveViews_AddTable S _ st raw now nodeName table ih
  | removeTable st now tableID _ ih => exact TablesHaveViews_RemoveTable S _ st now tableID ih
  | initClusterView st now _ ih => exact TablesHaveViews_InitClusterView S _ st now ih
  | updateClusterView st now state shardNodes _ ih =>
    exact TablesHaveViews_UpdateClusterView S _ st now state shardNodes ih
  | createShardViews st now createShardViews _ ih =>
    exact TablesHaveViews_CreateShardViews S _ st now createShardViews ih

/-! ## C10: `GetShardNodesByTableIDs` -/

/-- The loop of `GetShardNodesByTableIDs` runs through leading table IDs
that are all mapped to a shard with shard nodes. -/
theorem getShardNodesByTableIDsLoop_append (m : TopologyManagerImpl) (hJ : TablesHaveViews m)
    (pre rest : List TableID)
    (hpre : ∀ x ∈ pre, ∃ s nodes, m.tableShardMapping.get? x = some s ∧
      m.shardNodesMapping.get? s = some nodes) :
    ∀ acc₁ acc₂, ∃ acc₁' acc₂',
      getShardNodesByTableIDsLoop m (pre ++ rest) acc₁ acc₂ =
        getShardNodesByTableIDsLoop m rest acc₁' acc₂' := by
  induction pre with
  | nil => exact fun acc₁ acc₂ => ⟨acc₁, acc₂, rfl⟩
  | cons x pre' ih =>
    intro acc₁ acc₂
    obtain ⟨s, nodes, hs, hn⟩ := hpre x (List.mem_cons_self _ _)
    have ih' := ih (fun y hy => hpre y (List.mem_cons_of_mem _ hy))
    obtain ⟨v, hv⟩ := hJ x s hs
    cases hacc : acc₂.get? s with
    | some ver =>
      obtain ⟨a, b, hab⟩ := ih' (acc₁.set x nodes) acc₂
      exact ⟨a, b, by
        simp only [List.cons_append, getShardNodesByTableIDsLoop, hs, hn, hacc]
        exact hab⟩
    | none =>
      obtain ⟨a, b, hab⟩ := ih' (acc₁.set x nodes) (acc₂.set s v.Version)
      exact ⟨a, b, by
        simp only [List.cons_append, getShardNodesByTableIDsLoop, hs, hn, hacc, hv]
        exact hab⟩

/-- The loop of `GetShardNodesByTableIDs` over table IDs that are all mapped to a
shard with shard nodes: it returns, with the shard nodes of the owning shard
for each listed table and the view version for each owning shard, next to
what the two maps held before. -/
theorem getShardNodesByTableIDsLoop_ok (m : TopologyManagerImpl) (hJ : TablesHaveViews m)
    (ids : List TableID) :
    ∀ (acc₁ : GoMap TableID (List ShardNode)) (acc₂ : GoMap ShardID Nat),
    (∀ x ∈ ids, ∃ s nodes, m.tableShardMapping.get? x = some s ∧
      m.shardNodesMapping.get? s = some nodes) →
    (∀ s ver, acc₂.get? s = some ver →
      ∃ v, m.shardTablesMapping.get? s = some v ∧ v.Version = ver) →
    ∃ res, getShardNodesByTableIDsLoop m ids acc₁ acc₂ = .ok res ∧
      (∀ t nodes, res.ShardNodes.get? t = some nodes ↔
        (t ∈ ids ∧ ∃ s, m.tableShardMapping.get? t = some s ∧
          m.shardNodesMapping.get? s = some nodes) ∨
        (t ∉ ids ∧ acc₁.get? t = some nodes)) ∧
      (∀ s ver, res.Version.get? s = some ver ↔
        ((∃ t ∈ ids, m.tableShardMapping.get? t = some s) ∧
          ∃ v, m.shardTablesMapping.get? s = some v ∧ v.Version = ver) ∨
        acc₂.get? s = some ver) := by
  induction ids with
  | nil =>
    intro acc₁ acc₂ _ _
    exact ⟨⟨acc₁, acc₂⟩, rfl, by simp, by simp⟩
  | cons x rest ih =>
    intro acc₁ acc₂ hhit hacc₂
    obtain ⟨s, nodes, hs, hn⟩ := hhit x (List.mem_cons_self _ _)
    have hrest := fun y hy => hhit y (List.mem_cons_of_mem x hy)
    obtain ⟨v, hv⟩ := hJ x s hs
    -- the shard nodes recorded for a table, after the step for `x`
    have hSN : ∀ (res : GetShardNodesByTableIDsResult),
        (∀ t nodes', res.ShardNodes.get? t = some nodes' ↔
          (t ∈ rest ∧ ∃ s', m.tableShardMapping.get? t = some s' ∧
            m.shardNodesMapping.get? s' = some nodes') ∨
          (t ∉ rest ∧ (acc₁.set x nodes).get? t = some nodes')) →
        ∀ t nodes', res.ShardNodes.get? t = some nodes' ↔
          (t ∈ x :: rest ∧ ∃ s', m.tableShardMapping.get? t = some s' ∧
            m.shardNodesMapping.get? s' = some nodes') ∨
          (t ∉ x :: rest ∧ acc₁.get? t = some nodes') := by
      intro res h t nodes'
      rw [h t nodes', GoMap.get?_set]
      by_cases e : x = t
      · subst e
        simp only [if_true, List.mem_cons, true_or, not_true_eq_false, false_and, or_false,
          true_and, hs, Option.some.injEq]
        constructor
        · rintro (⟨-, s', rfl, h'⟩ | ⟨-, h'⟩)
          · exact ⟨s, rfl, h'⟩
          · exact ⟨s, rfl, by rw [hn, h']⟩
        · rintro ⟨s', rfl, h'⟩
          by_cases hx : x ∈ rest
          · exact Or.inl ⟨hx, s, rfl, h'⟩
          · exact Or.inr ⟨hx, by rw [hn] at h'; exact Option.some.inj h'⟩
      · have e' : ¬ t = x := fun h => e h.symm
        simp only [if_neg e, List.mem_cons, e', false_or]
    cases hacc : acc₂.get? s with
    | some ver₀ =>
      obtain ⟨res, hres, h₁, h₂⟩ := ih (acc₁.set x nodes) acc₂ hrest hacc₂
      refine ⟨res, by simp only [getShardNodesByTableIDsLoop, hs, hn, hacc, hres],
        hSN res h₁, ?_⟩
      intro s' ver
      rw [h₂ s' ver]
      constructor
      · rintro (⟨⟨t, ht, hts⟩, hview⟩ | h)
        · exact Or.inl ⟨⟨t, List.mem_cons_of_mem _ ht, hts⟩, hview⟩
        · exact Or.inr h
      · rintro (⟨⟨t, ht, hts⟩, v', hv', hver⟩ | h)
        · rcases List.mem_cons.mp ht with rfl | ht'
          · rw [hs] at hts
            cases hts
            obtain ⟨v₀, hv₀, hver₀⟩ := hacc₂ s ver₀ hacc
            rw [hv₀] at hv'
            cases hv'
            exact Or.inr (by rw [hacc, ← hver₀, hver])
          · exact Or.inl ⟨⟨t, ht', hts⟩, v', hv', hver⟩
        · exact Or.inr h
    | none =>
      have hacc₂' : ∀ s' ver, (acc₂.set s v.Version).get? s' = some ver →
          ∃ v', m.shardTablesMapping.get? s' = some v' ∧ v'.Version = ver := by
        intro s' ver h
        rw [GoMap.get?_set] at h
        by_cases e : s = s'
        · rw [if_pos e] at h
          exact ⟨v, e ▸ hv, Option.some.inj h⟩
        · rw [if_neg e] at h
          exact hacc₂ s' ver h
      obtain ⟨res, hres, h₁, h₂⟩ := ih (acc₁.set x nodes) (acc₂.set s v.Version) hrest hacc₂'
      refine ⟨res, by simp only [getShardNodesByTableIDsLoop, hs, hn, hacc, hv, hres],
        hSN res h₁, ?_⟩
      intro s' ver
      rw [h₂ s' ver, GoMap.get?_set]
      constructor
      · rintro (⟨⟨t, ht, hts⟩, hview⟩ | h)
        · exact Or.inl ⟨⟨t, List.mem_cons_of_mem _ ht, hts⟩, hview⟩
        · by_cases e : s = s'
          · rw [if_pos e] at h
            exact Or.inl ⟨⟨x, List.mem_cons_self _ _, e ▸ hs⟩, v, e ▸ hv, Option.some.inj h⟩
          · rw [if_neg e] at h
            exact Or.inr h
      · rintro (⟨⟨t, ht, hts⟩, v', hv', hver⟩ | h)
        · rcases List.mem_cons.mp ht with rfl | ht'
          · rw [hs] at hts
            cases hts
            rw [hv] at hv'
            cases hv'
            exact Or.inr (by rw [if_pos rfl, hver])
          · exact Or.inl ⟨⟨t, ht', hts⟩, v', hv', hver⟩
        · by_cases e : s = s'
          · subst e
            rw [hacc] at h
            cases h
          · exact Or.inr (by rw [if_neg e]; exact h)

/-- C10: in every state in which each shard a table is mapped to has a shard view
(so in every state the manager reaches, `Reachable.tablesHaveViews`), for every
list of table IDs: if the first listed ID that is not mapped to a shard with
shard nodes has no entry in `tableShardMapping`, `GetShardNodesByTableIDs`
fails with TableNotFound for it; if it is mapped to a shard without shard
nodes, the call fails with ShardNotFound for that shard; and if every listed
ID is mapped to a shard with shard nodes, the call returns a map that holds,
for exactly the listed table IDs, the shard nodes of the owning shard, and a
version map whose keys are exactly the owning shards of the listed tables,
each with the version of the view of the shard. -/
theorem GetShardNodesByTableIDs_spec (m : TopologyManagerImpl) (hJ : TablesHaveViews m)
    (tableIDs : List TableID) :
    (∀ pre t post, tableIDs = pre ++ t :: post →
      (∀ x ∈ pre, ∃ s nodes, m.tableShardMapping.get? x = some s ∧
        m.shardNodesMapping.get? s = some nodes) →
      (m.tableShardMapping.get? t = none →
        GetShardNodesByTableIDs m tableIDs = .err (.TableNotFound t)) ∧
      (∀ s, m.tableShardMapping.get? t = some s → m.shardNodesMapping.get? s = none →
        GetShardNodesByTableIDs m tableIDs = .err (.ShardNotFound s))) ∧
    ((∀ x ∈ tableIDs, ∃ s nodes, m.tableShardMapping.get? x = some s ∧
        m.shardNodesMapping.get? s = some nodes) →
      ∃ res, GetShardNodesByTableIDs m tableIDs = .ok res ∧
        (∀ t nodes, res.ShardNodes.get? t = some nodes ↔
          (t ∈ tableIDs ∧ ∃ s, m.tableShardMapping.get? t = some s ∧
            m.shardNodesMapping.get? s = some nodes)) ∧
        (∀ s ver, res.Version.get? s = some ver ↔
          ((∃ t ∈ tableIDs, m.tableShardMapping.get? t = some s) ∧
            ∃ v, m.shardTablesMapping.get? s = some v ∧ v.Version = ver))) := by
  constructor
  · intro pre t post hsplit hpre
    subst hsplit
    obtain ⟨a, b, hab⟩ :=
      getShardNodesByTableIDsLoop_append m hJ pre (t :: post) hpre GoMap.empty GoMap.empty
    unfold GetShardNodesByTableIDs
    rw [hab]
    constructor
    · intro hnone
      simp only [getShardNodesByTableIDsLoop, hnone]
    · intro s hsome hnodes
      simp only [getShardNodesByTableIDsLoop, hsome, hnodes]
  · intro hhit
    obtain ⟨res, hres, h₁, h₂⟩ :=
      getShardNodesByTableIDsLoop_ok m hJ tableIDs GoMap.empty GoMap.empty hhit
        (fun s ver h => by simp [GoMap.get?_empty] at h)
    refine ⟨res, hres, ?_, ?_⟩
    · intro t nodes
      rw [h₁ t nodes]
      simp [GoMap.get?_empty]
    · intro s ver
      rw [h₂ s ver]
      simp [GoMap.get?_empty]

/-- Witness for C10: on the loaded scenario state table 7 is on shard 1 and table 8 is
unknown; asked for `[7, 8]` the call fails with TableNotFound for table 8. -/
theorem GetShardNodesByTableIDs_spec_witness :
    GetShardNodesByTableIDs scenarioManager [7, 8] = .err (.TableNotFound 8) :=
  ((GetShardNodesByTableIDs_spec scenarioManager
      (Reachable.tablesHaveViews
        (Reachable.load scenarioStore (Reachable.new 1) : Reachable memStorage scenarioManager))
      [7, 8]).1 [7] 8 [] rfl
    (by
      intro x hx
      simp only [List.mem_singleton] at hx
      subst hx
      exact ⟨1, [⟨1, .Leader, "n1"⟩, ⟨1, .Follower, "n3"⟩], by decide, by decide⟩)).1
    (by decide)

/-! ## C11 – C13: what loading builds -/

/-- The loop of `loadClusterView` appends, to the list of each shard, the shard
nodes of that shard in the order of the list. -/
theorem indexShardNodes_get? (l : List ShardNode) :
    ∀ (acc : GoMap ShardID (List ShardNode) × GoMap String (List ShardNode)) (s : ShardID),
      (((indexShardNodes l acc).1.get? s).getD [] =
        (acc.1.get? s).getD [] ++ l.filter (fun sn => decide (sn.ID = s))) ∧
      ((indexShardNodes l acc).1.get? s = none ↔
        (acc.1.get? s = none ∧ l.filter (fun sn => decide (sn.ID = s)) = [])) := by
  induction l with
  | nil =>
    intro acc s
    simp [indexShardNodes]
  | cons hd tl ih =>
    rintro ⟨byShard, byNode⟩ s
    simp only [indexShardNodes]
    obtain ⟨h₁, h₂⟩ := ih
      (byShard.set hd.ID ((byShard.get? hd.ID).getD [] ++ [hd]),
        byNode.set hd.Node ((byNode.get? hd.Node).getD [] ++ [hd])) s
    rw [h₁, h₂]
    simp only [GoMap.get?_set]
    by_cases e : hd.ID = s
    · subst e
      simp [List.filter_cons]
    · simp [e, List.filter_cons]

theorem andThen_ok {σ ε : Type} (o : Outcome σ ε Unit) (msg : String)
    (next : TopologyManagerImpl → σ → Outcome σ ε Unit)
    (h : (o.andThen msg next).result = .ok ()) :
    o.result = .ok () ∧ (next o.mem o.store).result = .ok () ∧
      (o.andThen msg next).mem = (next o.mem o.store).mem ∧
      (o.andThen msg next).store = (next o.mem o.store).store := by
  unfold Outcome.andThen at h ⊢
  split at h
  · rename_i hres
    exact ⟨by rw [hres], h, rfl, rfl⟩
  · simp at h
  · simp at h

/-- After a `loadClusterView` that returns no error, `shardNodesMapping` is the
index of the cluster view now in memory, and the shard views are untouched. -/
theorem loadClusterView_ok {σ ε : Type} (S : Storage σ ε) (m : TopologyManagerImpl) (st : σ)
    (h : (loadClusterView S m st).result = .ok ()) :
    (loadClusterView S m st).mem.shardNodesMapping =
        (indexShardNodes (loadClusterView S m st).mem.clusterView.ShardNodes
          (GoMap.empty, GoMap.empty)).1 ∧
      (loadClusterView S m st).mem.shardTablesMapping = m.shardTablesMapping := by
  unfold loadClusterView at h ⊢
  split at h
  · simp at h
  · exact ⟨rfl, rfl⟩

theorem loadShardView_keeps_cluster {σ ε : Type} (S : Storage σ ε) (m : TopologyManagerImpl)
    (st : σ) :
    (loadShardView S m st).mem.shardNodesMapping = m.shardNodesMapping ∧
      (loadShardView S m st).mem.clusterView = m.clusterView := by
  unfold loadShardView
  dsimp only
  split <;> exact ⟨rfl, rfl⟩

theorem loadNode_keeps_cluster {σ ε : Type} (S : Storage σ ε) (m : TopologyManagerImpl)
    (st : σ) :
    (loadNode S m st).mem.shardNodesMapping = m.shardNodesMapping ∧
      (loadNode S m st).mem.clusterView = m.clusterView := by
  unfold loadNode
  split <;> exact ⟨rfl, rfl⟩

/-- After a `Load` that returns no error, `shardNodesMapping` is the index of the
cluster view now in memory. -/
theorem Load_ok {σ ε : Type} (S : Storage σ ε) (m : TopologyManagerImpl) (st : σ)
    (h : (Load S m st).result = .ok ()) :
    (Load S m st).mem.shardNodesMapping =
      (indexShardNodes (Load S m st).mem.clusterView.ShardNodes (GoMap.empty, GoMap.empty)).1 := by
  unfold Load at h ⊢
  obtain ⟨h₁, h₁', e₁, -⟩ := andThen_ok _ _ _ h
  obtain ⟨-, h₂', e₂, -⟩ := andThen_ok _ _ _ h₁'
  obtain ⟨-, -, e₃, -⟩ := andThen_ok _ _ _ h₂'
  rw [e₁, e₂, e₃]
  dsimp only
  rw [(loadNode_keeps_cluster S _ _).1, (loadNode_keeps_cluster S _ _).2,
    (loadShardView_keeps_cluster S _ _).1, (loadShardView_keeps_cluster S _ _).2]
  exact (loadClusterView_ok S m st h₁).1

/-- After an `UpdateClusterView` that returns no error, `shardNodesMapping` is
the index of the cluster view now in memory, and the shard views are
untouched. -/
theorem UpdateClusterView_ok {σ ε : Type} (S : Storage σ ε) (m : TopologyManagerImpl) (st : σ)
    (now : Nat) (state : ClusterState) (shardNodes : List ShardNode)
    (h : (UpdateClusterView S m st now state shardNodes).result = .ok ()) :
    (UpdateClusterView S m st now state shardNodes).mem.shardNodesMapping =
        (indexShardNodes (UpdateClusterView S m st now state shardNodes).mem.clusterView.ShardNodes
          (GoMap.empty, GoMap.empty)).1 ∧
      (UpdateClusterView S m st now state shardNodes).mem.shardTablesMapping =
        m.shardTablesMapping := by
  unfold UpdateClusterView at h ⊢
  dsimp only at h ⊢
  split at h
  · simp at h
  · rename_i st' hst
    dsimp only at h ⊢
    obtain ⟨h₁, -, e₁, -⟩ := andThen_ok _ _ _ h
    rw [e₁]
    exact loadClusterView_ok S m st' h₁

/-- C11 as stated fails: `UpdateClusterView(Stable, [{1, follower, "n3"},
{1, leader, "n1"}])` succeeds on the loaded scenario state; afterwards the list
of shard 1 holds a leader, and its element at index 0 is the follower. -/
theorem shardNodesMapping_leader_not_first :
    scenarioReorder.result = .ok () ∧
    scenarioReorder.mem.shardNodesMapping.get? 1 =
      some [⟨1, .Follower, "n3"⟩, ⟨1, .Leader, "n1"⟩] ∧
    ¬ (∀ nodes, scenarioReorder.mem.shardNodesMapping.get? 1 = some nodes →
        (∃ sn ∈ nodes, sn.ShardRole = ShardRole.Leader) →
        ∃ sn, nodes.head? = some sn ∧ sn.ShardRole = ShardRole.Leader) := by
  refine ⟨by decide, by decide, ?_⟩
  intro h
  obtain ⟨sn, h₁, h₂⟩ := h [⟨1, .Follower, "n3"⟩, ⟨1, .Leader, "n1"⟩] (by decide)
    ⟨⟨1, .Leader, "n1"⟩, by decide, rfl⟩
  simp only [List.head?_cons, Option.some.injEq] at h₁
  subst h₁
  exact absurd h₂ (by decide)

/-- C11 (amended): after a `Load`, or an `UpdateClusterView`, that returns no
error, for every shard ID the list `shardNodesMapping[shard]` is the list of
the shard nodes of the in-memory cluster view with that shard ID, all of them
and no other, in the order of the cluster view; the shard has no entry exactly
when the cluster view holds no shard node with its ID. -/
theorem shardNodesMapping_after_load {σ ε : Type} (S : Storage σ ε) (m : TopologyManagerImpl)
    (st : σ) :
    ((Load S m st).result = .ok () →
      ∀ s, (((Load S m st).mem.shardNodesMapping.get? s).getD [] =
          (Load S m st).mem.clusterView.ShardNodes.filter (fun sn => decide (sn.ID = s))) ∧
        ((Load S m st).mem.shardNodesMapping.get? s = none ↔
          (Load S m st).mem.clusterView.ShardNodes.filter (fun sn => decide (sn.ID = s)) = [])) ∧
    (∀ (now : Nat) (state : ClusterState) (shardNodes : List ShardNode),
      (UpdateClusterView S m st now state shardNodes).result = .ok () →
      ∀ s, (((UpdateClusterView S m st now state shardNodes).mem.shardNodesMapping.get? s).getD []
          = (UpdateClusterView S m st now state shardNodes).mem.clusterView.ShardNodes.filter
              (fun sn => decide (sn.ID = s))) ∧
        ((UpdateClusterView S m st now state shardNodes).mem.shardNodesMapping.get? s = none ↔
          (UpdateClusterView S m st now state shardNodes).mem.clusterView.ShardNodes.filter
              (fun sn => decide (sn.ID = s)) = [])) := by
  constructor
  · intro h s
    rw [Load_ok S m st h]
    have := indexShardNodes_get? (Load S m st).mem.clusterView.ShardNodes
      (GoMap.empty, GoMap.empty) s
    simpa [GoMap.get?_empty] using this
  · intro now state shardNodes h s
    rw [(UpdateClusterView_ok S m st now state shardNodes h).1]
    have := indexShardNodes_get?
      (UpdateClusterView S m st now state shardNodes).mem.clusterView.ShardNodes
      (GoMap.empty, GoMap.empty) s
    simpa [GoMap.get?_empty] using this

/-- Witness for C11 (amended): `Load` of the scenario store by a new manager; the list
of shard 2 is its leader on n2, then its follower on n1, as stored. -/
theorem shardNodesMapping_after_load_witness :
    ((Load memStorage (NewTopologyManagerImpl 1) scenarioStore).mem.shardNodesMapping.get?
        2).getD [] =
      (Load memStorage (NewTopologyManagerImpl 1)
        scenarioStore).mem.clusterView.ShardNodes.filter (fun sn => decide (sn.ID = 2)) :=
  ((shardNodesMapping_after_load memStorage (NewTopologyManagerImpl 1) scenarioStore).1
    (by decide) 2).1

/-- C13 (code defect): bootstrap on the empty store by a new manager of cluster 1.
`Load` fails (no cluster view yet) and leaves the memory as it was;
`InitClusterView` stores a cluster view with version 0, state empty and no
shard node; `CreateShardViews` for shards 1 to 4 with no tables returns no
error and stores the four views at version 0; but it reloads the shard views
of the keys of `shardNodesMapping` only, here of no shard, and the manager
holds no shard view afterwards. -/
theorem CreateShardViews_leaves_memory_without_views :
    (Load memStorage (NewTopologyManagerImpl 1) emptyStore).result =
      .err (.WithMessage (.WithMessage (.storage .NotFound) "get cluster view")
        "load cluster view") ∧
    (Load memStorage (NewTopologyManagerImpl 1) emptyStore).mem = NewTopologyManagerImpl 1 ∧
    bootstrapInit.result = .ok () ∧
    bootstrapInit.calls = [.CreateClusterView ⟨1, 0, .Empty, [], 5⟩] ∧
    bootstrapCreate.result = .ok () ∧
    bootstrapCreate.calls =
      [.CreateShardViews ⟨1, [⟨1, 0, [], 5⟩, ⟨2, 0, [], 5⟩, ⟨3, 0, [], 5⟩, ⟨4, 0, [], 5⟩]⟩,
       .ListShardViews ⟨1, []⟩] ∧
    (MemStore.GetClusterView bootstrapCreate.store 1).2.toOption =
      some ⟨1, 0, .Empty, [], 5⟩ ∧
    (MemStore.ListShardViews bootstrapCreate.store ⟨1, [1, 2, 3, 4]⟩).2.toOption =
      some [⟨1, 0, [], 5⟩, ⟨2, 0, [], 5⟩, ⟨3, 0, [], 5⟩, ⟨4, 0, [], 5⟩] ∧
    bootstrapCreate.mem.shardTablesMapping = GoMap.empty ∧
    bootstrapCreate.mem.shardTablesMapping.get? 1 = none := by
  decide

/-! ## C16 – C18: lease and leader watcher -/

/-- C16 (code defect): `IsLeader` is `time.Now().After(expireTime)`: for every
lease and instant it returns true exactly when the lease has expired before
now.  So while the lease has not expired (now before `expireTime`) it returns
false, and once now is past `expireTime` it returns true; with `expireTime`
10 it is false at 5 and true at 15. -/
theorem IsLeader_true_iff_expired (l : lease) (now : Time) :
    (l.IsLeader now = true ↔ l.expireTime < now) ∧
    (now < l.expireTime → l.IsLeader now = false) ∧
    (l.expireTime < now → l.IsLeader now = true) ∧
    ((newLease 3 10).setExpireTime 10).IsLeader 5 = false ∧
    ((newLease 3 10).setExpireTime 10).IsLeader 15 = true := by
  refine ⟨?_, ?_, ?_, by decide, by decide⟩
  · simp [lease.IsLeader, lease.getExpireTime]
  · intro h
    simp only [lease.IsLeader, lease.getExpireTime, decide_eq_false_iff_not, not_lt, gt_iff_lt]
    exact Nat.le_of_lt h
  · intro h
    simpa [lease.IsLeader, lease.getExpireTime] using h

/-- C18: one round of the leader watcher that goes on (no stop, context not
done) and gets an answer from `GetLeader` picks its call from the meta-leader,
the etcd leader ID and its own ID alone:
no meta-leader and self the etcd leader: campaign;
no meta-leader and self not the etcd leader: no call, wait "leader is electing";
meta-leader the etcd leader: wait for a leader change from the revision read;
meta-leader not the etcd leader and self the meta-leader: reset the leader;
meta-leader not the etcd leader and self not the meta-leader: no call, wait
"leader is reset".
Hence it campaigns only as the etcd leader without a meta-leader, and resets
only as a meta-leader that is not the etcd leader. -/
theorem watchRound_table (selfID etcdLeaderID : Nat) (leaseTTLSec : Int) (wait : String)
    (resp : GetLeaderResp) (campaignFails resetFails : Bool) :
    (resp.Leader = none → selfID = etcdLeaderID →
      ∃ w, watchRound selfID etcdLeaderID leaseTTLSec wait false false (some resp)
          campaignFails resetFails =
        .continued (decide (wait ≠ waitReasonNoWait))
          (some (.CampaignAndKeepLeader leaseTTLSec)) w) ∧
    (resp.Leader = none → selfID ≠ etcdLeaderID →
      watchRound selfID etcdLeaderID leaseTTLSec wait false false (some resp)
          campaignFails resetFails =
        .continued (decide (wait ≠ waitReasonNoWait)) none "leader is electing") ∧
    (∀ leader, resp.Leader = some leader → leader.Id = etcdLeaderID →
      watchRound selfID etcdLeaderID leaseTTLSec wait false false (some resp)
          campaignFails resetFails =
        .continued (decide (wait ≠ waitReasonNoWait))
          (some (.WaitForLeaderChange resp.Revision)) "") ∧
    (∀ leader, resp.Leader = some leader → leader.Id ≠ etcdLeaderID → selfID = leader.Id →
      ∃ w, watchRound selfID etcdLeaderID leaseTTLSec wait false false (some resp)
          campaignFails resetFails =
        .continued (decide (wait ≠ waitReasonNoWait)) (some .ResetLeader) w) ∧
    (∀ leader, resp.Leader = some leader → leader.Id ≠ etcdLeaderID → selfID ≠ leader.Id →
      watchRound selfID etcdLeaderID leaseTTLSec wait false false (some resp)
          campaignFails resetFails =
        .continued (decide (wait ≠ waitReasonNoWait)) none "leader is reset") ∧
    (∀ slept ttl w,
      watchRound selfID etcdLeaderID leaseTTLSec wait false false (some resp)
          campaignFails resetFails = .continued slept (some (.CampaignAndKeepLeader ttl)) w →
      resp.Leader = none ∧ selfID = etcdLeaderID) ∧
    (∀ slept w,
      watchRound selfID etcdLeaderID leaseTTLSec wait false false (some resp)
          campaignFails resetFails = .continued slept (some .ResetLeader) w →
      ∃ leader, resp.Leader = some leader ∧ leader.Id ≠ etcdLeaderID ∧ selfID = leader.Id) := by
  refine ⟨?_, ?_, ?_, ?_, ?_, ?_, ?_⟩
  · intro h₁ h₂
    cases campaignFails <;> simp [watchRound, h₁, h₂]
  · intro h₁ h₂
    simp [watchRound, h₁, h₂, waitReasonElectLeader]
  · intro leader h₁ h₂
    simp [watchRound, h₁, h₂, waitReasonNoWait]
  · intro leader h₁ h₂ h₃
    have h₂' : ¬ etcdLeaderID = leader.Id := fun h => h₂ h.symm
    cases resetFails <;> simp [watchRound, h₁, h₂', h₃]
  · intro leader h₁ h₂ h₃
    have h₂' : ¬ etcdLeaderID = leader.Id := fun h => h₂ h.symm
    have h₃' : ¬ leader.Id = selfID := fun h => h₃ h.symm
    simp [watchRound, h₁, h₂', h₃', waitReasonResetLeader]
  · intro slept ttl w h
    unfold watchRound at h
    simp only [Bool.false_eq_true, if_false] at h
    split at h
    · rename_i hl
      refine ⟨hl, ?_⟩
      by_contra hne
      simp [hne] at h
    · split_ifs at h <;> simp at h
  · intro slept w h
    unfold watchRound at h
    simp only [Bool.false_eq_true, if_false] at h
    split at h
    · split_ifs at h <;> simp at h
    · rename_i leader hl
      refine ⟨leader, hl, ?_⟩
      by_cases h₁ : etcdLeaderID = leader.Id
      · simp [h₁] at h
      · by_cases h₂ : leader.Id = selfID
        · exact ⟨fun h => h₁ h.symm, h₂.symm⟩
        · simp [h₁, h₂] at h

/-! ## C19 – C20: transfer-leader procedure -/

/-- C19 (code defect): shard 1 has its leader on nA and a follower on nC, and the
lead is transferred to nB.  The success step looks for the old leader by
shard ID alone and keeps the last index found, so it removes the follower on
nC: the list it commits still holds `(1, nA, leader)` and has lost
`(1, nC, follower)`. -/
theorem transferLeader_success_removes_last_replica :
    newShardView ⟨1, .Leader, "nA"⟩ ⟨1, .Leader, "nB"⟩
        [⟨1, .Leader, "nA"⟩, ⟨1, .Follower, "nC"⟩] =
      some [⟨1, .Leader, "nA"⟩, ⟨1, .Leader, "nB"⟩] ∧
    (transferLeaderSuccessCallback
        (fixedCollaborators none none (.ok [⟨1, .Leader, "nA"⟩, ⟨1, .Follower, "nC"⟩]) none)
        ⟨1, .Leader, "nA"⟩ ⟨1, .Leader, "nB"⟩).effects =
      [.UpdateClusterTopology .Stable [⟨1, .Leader, "nA"⟩, ⟨1, .Leader, "nB"⟩]] ∧
    (Start (fixedCollaborators none none (.ok [⟨1, .Leader, "nA"⟩, ⟨1, .Follower, "nC"⟩]) none)
        (NewTransferLeaderProcedure ⟨1, .Leader, "nA"⟩ ⟨1, .Leader, "nB"⟩ 7)).effects =
      [.Transition .StateTransferLeaderBegin .StateTransferLeaderWaiting,
       .CloseShards "nA" [1], .OpenShards "nB" [1],
       .Transition .StateTransferLeaderWaiting .StateTransferLeaderFinish,
       .UpdateClusterTopology .Stable [⟨1, .Leader, "nA"⟩, ⟨1, .Leader, "nB"⟩]] := by
  decide

/-- C20 as stated fails: both dispatches succeed, then the commit of the cluster
view returns an error; the state machine has reached Finish, `Start` returns
the error and the state of the procedure is left as `StateRunning`, not
`StateFinished`. -/
theorem Start_not_finished_when_commit_fails :
    (Start (fixedCollaborators none none (.ok [⟨1, .Leader, "nA"⟩]) (some "conflict"))
        (NewTransferLeaderProcedure ⟨1, .Leader, "nA"⟩ ⟨1, .Leader, "nB"⟩ 7)).effects =
      [.Transition .StateTransferLeaderBegin .StateTransferLeaderWaiting,
       .CloseShards "nA" [1], .OpenShards "nB" [1],
       .Transition .StateTransferLeaderWaiting .StateTransferLeaderFinish,
       .UpdateClusterTopology .Stable [⟨1, .Leader, "nB"⟩]] ∧
    (Start (fixedCollaborators none none (.ok [⟨1, .Leader, "nA"⟩]) (some "conflict"))
        (NewTransferLeaderProcedure ⟨1, .Leader, "nA"⟩ ⟨1, .Leader, "nB"⟩ 7)).proc.fsm =
      .StateTransferLeaderFinish ∧
    (Start (fixedCollaborators none none (.ok [⟨1, .Leader, "nA"⟩]) (some "conflict"))
        (NewTransferLeaderProcedure ⟨1, .Leader, "nA"⟩ ⟨1, .Leader, "nB"⟩ 7)).proc.state =
      .StateRunning ∧
    (Start (fixedCollaborators none none (.ok [⟨1, .Leader, "nA"⟩]) (some "conflict"))
        (NewTransferLeaderProcedure ⟨1, .Leader, "nA"⟩ ⟨1, .Leader, "nB"⟩ 7)).proc.state ≠
      .StateFinished := by
  decide

/-- C20 (amended): `Start` on a new procedure, for all collaborators.  The state
machine goes from Begin to Waiting and `CloseShards` is dispatched for the
shard of the old leader to its node.  If it returns an error nothing else is
dispatched; otherwise `OpenShards` is dispatched for the shard of the new
leader to its node.  If either returns an error the state machine ends in
`StateTransferLeaderFailed`, the state of the procedure is `StateFailed` and no
update of the cluster view is attempted.  If both succeed the state machine
goes on from Waiting to Finish, then the success step runs; the state of the
procedure is `StateFinished`, and `Start` returns nil, when the success step
returns no error.  When the success step returns an error, from the read of
the cluster view (then no update is attempted) or from
`UpdateClusterTopology`, the state machine is in Finish all the same, `Start`
returns that error, wrapped, and the state of the procedure stays
`StateRunning`. -/
theorem Start_prepare_step {ε : Type} (c : Collaborators ε) (oldLeader newLeader : Shard)
    (id : Nat) :
    (∀ e, c.CloseShards oldLeader.Node [oldLeader.Id] = some e →
      (Start c (NewTransferLeaderProcedure oldLeader newLeader id)).effects =
        [.Transition .StateTransferLeaderBegin .StateTransferLeaderWaiting,
         .CloseShards oldLeader.Node [oldLeader.Id],
         .Transition .StateTransferLeaderWaiting .StateTransferLeaderFailed] ∧
      (Start c (NewTransferLeaderProcedure oldLeader newLeader id)).proc.fsm =
        .StateTransferLeaderFailed ∧
      (Start c (NewTransferLeaderProcedure oldLeader newLeader id)).proc.state =
        .StateFailed) ∧
    (c.CloseShards oldLeader.Node [oldLeader.Id] = none →
      ∀ e, c.OpenShards newLeader.Node [newLeader.Id] = some e →
      (Start c (NewTransferLeaderProcedure oldLeader newLeader id)).effects =
        [.Transition .StateTransferLeaderBegin .StateTransferLeaderWaiting,
         .CloseShards oldLeader.Node [oldLeader.Id],
         .OpenShards newLeader.Node [newLeader.Id],
         .Transition .StateTransferLeaderWaiting .StateTransferLeaderFailed] ∧
      (Start c (NewTransferLeaderProcedure oldLeader newLeader id)).proc.fsm =
        .StateTransferLeaderFailed ∧
      (Start c (NewTransferLeaderProcedure oldLeader newLeader id)).proc.state =
        .StateFailed) ∧
    (c.CloseShards oldLeader.Node [oldLeader.Id] = none →
      c.OpenShards newLeader.Node [newLeader.Id] = none →
      (Start c (NewTransferLeaderProcedure oldLeader newLeader id)).effects =
        [.Transition .StateTransferLeaderBegin .StateTransferLeaderWaiting,
         .CloseShards oldLeader.Node [oldLeader.Id],
         .OpenShards newLeader.Node [newLeader.Id],
         .Transition .StateTransferLeaderWaiting .StateTransferLeaderFinish] ++
          (transferLeaderSuccessCallback c oldLeader newLeader).effects ∧
      (Start c (NewTransferLeaderProcedure oldLeader newLeader id)).proc.fsm =
        .StateTransferLeaderFinish ∧
      ((transferLeaderSuccessCallback c oldLeader newLeader).result = .ok none →
        (Start c (NewTransferLeaderProcedure oldLeader newLeader id)).proc.state =
          .StateFinished ∧
        (Start c (NewTransferLeaderProcedure oldLeader newLeader id)).result = .ok none) ∧
      (∀ err, (transferLeaderSuccessCallback c oldLeader newLeader).result = .ok (some err) →
        (Start c (NewTransferLeaderProcedure oldLeader newLeader id)).proc.state =
          .StateRunning ∧
        (Start c (NewTransferLeaderProcedure oldLeader newLeader id)).result =
          .ok (some (.WithMessage err "coordinator transferLeaderShard start"))) ∧
      (∀ e, c.GetClusterShardView = .error e →
        (transferLeaderSuccessCallback c oldLeader newLeader).effects = [] ∧
        (Start c (NewTransferLeaderProcedure oldLeader newLeader id)).proc.state =
          .StateRunning ∧
        (Start c (NewTransferLeaderProcedure oldLeader newLeader id)).result =
          .ok (some (.WithMessage
            (.WithMessage (.cause e) "TransferLeaderProcedure success callback")
            "coordinator transferLeaderShard start"))) ∧
      (∀ shardView committed, c.GetClusterShardView = .ok shardView →
        newShardView oldLeader newLeader shardView = some committed →
        (transferLeaderSuccessCallback c oldLeader newLeader).effects =
          [.UpdateClusterTopology c.GetClusterState committed] ∧
        (c.UpdateClusterTopology c.GetClusterState committed = none →
          (Start c (NewTransferLeaderProcedure oldLeader newLeader id)).proc.state =
            .StateFinished ∧
          (Start c (NewTransferLeaderProcedure oldLeader newLeader id)).result = .ok none) ∧
        (∀ e, c.UpdateClusterTopology c.GetClusterState committed = some e →
          (Start c (NewTransferLeaderProcedure oldLeader newLeader id)).proc.state =
            .StateRunning ∧
          (Start c (NewTransferLeaderProcedure oldLeader newLeader id)).result =
            .ok (some (.WithMessage
              (.WithMessage (.cause e) "TransferLeaderProcedure start success callback")
              "coordinator transferLeaderShard start"))))) := by
  refine ⟨?_, ?_, ?_⟩
  · intro e hclose
    simp [Start, NewTransferLeaderProcedure, Event, destination, transferLeaderEvents,
      transferLeaderCallbacks, transferLeaderPrepareCallback, transferLeaderFailedCallback,
      hclose]
  · intro hclose e hopen
    simp [Start, NewTransferLeaderProcedure, Event, destination, transferLeaderEvents,
      transferLeaderCallbacks, transferLeaderPrepareCallback, transferLeaderFailedCallback,
      hclose, hopen]
  · intro hclose hopen
    have hprep : transferLeaderPrepareCallback c oldLeader newLeader =
        ⟨[.CloseShards oldLeader.Node [oldLeader.Id],
          .OpenShards newLeader.Node [newLeader.Id]], .ok none⟩ := by
      simp [transferLeaderPrepareCallback, hclose, hopen]
    have hmain :
        (Start c (NewTransferLeaderProcedure oldLeader newLeader id)).effects =
          [.Transition .StateTransferLeaderBegin .StateTransferLeaderWaiting,
           .CloseShards oldLeader.Node [oldLeader.Id],
           .OpenShards newLeader.Node [newLeader.Id],
           .Transition .StateTransferLeaderWaiting .StateTransferLeaderFinish] ++
            (transferLeaderSuccessCallback c oldLeader newLeader).effects ∧
        (Start c (NewTransferLeaderProcedure oldLeader newLeader id)).proc.fsm =
          .StateTransferLeaderFinish ∧
        ((transferLeaderSuccessCallback c oldLeader newLeader).result = .ok none →
          (Start c (NewTransferLeaderProcedure oldLeader newLeader id)).proc.state =
            .StateFinished ∧
          (Start c (NewTransferLeaderProcedure oldLeader newLeader id)).result = .ok none) ∧
        (∀ err, (transferLeaderSuccessCallback c oldLeader newLeader).result = .ok (some err) →
          (Start c (NewTransferLeaderProcedure oldLeader newLeader id)).proc.state =
            .StateRunning ∧
          (Start c (NewTransferLeaderProcedure oldLeader newLeader id)).result =
            .ok (some (.WithMessage err "coordinator transferLeaderShard start"))) := by
      generalize hcb : transferLeaderSuccessCallback c oldLeader newLeader = cb
      obtain ⟨effects, result⟩ := cb
      rcases result with panic | (_ | err) <;>
        simp [Start, NewTransferLeaderProcedure, Event, destination, transferLeaderEvents,
          transferLeaderCallbacks, hprep, hcb, withMessage]
    obtain ⟨h₁, h₂, h₃, h₄⟩ := hmain
    refine ⟨h₁, h₂, h₃, h₄, ?_, ?_⟩
    · intro e hget
      have hcb : transferLeaderSuccessCallback c oldLeader newLeader =
          ⟨[], .ok (some (.WithMessage (.cause e)
            "TransferLeaderProcedure success callback"))⟩ := by
        simp [transferLeaderSuccessCallback, hget]
      refine ⟨by rw [hcb], ?_⟩
      exact h₄ _ (by rw [hcb])
    · intro shardView committed hget hnew
      refine ⟨?_, ?_, ?_⟩
      · unfold transferLeaderSuccessCallback
        simp only [hget, hnew]
        split <;> rfl
      · intro hupd
        exact h₃ (by simp [transferLeaderSuccessCallback, hget, hnew, hupd])
      · intro e hupd
        exact h₄ _ (by simp [transferLeaderSuccessCallback, hget, hnew, hupd])

/-! ## C14: `fmtID` -/

theorem toDigitsCore_eq_digits (fuel : Nat) :
    ∀ (n : Nat) (ds : List Char), n < fuel → 0 < n →
      Nat.toDigitsCore 10 fuel n ds = (Nat.digits 10 n).reverse.map Nat.digitChar ++ ds := by
  induction fuel with
  | zero => intro n ds h; exact absurd h (Nat.not_lt_zero n)
  | succ fuel ih =>
    intro n ds hlt hpos
    have hdig : Nat.digits 10 n = (n % 10) :: Nat.digits 10 (n / 10) :=
      Nat.digits_def' (by decide) hpos
    simp only [Nat.toDigitsCore]
    by_cases h0 : n / 10 = 0
    · simp [h0, hdig]
    · have hlt' : n / 10 < fuel := by omega
      have hpos' : 0 < n / 10 := Nat.pos_of_ne_zero h0
      rw [if_neg h0, ih (n / 10) _ hlt' hpos', hdig]
      simp

theorem toDigits_eq_digits {n : Nat} (hpos : 0 < n) :
    Nat.toDigits 10 n = (Nat.digits 10 n).reverse.map Nat.digitChar := by
  unfold Nat.toDigits
  rw [toDigitsCore_eq_digits (n + 1) n [] (Nat.lt_succ_self n) hpos]
  simp

theorem digits_length_le {id : Nat} (h : id < 10 ^ 20) : (Nat.digits 10 id).length ≤ 20 := by
  by_contra hlen
  have hlen' : 21 ≤ (Nat.digits 10 id).length := by omega
  by_cases h0 : id = 0
  · subst h0; simp at hlen'
  · have := Nat.base_pow_length_digits_le 10 id (by decide) h0
    have hpow : 10 ^ 21 ≤ 10 ^ (Nat.digits 10 id).length := Nat.pow_le_pow_right (by decide) hlen'
    omega

theorem fmtID_data {id : Nat} (h : id < 10 ^ 20) :
    (fmtID id).data = (paddedDigits id).map Nat.digitChar := by
  have hc : Nat.digitChar 0 = '0' := by decide
  by_cases h0 : id = 0
  · subst h0
    have ht : Nat.toDigits 10 0 = ['0'] := by decide
    simp only [fmtID, paddedDigits, ht, Nat.digits_zero, List.length_nil, List.reverse_nil,
      List.append_nil, List.map_replicate, hc]
    decide
  · have hpos : 0 < id := Nat.pos_of_ne_zero h0
    simp [fmtID, paddedDigits, toDigits_eq_digits hpos, hc]

theorem paddedDigits_length {id : Nat} (h : id < 10 ^ 20) : (paddedDigits id).length = 20 := by
  have := digits_length_le h
  simp [paddedDigits]
  omega

theorem paddedDigits_lt {id : Nat} : ∀ d ∈ paddedDigits id, d < 10 := by
  intro d hd
  simp only [paddedDigits, List.mem_append, List.mem_replicate, List.mem_reverse] at hd
  rcases hd with ⟨-, rfl⟩ | hd
  · decide
  · exact Nat.digits_lt_base (by decide) hd

theorem digitsValue_append (l₁ l₂ : List Nat) :
    digitsValue (l₁ ++ l₂) = digitsValue l₁ * 10 ^ l₂.length + digitsValue l₂ := by
  induction l₂ using List.reverseRecOn with
  | nil => simp [digitsValue]
  | append_singleton l d ih =>
    have h₁ : digitsValue (l₁ ++ (l ++ [d])) = digitsValue (l₁ ++ l) * 10 + d := by
      simp [digitsValue, ← List.append_assoc]
    have h₂ : digitsValue (l ++ [d]) = digitsValue l * 10 + d := by
      simp [digitsValue]
    rw [h₁, h₂, ih]
    simp only [List.length_append, List.length_singleton, pow_succ]
    ring

theorem digitsValue_reverse (l : List Nat) : digitsValue l.reverse = Nat.ofDigits 10 l := by
  induction l with
  | nil => rfl
  | cons d l ih =>
    rw [List.reverse_cons, digitsValue_append, ih, Nat.ofDigits_cons]
    simp [digitsValue]
    ring

theorem digitsValue_replicate_zero (k : Nat) : digitsValue (List.replicate k 0) = 0 := by
  induction k with
  | zero => rfl
  | succ k ih =>
    rw [List.replicate_succ']
    rw [digitsValue_append, ih]
    simp [digitsValue]

theorem digitsValue_paddedDigits (id : Nat) : digitsValue (paddedDigits id) = id := by
  rw [paddedDigits, digitsValue_append, digitsValue_replicate_zero, digitsValue_reverse,
    Nat.ofDigits_digits]
  simp

theorem digitsValue_lt : ∀ l : List Nat, (∀ d ∈ l, d < 10) → digitsValue l < 10 ^ l.length := by
  intro l
  induction l using List.reverseRecOn with
  | nil => intro _; simp [digitsValue]
  | append_singleton l d ih =>
    intro h
    have hd : d < 10 := h d (by simp)
    have hl := ih (fun x hx => h x (by simp [hx]))
    have hd1 : digitsValue [d] = d := by simp [digitsValue]
    rw [digitsValue_append, hd1]
    simp only [List.length_append, List.length_singleton, pow_succ, pow_one]
    generalize 10 ^ l.length = P at hl ⊢
    omega

theorem digitsValue_cons (d : Nat) (l : List Nat) :
    digitsValue (d :: l) = d * 10 ^ l.length + digitsValue l := by
  have := digitsValue_append [d] l
  simpa [digitsValue] using this

/-- Lexicographic order of two digit lists of the same length is the order of their values. -/
theorem lex_iff_digitsValue_lt : ∀ (l₁ l₂ : List Nat), l₁.length = l₂.length →
    (∀ d ∈ l₁, d < 10) → (∀ d ∈ l₂, d < 10) →
    (List.Lex (· < ·) l₁ l₂ ↔ digitsValue l₁ < digitsValue l₂) := by
  intro l₁
  induction l₁ with
  | nil =>
    intro l₂ hlen _ _
    cases l₂ with
    | nil => simp [digitsValue]
    | cons b l₂ => simp at hlen
  | cons a l₁ ih =>
    intro l₂ hlen h₁ h₂
    cases l₂ with
    | nil => simp at hlen
    | cons b l₂ =>
      have hlen' : l₁.length = l₂.length := by simpa using hlen
      have ih' := ih l₂ hlen' (fun d hd => h₁ d (List.mem_cons_of_mem _ hd))
        (fun d hd => h₂ d (List.mem_cons_of_mem _ hd))
      have hv₁ := digitsValue_lt l₁ (fun d hd => h₁ d (List.mem_cons_of_mem _ hd))
      have hv₂ := digitsValue_lt l₂ (fun d hd => h₂ d (List.mem_cons_of_mem _ hd))
      rw [digitsValue_cons, digitsValue_cons, ← hlen']
      rw [← hlen'] at hv₂
      generalize 10 ^ l₁.length = P at hv₁ hv₂ ⊢
      constructor
      · intro h
        cases h with
        | cons h' =>
          have := ih'.mp h'
          omega
        | rel h' =>
          have : (a + 1) * P ≤ b * P := Nat.mul_le_mul_right P h'
          have : (a + 1) * P = a * P + P := by ring
          omega
      · intro h
        rcases Nat.lt_trichotomy a b with hab | hab | hab
        · exact List.Lex.rel hab
        · subst hab
          exact List.Lex.cons (ih'.mpr (by omega))
        · exfalso
          have : (b + 1) * P ≤ a * P := Nat.mul_le_mul_right P hab
          have : (b + 1) * P = b * P + P := by ring
          omega

theorem digitChar_isDigit : ∀ d < 10, (Nat.digitChar d).isDigit = true := by decide

theorem digitChar_toNat : ∀ d < 10, (Nat.digitChar d).toNat - '0'.toNat = d := by decide

theorem digitChar_lt_iff : ∀ a < 10, ∀ b < 10, (Nat.digitChar a < Nat.digitChar b ↔ a < b) := by
  decide

theorem digitChar_eq_iff : ∀ a < 10, ∀ b < 10, (Nat.digitChar a = Nat.digitChar b ↔ a = b) := by
  decide

theorem lex_cons_cons {α : Type} {r : α → α → Prop} {a b : α} {l m : List α} :
    List.Lex r (a :: l) (b :: m) ↔ r a b ∨ (a = b ∧ List.Lex r l m) := by
  constructor
  · intro h
    cases h with
    | cons h' => exact Or.inr ⟨rfl, h'⟩
    | rel h' => exact Or.inl h'
  · rintro (h | ⟨rfl, h⟩)
    · exact List.Lex.rel h
    · exact List.Lex.cons h

theorem lex_map_digitChar : ∀ (l₁ l₂ : List Nat), (∀ d ∈ l₁, d < 10) → (∀ d ∈ l₂, d < 10) →
    (List.Lex (· < ·) (l₁.map Nat.digitChar) (l₂.map Nat.digitChar) ↔
      List.Lex (· < ·) l₁ l₂) := by
  intro l₁
  induction l₁ with
  | nil =>
    intro l₂ _ _
    cases l₂ with
    | nil => simp
    | cons b l₂ => exact ⟨fun _ => List.Lex.nil, fun _ => List.Lex.nil⟩
  | cons a l₁ ih =>
    intro l₂ h₁ h₂
    cases l₂ with
    | nil => simp
    | cons b l₂ =>
      have ha : a < 10 := h₁ a (List.mem_cons_self _ _)
      have hb : b < 10 := h₂ b (List.mem_cons_self _ _)
      rw [List.map_cons, List.map_cons, lex_cons_cons, lex_cons_cons,
        digitChar_lt_iff a ha b hb, digitChar_eq_iff a ha b hb,
        ih l₂ (fun d hd => h₁ d (List.mem_cons_of_mem _ hd))
          (fun d hd => h₂ d (List.mem_cons_of_mem _ hd))]

theorem foldl_digitChar (l : List Nat) (h : ∀ d ∈ l, d < 10) (n : Nat) :
    (l.map Nat.digitChar).foldl (fun n c => n * 10 + (c.toNat - '0'.toNat)) n =
      l.foldl (fun n d => n * 10 + d) n := by
  induction l generalizing n with
  | nil => rfl
  | cons d l ih =>
    simp only [List.map_cons, List.foldl_cons]
    rw [digitChar_toNat d (h d (List.mem_cons_self _ _))]
    exact ih (fun x hx => h x (List.mem_cons_of_mem _ hx)) _

/-- C14: for all unsigned 64-bit `a` and `b`, `fmtID a` has exactly 20 characters,
all of them decimal digits, and reads as the number `a`; `fmtID a` is
lexicographically less than `fmtID b` exactly when `a < b`, and the two are
equal exactly when `a = b`. -/
theorem fmtID_spec (a b : Nat) (ha : a < 2 ^ 64) (hb : b < 2 ^ 64) :
    (fmtID a).length = 20 ∧
    (∀ c ∈ (fmtID a).data, c.isDigit = true) ∧
    (fmtID a).toNat? = some a ∧
    (fmtID a < fmtID b ↔ a < b) ∧
    (fmtID a = fmtID b ↔ a = b) := by
  have ha' : a < 10 ^ 20 := lt_trans ha (by norm_num)
  have hb' : b < 10 ^ 20 := lt_trans hb (by norm_num)
  have hda := fmtID_data ha'
  have hdb := fmtID_data hb'
  have hlen : (fmtID a).length = 20 := by
    rw [String.length, hda, List.length_map, paddedDigits_length ha']
  have hdig : ∀ c ∈ (fmtID a).data, c.isDigit = true := by
    intro c hc
    rw [hda, List.mem_map] at hc
    obtain ⟨d, hd, rfl⟩ := hc
    exact digitChar_isDigit d (paddedDigits_lt d hd)
  have hlt : fmtID a < fmtID b ↔ a < b := by
    rw [String.lt_iff_toList_lt]
    show List.Lex (· < ·) (fmtID a).data (fmtID b).data ↔ a < b
    rw [hda, hdb, lex_map_digitChar _ _ paddedDigits_lt paddedDigits_lt,
      lex_iff_digitsValue_lt _ _ (by rw [paddedDigits_length ha', paddedDigits_length hb'])
        paddedDigits_lt paddedDigits_lt,
      digitsValue_paddedDigits, digitsValue_paddedDigits]
  refine ⟨hlen, hdig, ?_, hlt, ?_⟩
  · have hne : (fmtID a).isEmpty = false := by
      rw [Bool.eq_false_iff]
      intro h
      rw [String.isEmpty_iff] at h
      rw [h] at hlen
      simp at hlen
    have hall : (fmtID a).all (fun c => c.isDigit) = true := by
      rw [String.all_eq, List.all_eq_true]
      exact hdig
    unfold String.toNat? String.isNat
    rw [hne, hall]
    simp only [Bool.not_false, Bool.and_self, if_true, Option.some.injEq]
    rw [String.foldl_eq, hda, foldl_digitChar _ paddedDigits_lt]
    exact digitsValue_paddedDigits a
  · constructor
    · intro h
      have h₁ : ¬ a < b := fun hab => by
        have := hlt.mpr hab
        rw [h] at this
        exact absurd this (lt_irrefl _)
      have hlt' : fmtID b < fmtID a ↔ b < a := by
        rw [String.lt_iff_toList_lt]
        show List.Lex (· < ·) (fmtID b).data (fmtID a).data ↔ b < a
        rw [hda, hdb, lex_map_digitChar _ _ paddedDigits_lt paddedDigits_lt,
          lex_iff_digitsValue_lt _ _ (by rw [paddedDigits_length ha', paddedDigits_length hb'])
            paddedDigits_lt paddedDigits_lt,
          digitsValue_paddedDigits, digitsValue_paddedDigits]
      have h₂ : ¬ b < a := fun hba => by
        have := hlt'.mpr hba
        rw [h] at this
        exact absurd this (lt_irrefl _)
      omega
    · rintro rfl
      rfl

/-- Witness for C14: the IDs 42 and 43. -/
theorem fmtID_spec_witness :
    (fmtID 42).length = 20 ∧ (fmtID 42).toNat? = some 42 ∧ fmtID 42 < fmtID 43 :=
  ⟨(fmtID_spec 42 43 (by decide) (by decide)).1,
   (fmtID_spec 42 43 (by decide) (by decide)).2.2.1,
   (fmtID_spec 42 43 (by decide) (by decide)).2.2.2.1.mpr (by decide)⟩

/-! ## C15: keys as concatenations -/

theorem cleanElements_plain (rooted : Bool) (elements : List (List Char)) :
    ∀ out, (∀ e ∈ elements, PlainElement e) →
      cleanElements rooted elements out = out.reverse ++ elements := by
  induction elements with
  | nil => intro out _; simp [cleanElements]
  | cons e rest ih =>
    intro out h
    obtain ⟨h₁, -, h₃, h₄⟩ := h e (List.mem_cons_self _ _)
    simp only [cleanElements, h₁, h₃, h₄, if_false]
    rw [ih _ (fun x hx => h x (List.mem_cons_of_mem _ hx))]
    simp

theorem joinElements_nonempty (elements : List (List Char)) :
    ∀ buf, buf ≠ [] →
      joinElements elements buf = buf ++ (elements.map (fun e => '/' :: e)).flatten := by
  induction elements with
  | nil => intro buf _; simp [joinElements]
  | cons e rest ih =>
    intro buf h
    rw [joinElements, if_pos (Or.inl h), if_pos h, ih _ (by simp [h])]
    simp

theorem intercalate_cons (sep : List Char) (ys : List (List Char)) :
    ∀ x, List.intercalate sep (x :: ys) = x ++ (ys.map (fun e => sep ++ e)).flatten := by
  induction ys with
  | nil => intro x; simp [List.intercalate]
  | cons y ys ih =>
    intro x
    have := ih y
    simp only [List.intercalate] at this ⊢
    simp only [List.intersperse_cons₂, List.flatten_cons, this, List.map_cons]
    simp

theorem intercalate_append (sep : List Char) (xs ys : List (List Char)) (h : xs ≠ []) :
    List.intercalate sep (xs ++ ys) =
      List.intercalate sep xs ++ (ys.map (fun e => sep ++ e)).flatten := by
  cases xs with
  | nil => exact absurd rfl h
  | cons x xs =>
    rw [List.cons_append, intercalate_cons, intercalate_cons]
    simp

theorem intercalate_ne_nil (elements : List (List Char)) (h : elements ≠ [])
    (hp : ∀ e ∈ elements, PlainElement e) :
    ∃ c rest, List.intercalate ['/'] elements = c :: rest ∧ c ≠ '/' := by
  cases elements with
  | nil => exact absurd rfl h
  | cons e es =>
    obtain ⟨h₁, h₂, -, -⟩ := hp e (List.mem_cons_self _ _)
    rw [intercalate_cons]
    cases e with
    | nil => exact absurd rfl h₁
    | cons c cs =>
      refine ⟨c, _, rfl, ?_⟩
      intro hc
      exact h₂ (by simp [hc])

theorem Clean_plain (rooted : Bool) (elements : List (List Char)) (h : elements ≠ [])
    (hp : ∀ e ∈ elements, PlainElement e) :
    Clean ((if rooted then ['/'] else []) ++ List.intercalate ['/'] elements) =
      (if rooted then ['/'] else []) ++ List.intercalate ['/'] elements := by
  obtain ⟨c, rest, hi, hc⟩ := intercalate_ne_nil elements h hp
  have hno : ∀ l ∈ elements, '/' ∉ l := fun l hl => (hp l hl).2.1
  cases rooted with
  | true =>
    have hsplit : (['/'] ++ List.intercalate ['/'] elements).splitOn '/' = [] :: elements := by
      have h' : ['/'] ++ List.intercalate ['/'] elements =
          List.intercalate ['/'] ([] :: elements) := by
        rw [intercalate_cons ['/'] elements []]
        cases elements with
        | nil => exact absurd rfl h
        | cons e es => simp [intercalate_cons]
      rw [h']
      exact List.splitOn_intercalate ([] :: elements) '/' (by
        intro l hl
        rcases List.mem_cons.mp hl with rfl | hl
        · simp
        · exact hno l hl) (by simp)
    simp only [if_true]
    unfold Clean
    rw [hsplit]
    simp [cleanElements, cleanElements_plain true elements [] hp]
  | false =>
    have hsplit : (List.intercalate ['/'] elements).splitOn '/' = elements :=
      List.splitOn_intercalate elements '/' hno h
    simp only [Bool.false_eq_true, if_false, List.nil_append]
    unfold Clean
    rw [hsplit, hi]
    have hc' : ¬ c = '/' := hc
    simp [cleanElements_plain false elements [] hp, hc', hi]

theorem Join_plain (rootPath : String) (elem : List String) (hroot : PlainPath rootPath)
    (helem : ∀ e ∈ elem, PlainElement e.data) :
    Join (rootPath :: elem) =
      String.mk (rootPath.data ++ (elem.map (fun e => '/' :: e.data)).flatten) := by
  obtain ⟨rooted, elements, hne, hp, hdata⟩ := hroot
  obtain ⟨c, rest, hi, -⟩ := intercalate_ne_nil elements hne hp
  have hrne : rootPath.data ≠ [] := by
    rw [hdata, hi]
    simp
  have hbuf : joinElements ((rootPath :: elem).map String.data) [] =
      rootPath.data ++ (elem.map (fun e => '/' :: e.data)).flatten := by
    rw [List.map_cons, joinElements, if_pos (Or.inr hrne)]
    simp only [ne_eq, not_true_eq_false, if_false, List.nil_append]
    rw [joinElements_nonempty _ _ hrne]
    simp [List.map_map, Function.comp_def]
  have hall : rootPath.data ++ (elem.map (fun e => '/' :: e.data)).flatten =
      (if rooted then ['/'] else []) ++
        List.intercalate ['/'] (elements ++ elem.map String.data) := by
    rw [intercalate_append _ _ _ hne, hdata]
    simp [List.map_map, Function.comp_def]
  unfold Join
  rw [hbuf, if_neg (by simp [hrne]), hall,
    Clean_plain rooted _ (by simp [hne]) (by
      intro e he
      rcases List.mem_append.mp he with he | he
      · exact hp e he
      · obtain ⟨s, hs, rfl⟩ := List.mem_map.mp he
        exact helem s hs)]


theorem fmtID_plain {id : Nat} (h : id < 10 ^ 20) : PlainElement (fmtID id).data := by
  have hda := fmtID_data h
  have hlen : (fmtID id).data.length = 20 := by
    rw [hda, List.length_map, paddedDigits_length h]
  refine ⟨?_, ?_, ?_, ?_⟩
  · intro h0; rw [h0] at hlen; simp at hlen
  · intro hm
    rw [hda, List.mem_map] at hm
    obtain ⟨d, hd, he⟩ := hm
    have := digitChar_isDigit d (paddedDigits_lt d hd)
    rw [he] at this
    exact absurd this (by decide)
  · intro h0; rw [h0] at hlen; simp at hlen
  · intro h0; rw [h0] at hlen; simp at hlen

theorem plain_constants :
    PlainElement version.data ∧ PlainElement cluster.data ∧ PlainElement node.data ∧
    PlainElement schema.data ∧ PlainElement tableNameToID.data := by
  refine ⟨?_, ?_, ?_, ?_, ?_⟩ <;> exact ⟨by decide, by decide, by decide, by decide⟩

theorem makeNodeKey_concat (rootPath : String) (clusterID : Nat) (nodeName : String)
    (hroot : PlainPath rootPath) (hid : clusterID < 2 ^ 32) (hname : PlainElement nodeName.data) :
    makeNodeKey rootPath clusterID nodeName =
      rootPath ++ "/v1/cluster/" ++ fmtID clusterID ++ "/node/" ++ nodeName := by
  have hid' : clusterID < 10 ^ 20 := lt_trans hid (by norm_num)
  obtain ⟨h₁, h₂, h₃, h₄, h₅⟩ := plain_constants
  rw [makeNodeKey, Join_plain rootPath _ hroot (by
    intro e he
    simp only [List.mem_cons, List.mem_singleton, List.not_mem_nil, or_false] at he
    rcases he with rfl | rfl | rfl | rfl | rfl
    · exact h₁
    · exact h₂
    · exact fmtID_plain hid'
    · exact h₃
    · exact hname)]
  apply String.ext
  simp [String.data_append, version, cluster, node]

theorem makeNameToIDKey_concat (rootPath : String) (clusterID schemaID : Nat) (tableName : String)
    (hroot : PlainPath rootPath) (hid : clusterID < 2 ^ 32) (hsid : schemaID < 2 ^ 32)
    (hname : PlainElement tableName.data) :
    makeNameToIDKey rootPath clusterID schemaID tableName =
      rootPath ++ "/v1/cluster/" ++ fmtID clusterID ++ "/schema/" ++ fmtID schemaID ++
        "/table_name_to_id/" ++ tableName := by
  have hid' : clusterID < 10 ^ 20 := lt_trans hid (by norm_num)
  have hsid' : schemaID < 10 ^ 20 := lt_trans hsid (by norm_num)
  obtain ⟨h₁, h₂, h₃, h₄, h₅⟩ := plain_constants
  rw [makeNameToIDKey, Join_plain rootPath _ hroot (by
    intro e he
    simp only [List.mem_cons, List.mem_singleton, List.not_mem_nil, or_false] at he
    rcases he with rfl | rfl | rfl | rfl | rfl | rfl | rfl
    · exact h₁
    · exact h₂
    · exact fmtID_plain hid'
    · exact h₄
    · exact fmtID_plain hsid'
    · exact h₅
    · exact hname)]
  apply String.ext
  simp [String.data_append, version, cluster, schema, tableNameToID]

/-- Counterexample for C15: with the empty root path the key has no leading
slash; the node name `.` is dropped from the key; the table name `..` removes
the segment `table_name_to_id` before it. None of the three names holds a
slash. -/
theorem keys_not_pure_concatenation :
    ('/' ∉ "n1".data ∧
      makeNodeKey "" 1 "n1" = "v1/cluster/00000000000000000001/node/n1" ∧
      makeNodeKey "" 1 "n1" ≠ "" ++ "/v1/cluster/" ++ fmtID 1 ++ "/node/" ++ "n1") ∧
    ('/' ∉ ".".data ∧
      makeNodeKey "/rootPath" 1 "." = "/rootPath/v1/cluster/00000000000000000001/node" ∧
      makeNodeKey "/rootPath" 1 "." ≠ "/rootPath" ++ "/v1/cluster/" ++ fmtID 1 ++ "/node/" ++ ".") ∧
    ('/' ∉ "..".data ∧
      makeNameToIDKey "/rootPath" 1 2 ".." =
        "/rootPath/v1/cluster/00000000000000000001/schema/00000000000000000002" ∧
      makeNameToIDKey "/rootPath" 1 2 ".." ≠
        "/rootPath" ++ "/v1/cluster/" ++ fmtID 1 ++ "/schema/" ++ fmtID 2 ++
          "/table_name_to_id/" ++ "..") := by
  decide

/-- C15 (amended): for a root path made of plain elements (as `/rootPath`),
cluster and schema IDs of 32 bits, and a name that is not empty, holds no slash
and is neither `.` nor `..`, the node key and the name-to-ID key are the plain
concatenations of the root path, the fixed segments, the formatted IDs and the
name. -/
theorem keys_concat (rootPath : String) (clusterID schemaID : Nat) (name : String)
    (hroot : PlainPath rootPath) (hid : clusterID < 2 ^ 32) (hsid : schemaID < 2 ^ 32)
    (hname : PlainElement name.data) :
    makeNodeKey rootPath clusterID name =
      rootPath ++ "/v1/cluster/" ++ fmtID clusterID ++ "/node/" ++ name ∧
    makeNameToIDKey rootPath clusterID schemaID name =
      rootPath ++ "/v1/cluster/" ++ fmtID clusterID ++ "/schema/" ++ fmtID schemaID ++
        "/table_name_to_id/" ++ name :=
  ⟨makeNodeKey_concat rootPath clusterID name hroot hid hname,
   makeNameToIDKey_concat rootPath clusterID schemaID name hroot hid hsid hname⟩

/-- The default root path `/rootPath` is a plain path. -/
theorem rootPath_plain : PlainPath "/rootPath" :=
  ⟨true, ["rootPath".data], by decide,
    fun e he => by
      rw [List.mem_singleton.mp he]
      exact ⟨by decide, by decide, by decide, by decide⟩,
    by decide⟩

/-- Witness for C15: the default root path, cluster 1, schema 2 and the name
`n1`. -/
theorem keys_concat_witness :
    makeNodeKey "/rootPath" 1 "n1" =
      "/rootPath" ++ "/v1/cluster/" ++ fmtID 1 ++ "/node/" ++ "n1" ∧
    makeNameToIDKey "/rootPath" 1 2 "n1" =
      "/rootPath" ++ "/v1/cluster/" ++ fmtID 1 ++ "/schema/" ++ fmtID 2 ++
        "/table_name_to_id/" ++ "n1" :=
  keys_concat "/rootPath" 1 2 "n1" rootPath_plain (by decide) (by decide)
    ⟨by decide, by decide, by decide, by decide⟩


/-! ## C22: tables after `RemoveTable` -/

/-- A table that has an entry in `tableShardMapping` is never reported as not
found by `RemoveTable`. -/
theorem RemoveTable_not_TableNotFound_of_mapped {σ ε : Type} (S : Storage σ ε)
    (m : TopologyManagerImpl) (st : σ) (now : Nat) (tableID : TableID) (s : ShardID)
    (h : m.tableShardMapping.get? tableID = some s) :
    (RemoveTable S m st now tableID).result ≠ .err (.TableNotFound tableID) := by
  unfold RemoveTable
  rw [h]
  dsimp only
  split
  · simp
  · split <;> simp

/-- A table that has an entry in `tableShardMapping` is never reported as not
found by `GetShardNodesByTableIDs`. -/
theorem GetShardNodesByTableIDs_not_TableNotFound_of_mapped (m : TopologyManagerImpl)
    (tableID : TableID) (s : ShardID) (h : m.tableShardMapping.get? tableID = some s) :
    GetShardNodesByTableIDs m [tableID] ≠ .err (.TableNotFound tableID) := by
  unfold GetShardNodesByTableIDs
  simp only [getShardNodesByTableIDsLoop, h]
  split
  · simp
  · split
    · simp
    · split <;> simp

/-- C22 (code defect): `RemoveTable` never deletes from `tableShardMapping`.  After
every `RemoveTable(tableID)` that returns no error the map is the one before
the call and still sends `tableID` to the shard it was removed from; so
`GetShardNodesByTableIDs([tableID])` does not fail with TableNotFound, and
neither does a second `RemoveTable(tableID)`.  On the loaded scenario state,
after `RemoveTable(7)` the table 7 is still mapped to shard 1,
`GetShardNodesByTableIDs([7])` returns the shard nodes of shard 1, and a second
`RemoveTable(7)` returns no error, writes the view of shard 1 again and moves
its version from 1 to 2. -/
theorem RemoveTable_leaves_table_mapped {σ ε : Type} (S : Storage σ ε) (m : TopologyManagerImpl)
    (st : σ) (now : Nat) (tableID : TableID) :
    (∀ u, (RemoveTable S m st now tableID).result = .ok u →
      (RemoveTable S m st now tableID).mem.tableShardMapping = m.tableShardMapping ∧
      (RemoveTable S m st now tableID).mem.tableShardMapping.get? tableID = some u.ShardID ∧
      GetShardNodesByTableIDs (RemoveTable S m st now tableID).mem [tableID] ≠
        .err (.TableNotFound tableID) ∧
      ∀ (st' : σ) (now' : Nat),
        (RemoveTable S (RemoveTable S m st now tableID).mem st' now' tableID).result ≠
          .err (.TableNotFound tableID)) ∧
    scenarioRemove.result = .ok ⟨1, 1, 0⟩ ∧
    scenarioRemove.mem.tableShardMapping.get? 7 = some 1 ∧
    GetShardNodesByTableIDs scenarioRemove.mem [7] =
      .ok ⟨⟨[(7, [⟨1, .Leader, "n1"⟩, ⟨1, .Follower, "n3"⟩])]⟩, ⟨[(1, 1)]⟩⟩ ∧
    scenarioRemoveAgain.result = .ok ⟨1, 2, 1⟩ ∧
    scenarioRemoveAgain.calls = [.UpdateShardView ⟨1, ⟨1, 2, [], 10⟩, 1⟩] ∧
    scenarioRemove.mem.shardTablesMapping.get? 1 = some ⟨1, 1, [], 5⟩ ∧
    scenarioRemoveAgain.mem.shardTablesMapping.get? 1 = some ⟨1, 2, [], 5⟩ := by
  refine ⟨?_, by decide, by decide, by decide, by decide, by decide, by decide, by decide⟩
  intro u h
  obtain ⟨shardView, h₁, -, -, -, -, -, hmem⟩ := RemoveTable_ok S m st now tableID u h
  have hmap : (RemoveTable S m st now tableID).mem.tableShardMapping = m.tableShardMapping := by
    rw [hmem]
  have hget : (RemoveTable S m st now tableID).mem.tableShardMapping.get? tableID =
      some u.ShardID := by rw [hmap, h₁]
  exact ⟨hmap, hget,
    GetShardNodesByTableIDs_not_TableNotFound_of_mapped _ tableID u.ShardID hget,
    fun st' now' => RemoveTable_not_TableNotFound_of_mapped S _ st' now' tableID u.ShardID hget⟩

/-! ## C23: what `Start` returns -/

/-- C23 (code defect): `Start` on a new procedure, for all collaborators.  When
`CloseShards` returns an error, or `CloseShards` succeeds and `OpenShards`
returns an error, the event `EventTransferLeaderPrepare` returns that error,
but `Start` then returns the result of the event `EventTransferLeaderFailed`
wrapped by `errors.WithMessage`, which is nil: `Start` returns nil, with the
state of the procedure `StateFailed`.  When both dispatches succeed and the
success step returns an error, `Start` returns that error, wrapped. -/
theorem Start_returns_nil_when_prepare_fails {ε : Type} (c : Collaborators ε)
    (oldLeader newLeader : Shard) (id : Nat) :
    (∀ e, c.CloseShards oldLeader.Node [oldLeader.Id] = some e →
      (Start c (NewTransferLeaderProcedure oldLeader newLeader id)).result = .ok none ∧
      (Start c (NewTransferLeaderProcedure oldLeader newLeader id)).proc.state = .StateFailed) ∧
    (c.CloseShards oldLeader.Node [oldLeader.Id] = none →
      ∀ e, c.OpenShards newLeader.Node [newLeader.Id] = some e →
      (Start c (NewTransferLeaderProcedure oldLeader newLeader id)).result = .ok none ∧
      (Start c (NewTransferLeaderProcedure oldLeader newLeader id)).proc.state = .StateFailed) ∧
    (c.CloseShards oldLeader.Node [oldLeader.Id] = none →
      c.OpenShards newLeader.Node [newLeader.Id] = none →
      ∀ err, (transferLeaderSuccessCallback c oldLeader newLeader).result = .ok (some err) →
      (Start c (NewTransferLeaderProcedure oldLeader newLeader id)).result =
        .ok (some (.WithMessage err "coordinator transferLeaderShard start"))) ∧
    (Event (ε := String) .StateTransferLeaderBegin .EventTransferLeaderPrepare
        (transferLeaderPrepareCallback
          (fixedCollaborators (some "unreachable") none (.ok [⟨1, .Leader, "nA"⟩]) none)
          ⟨1, .Leader, "nA"⟩ ⟨1, .Leader, "nB"⟩)).result =
      .ok (some (.WithMessage (.cause "unreachable")
        "coordinator transferLeaderShard prepare callback")) ∧
    (Start (fixedCollaborators (some "unreachable") none (.ok [⟨1, .Leader, "nA"⟩]) none)
        (NewTransferLeaderProcedure ⟨1, .Leader, "nA"⟩ ⟨1, .Leader, "nB"⟩ 7)).result =
      .ok none ∧
    (Start (fixedCollaborators none (some "unreachable") (.ok [⟨1, .Leader, "nA"⟩]) none)
        (NewTransferLeaderProcedure ⟨1, .Leader, "nA"⟩ ⟨1, .Leader, "nB"⟩ 7)).result =
      .ok none ∧
    (Start (fixedCollaborators none (some "unreachable") (.ok [⟨1, .Leader, "nA"⟩]) none)
        (NewTransferLeaderProcedure ⟨1, .Leader, "nA"⟩ ⟨1, .Leader, "nB"⟩ 7)).effects =
      [.Transition .StateTransferLeaderBegin .StateTransferLeaderWaiting,
       .CloseShards "nA" [1], .OpenShards "nB" [1],
       .Transition .StateTransferLeaderWaiting .StateTransferLeaderFailed] := by
  refine ⟨?_, ?_, ?_, rfl, rfl, rfl, by decide⟩
  · intro e h
    simp [Start, NewTransferLeaderProcedure, Event, destination, transferLeaderEvents,
      transferLeaderCallbacks, transferLeaderPrepareCallback, transferLeaderFailedCallback, h,
      withMessage]
  · intro h e h'
    simp [Start, NewTransferLeaderProcedure, Event, destination, transferLeaderEvents,
      transferLeaderCallbacks, transferLeaderPrepareCallback, transferLeaderFailedCallback, h, h',
      withMessage]
  · intro hclose hopen err hsucc
    have hprep : transferLeaderPrepareCallback c oldLeader newLeader =
        ⟨[.CloseShards oldLeader.Node [oldLeader.Id],
          .OpenShards newLeader.Node [newLeader.Id]], .ok none⟩ := by
      simp [transferLeaderPrepareCallback, hclose, hopen]
    simp [Start, NewTransferLeaderProcedure, Event, destination, transferLeaderEvents,
      transferLeaderCallbacks, hprep, hsucc, withMessage]

/-! ## C24: keys do not collide -/

theorem not_mem_of_mem_splitOn (a : Char) :
    ∀ (xs l : List Char), l ∈ xs.splitOn a → a ∉ l := by
  intro xs
  induction xs with
  | nil =>
    intro l hl
    simp only [List.splitOn_nil, List.mem_singleton] at hl
    subst hl
    simp
  | cons x xs ih =>
    intro l hl
    simp only [List.splitOn] at hl ih
    rw [List.splitOnP_cons] at hl
    by_cases hx : (x == a) = true
    · rw [if_pos hx] at hl
      rcases List.mem_cons.mp hl with rfl | hl
      · simp
      · exact ih l hl
    · rw [if_neg hx] at hl
      cases hsplit : List.splitOnP (fun y => y == a) xs with
      | nil => exact absurd hsplit (List.splitOnP_ne_nil _ _)
      | cons hd tl =>
        rw [hsplit] at hl ih
        simp only [List.modifyHead_cons, List.mem_cons] at hl
        rcases hl with rfl | hl
        · intro hmem
          rcases List.mem_cons.mp hmem with h | h
          · exact hx (by simp [h])
          · exact ih hd (List.mem_cons_self _ _) h
        · exact ih l (List.mem_cons_of_mem _ hl)

theorem cleanElements_append_plain (rooted : Bool) (ys : List (List Char))
    (hys : ∀ e ∈ ys, PlainElement e) :
    ∀ (xs out : List (List Char)),
      cleanElements rooted (xs ++ ys) out = cleanElements rooted xs out ++ ys := by
  intro xs
  induction xs with
  | nil =>
    intro out
    simp [cleanElements, cleanElements_plain rooted ys out hys]
  | cons x xs ih =>
    intro out
    simp only [List.cons_append, cleanElements]
    split
    · exact ih _
    · split
      · exact ih _
      · split
        · split
          · split
            · exact ih _
            · exact ih _
          · split
            · exact ih _
            · exact ih _
        · exact ih _

theorem mem_cleanElements (rooted : Bool) :
    ∀ (xs out : List (List Char)) (e : List Char),
      e ∈ cleanElements rooted xs out → e ∈ xs ∨ e ∈ out := by
  intro xs
  induction xs with
  | nil =>
    intro out e he
    simp only [cleanElements, List.mem_reverse] at he
    exact Or.inr he
  | cons x xs ih =>
    intro out e he
    simp only [cleanElements] at he
    have key : ∀ out', (∀ y ∈ out', y = x ∨ y ∈ out) → e ∈ cleanElements rooted xs out' →
        e ∈ x :: xs ∨ e ∈ out := by
      intro out' hsub h
      rcases ih out' e h with h | h
      · exact Or.inl (List.mem_cons_of_mem _ h)
      · rcases hsub e h with rfl | h
        · exact Or.inl (List.mem_cons_self _ _)
        · exact Or.inr h
    split at he
    · exact key out (fun y hy => Or.inr hy) he
    · split at he
      · exact key out (fun y hy => Or.inr hy) he
      · split at he
        · split at he
          · split at he
            · exact key _ (fun y hy => by
                rcases List.mem_cons.mp hy with h | h
                · exact Or.inl h
                · exact Or.inr h) he
            · exact key _ (fun y hy => Or.inr (List.mem_cons_of_mem _ hy)) he
          · split at he
            · exact key _ (fun y hy => by simp at hy) he
            · exact key _ (fun y hy => by
                rcases List.mem_cons.mp hy with h | h
                · exact Or.inl h
                · simp at h) he
        · exact key _ (fun y hy => by
            rcases List.mem_cons.mp hy with h | h
            · exact Or.inl h
            · exact Or.inr h) he

theorem intercalate_append_ne_nil (xs ys : List (List Char)) (h : ys ≠ [])
    (hp : ∀ e ∈ ys, PlainElement e) : List.intercalate ['/'] (xs ++ ys) ≠ [] := by
  cases xs with
  | nil =>
    obtain ⟨c, rest, hi, -⟩ := intercalate_ne_nil ys h hp
    simp [hi]
  | cons x xs =>
    rw [List.cons_append, intercalate_cons]
    cases hxy : xs ++ ys with
    | nil => simp [h] at hxy
    | cons y rest => simp

theorem Join_data (rootPath : String) (elem : List String) (hne : elem ≠ [])
    (helem : ∀ e ∈ elem, PlainElement e.data) :
    (Join (rootPath :: elem)).data =
      rootSlash rootPath ++
        List.intercalate ['/'] (rootElements rootPath ++ elem.map String.data) := by
  have hne' : elem.map String.data ≠ [] := by simpa using hne
  have hp : ∀ e ∈ elem.map String.data, PlainElement e := by
    intro e he
    obtain ⟨s, hs, rfl⟩ := List.mem_map.mp he
    exact helem s hs
  by_cases hroot : rootPath.data = []
  · have hslash : rootSlash rootPath = [] := by simp [rootSlash, hroot]
    have hout : rootElements rootPath = [] := by
      simp [rootElements, hroot, cleanElements]
    obtain ⟨c, rest, hi, -⟩ := intercalate_ne_nil _ hne' hp
    have hbuf : joinElements ((rootPath :: elem).map String.data) [] =
        List.intercalate ['/'] (elem.map String.data) := by
      rw [List.map_cons, joinElements, hroot, if_neg (by simp)]
      cases elem with
      | nil => exact absurd rfl hne
      | cons e es =>
        have he : e.data ≠ [] := (helem e (List.mem_cons_self _ _)).1
        rw [List.map_cons, joinElements, if_pos (Or.inr he)]
        simp only [ne_eq, not_true_eq_false, if_false, List.nil_append]
        rw [joinElements_nonempty _ _ he, intercalate_cons]
        simp
    rw [hslash, hout]
    unfold Join
    rw [hbuf, if_neg (by rw [hi]; simp)]
    have := Clean_plain false _ hne' hp
    simp only [Bool.false_eq_true, if_false, List.nil_append] at this
    simp [this]
  · have hR : List.intercalate ['/'] (rootPath.data.splitOn '/') = rootPath.data :=
      List.intercalate_splitOn rootPath.data '/'
    have hRne : rootPath.data.splitOn '/' ≠ [] := List.splitOnP_ne_nil _ _
    have hbuf : joinElements ((rootPath :: elem).map String.data) [] =
        List.intercalate ['/'] (rootPath.data.splitOn '/' ++ elem.map String.data) := by
      rw [List.map_cons, joinElements, if_pos (Or.inr hroot)]
      simp only [ne_eq, not_true_eq_false, if_false, List.nil_append]
      rw [joinElements_nonempty _ _ hroot, intercalate_append _ _ _ hRne, hR]
      simp
    have hhead : (List.intercalate ['/'] (rootPath.data.splitOn '/' ++ elem.map String.data)).head?
        = rootPath.data.head? := by
      rw [intercalate_append _ _ _ hRne, hR]
      exact List.head?_append_of_ne_nil _ hroot
    have hsplit : (List.intercalate ['/']
        (rootPath.data.splitOn '/' ++ elem.map String.data)).splitOn '/' =
        rootPath.data.splitOn '/' ++ elem.map String.data :=
      List.splitOn_intercalate _ '/' (by
        intro l hl
        rcases List.mem_append.mp hl with hl | hl
        · exact not_mem_of_mem_splitOn '/' _ l hl
        · exact (hp l hl).2.1) (by simp [hRne])
    have hbne : List.intercalate ['/'] (rootPath.data.splitOn '/' ++ elem.map String.data) ≠ [] :=
      intercalate_append_ne_nil _ _ hne' hp
    unfold Join
    rw [hbuf, if_neg hbne]
    unfold Clean
    rw [if_neg hbne]
    simp only [hhead, hsplit, cleanElements_append_plain _ _ hp]
    have hcne : List.intercalate ['/']
        (cleanElements (decide (rootPath.data.head? = some '/')) (rootPath.data.splitOn '/') [] ++
          elem.map String.data) ≠ [] := intercalate_append_ne_nil _ _ hne' hp
    rw [if_neg (by simp [hcne])]
    simp [rootSlash, rootElements]

theorem rootElements_no_slash (rootPath : String) : ∀ l ∈ rootElements rootPath, '/' ∉ l := by
  intro l hl
  rcases mem_cleanElements _ _ _ l hl with h | h
  · exact not_mem_of_mem_splitOn '/' _ l h
  · simp at h

theorem Join_root_injective (rootPath : String) (elem₁ elem₂ : List String)
    (hne₁ : elem₁ ≠ []) (hne₂ : elem₂ ≠ [])
    (hp₁ : ∀ e ∈ elem₁, PlainElement e.data) (hp₂ : ∀ e ∈ elem₂, PlainElement e.data)
    (h : Join (rootPath :: elem₁) = Join (rootPath :: elem₂)) : elem₁ = elem₂ := by
  have hd := congrArg String.data h
  rw [Join_data rootPath elem₁ hne₁ hp₁, Join_data rootPath elem₂ hne₂ hp₂] at hd
  have hi := congrArg (List.splitOn '/') (List.append_cancel_left hd)
  have hno : ∀ (elem : List String), (∀ e ∈ elem, PlainElement e.data) →
      ∀ l ∈ rootElements rootPath ++ elem.map String.data, '/' ∉ l := by
    intro elem hp l hl
    rcases List.mem_append.mp hl with hl | hl
    · exact rootElements_no_slash rootPath l hl
    · obtain ⟨s, hs, rfl⟩ := List.mem_map.mp hl
      exact (hp s hs).2.1
  rw [List.splitOn_intercalate _ '/' (hno elem₁ hp₁) (by simp [hne₁]),
    List.splitOn_intercalate _ '/' (hno elem₂ hp₂) (by simp [hne₂])] at hi
  have hm := List.append_cancel_left hi
  exact List.map_injective_iff.mpr (fun a b hab => String.ext hab) hm

theorem fmtID_injective {a b : Nat} (ha : a < 10 ^ 20) (hb : b < 10 ^ 20)
    (h : fmtID a = fmtID b) : a = b := by
  have hd := congrArg String.data h
  rw [fmtID_data ha, fmtID_data hb] at hd
  have hv := congrArg (List.foldl (fun n c => n * 10 + (c.toNat - '0'.toNat)) 0) hd
  rw [foldl_digitChar _ paddedDigits_lt, foldl_digitChar _ paddedDigits_lt] at hv
  have h₁ := digitsValue_paddedDigits a
  have h₂ := digitsValue_paddedDigits b
  unfold digitsValue at h₁ h₂
  rw [h₁, h₂] at hv
  exact hv

theorem fmtID_ne_latestVersion {v : Nat} (hv : v < 10 ^ 20) : fmtID v ≠ latestVersion := by
  intro h
  have hd := congrArg (fun s => s.data.length) h
  simp only [fmtID_data hv, List.length_map, paddedDigits_length hv] at hd
  exact absurd hd (by decide)

theorem plain_key_constants :
    PlainElement version.data ∧ PlainElement cluster.data ∧ PlainElement shard.data ∧
    PlainElement topology.data ∧ PlainElement latestVersion.data ∧ PlainElement info.data ∧
    PlainElement schema.data ∧ PlainElement table.data := by
  refine ⟨?_, ?_, ?_, ?_, ?_, ?_, ?_, ?_⟩ <;> exact ⟨by decide, by decide, by decide, by decide⟩

/-- C24: for every root path, cluster, shard and schema IDs of 32 bits, and
versions and table IDs of 64 bits: the shard topology key with the version
formatted by `fmtID` is injective in the cluster ID, the shard ID and the
version, and differs from every key of a latest shard version; the cluster
topology key is injective in the cluster ID and the version, and differs from
every key of a latest cluster topology version; a schema key differs from
every table key. -/
theorem keys_never_collide (rootPath : String) (c c' s s' v v' id sid tid : Nat)
    (hc : c < 2 ^ 32) (hc' : c' < 2 ^ 32) (hs : s < 2 ^ 32) (hs' : s' < 2 ^ 32)
    (hv : v < 2 ^ 64) (hv' : v' < 2 ^ 64) (hid : id < 2 ^ 32) (hsid : sid < 2 ^ 32)
    (htid : tid < 2 ^ 64) :
    (makeShardTopologyKey rootPath c s (fmtID v) = makeShardTopologyKey rootPath c' s' (fmtID v') ↔
      c = c' ∧ s = s' ∧ v = v') ∧
    makeShardTopologyKey rootPath c s (fmtID v) ≠ makeShardLatestVersionKey rootPath c' s' ∧
    (makeClusterTopologyKey rootPath c (fmtID v) = makeClusterTopologyKey rootPath c' (fmtID v') ↔
      c = c' ∧ v = v') ∧
    makeClusterTopologyKey rootPath c (fmtID v) ≠
      makeClusterTopologyLatestVersionKey rootPath c' ∧
    makeSchemaKey rootPath c id ≠ makeTableKey rootPath c' sid tid := by
  have b32 : ∀ {n : Nat}, n < 2 ^ 32 → n < 10 ^ 20 := fun h => lt_trans h (by norm_num)
  have b64 : ∀ {n : Nat}, n < 2 ^ 64 → n < 10 ^ 20 := fun h => lt_trans h (by norm_num)
  obtain ⟨p₁, p₂, p₃, p₄, p₅, p₆, p₇, p₈⟩ := plain_key_constants
  have hshard : ∀ (c s : Nat) (last : String), c < 10 ^ 20 → s < 10 ^ 20 →
      PlainElement last.data →
      ∀ e ∈ [version, cluster, fmtID c, shard, fmtID s, last], PlainElement e.data := by
    intro c s last hc hs hl e he
    simp only [List.mem_cons, List.mem_singleton, List.not_mem_nil, or_false] at he
    rcases he with rfl | rfl | rfl | rfl | rfl | rfl
    exacts [p₁, p₂, fmtID_plain hc, p₃, fmtID_plain hs, hl]
  have htopo : ∀ (c : Nat) (last : String), c < 10 ^ 20 → PlainElement last.data →
      ∀ e ∈ [version, cluster, fmtID c, topology, last], PlainElement e.data := by
    intro c last hc hl e he
    simp only [List.mem_cons, List.mem_singleton, List.not_mem_nil, or_false] at he
    rcases he with rfl | rfl | rfl | rfl | rfl
    exacts [p₁, p₂, fmtID_plain hc, p₄, hl]
  refine ⟨⟨?_, ?_⟩, ?_, ⟨?_, ?_⟩, ?_, ?_⟩
  · intro h
    have := Join_root_injective rootPath _ _ (by simp) (by simp)
      (hshard c s _ (b32 hc) (b32 hs) (fmtID_plain (b64 hv)))
      (hshard c' s' _ (b32 hc') (b32 hs') (fmtID_plain (b64 hv'))) h
    simp only [List.cons.injEq, and_true, true_and] at this
    exact ⟨fmtID_injective (b32 hc) (b32 hc') this.1,
      fmtID_injective (b32 hs) (b32 hs') this.2.1,
      fmtID_injective (b64 hv) (b64 hv') this.2.2⟩
  · rintro ⟨rfl, rfl, rfl⟩
    rfl
  · intro h
    have := Join_root_injective rootPath _ _ (by simp) (by simp)
      (hshard c s _ (b32 hc) (b32 hs) (fmtID_plain (b64 hv)))
      (hshard c' s' _ (b32 hc') (b32 hs') p₅) h
    simp only [List.cons.injEq, and_true, true_and] at this
    exact fmtID_ne_latestVersion (b64 hv) this.2.2
  · intro h
    have := Join_root_injective rootPath _ _ (by simp) (by simp)
      (htopo c _ (b32 hc) (fmtID_plain (b64 hv)))
      (htopo c' _ (b32 hc') (fmtID_plain (b64 hv'))) h
    simp only [List.cons.injEq, and_true, true_and] at this
    exact ⟨fmtID_injective (b32 hc) (b32 hc') this.1,
      fmtID_injective (b64 hv) (b64 hv') this.2⟩
  · rintro ⟨rfl, rfl⟩
    rfl
  · intro h
    have := Join_root_injective rootPath _ _ (by simp) (by simp)
      (htopo c _ (b32 hc) (fmtID_plain (b64 hv)))
      (htopo c' _ (b32 hc') p₅) h
    simp only [List.cons.injEq, and_true, true_and] at this
    exact fmtID_ne_latestVersion (b64 hv) this.2
  · intro h
    have := Join_root_injective rootPath
      [version, cluster, fmtID c, schema, info, fmtID id]
      [version, cluster, fmtID c', schema, fmtID sid, table, fmtID tid] (by simp) (by simp)
      (by
        intro e he
        simp only [List.mem_cons, List.mem_singleton, List.not_mem_nil, or_false] at he
        rcases he with rfl | rfl | rfl | rfl | rfl | rfl
        exacts [p₁, p₂, fmtID_plain (b32 hc), p₇, p₆, fmtID_plain (b32 hid)])
      (by
        intro e he
        simp only [List.mem_cons, List.mem_singleton, List.not_mem_nil, or_false] at he
        rcases he with rfl | rfl | rfl | rfl | rfl | rfl | rfl
        exacts [p₁, p₂, fmtID_plain (b32 hc'), p₇, fmtID_plain (b32 hsid), p₈,
          fmtID_plain (b64 htid)]) h
    simp at this

/-- Witness for C24: the default root path, clusters 1 and 2, shards 3 and 4,
versions 5 and 6. -/
theorem keys_never_collide_witness :
    makeShardTopologyKey "/rootPath" 1 3 (fmtID 5) ≠ makeShardTopologyKey "/rootPath" 2 4 (fmtID 6) ∧
    makeShardTopologyKey "/rootPath" 1 3 (fmtID 5) ≠ makeShardLatestVersionKey "/rootPath" 2 4 ∧
    makeSchemaKey "/rootPath" 1 7 ≠ makeTableKey "/rootPath" 2 8 9 :=
  ⟨fun h => absurd
      ((keys_never_collide "/rootPath" 1 2 3 4 5 6 7 8 9 (by decide) (by decide) (by decide)
        (by decide) (by decide) (by decide) (by decide) (by decide) (by decide)).1.mp h).1
      (by decide),
    (keys_never_collide "/rootPath" 1 2 3 4 5 6 7 8 9 (by decide) (by decide) (by decide)
      (by decide) (by decide) (by decide) (by decide) (by decide) (by decide)).2.1,
    (keys_never_collide "/rootPath" 1 2 3 4 5 6 7 8 9 (by decide) (by decide) (by decide)
      (by decide) (by decide) (by decide) (by decide) (by decide) (by decide)).2.2.2.2⟩


/-! ## C21: shard pickers -/

theorem length_passesFrom (pass : Nat → List ShardNode) (len : Nat)
    (hlen : ∀ k, (pass k).length = len) :
    ∀ count k, (passesFrom pass count k).length = count * len := by
  intro count
  induction count with
  | zero => intro k; simp [passesFrom]
  | succ count ih =>
    intro k
    simp only [passesFrom, List.length_append, hlen, ih]
    ring

theorem mem_passesFrom (pass : Nat → List ShardNode) (x : ShardNode) :
    ∀ count k, x ∈ passesFrom pass count k → ∃ j, x ∈ pass j := by
  intro count
  induction count with
  | zero => intro k h; simp [passesFrom] at h
  | succ count ih =>
    intro k h
    simp only [passesFrom, List.mem_append] at h
    rcases h with h | h
    · exact ⟨k, h⟩
    · exact ih _ h

/-- What `pickPasses` returns when every pass is a permutation of the same
shards. -/
theorem pickPasses_spec (pass : Nat → List ShardNode) (shards : List ShardNode)
    (hperm : ∀ k, (pass k).Perm shards) (n : Nat) :
    (∀ x ∈ pickPasses pass n, x ∈ shards) ∧
    (shards ≠ [] → (pickPasses pass n).length = n) ∧
    (n ≤ shards.length → (shards.map (·.ID)).Nodup →
      ((pickPasses pass n).map (·.ID)).Nodup) ∧
    (shards.length < n → ∀ x ∈ shards, x ∈ pickPasses pass n) := by
  have hlen : ∀ k, (pass k).length = shards.length := fun k => (hperm k).length_eq
  refine ⟨?_, ?_, ?_, ?_⟩
  · intro x hx
    obtain ⟨j, hj⟩ := mem_passesFrom pass x n 0 (List.mem_of_mem_take hx)
    exact (hperm j).mem_iff.mp hj
  · intro hne
    have hpos : 0 < shards.length := List.length_pos.mpr hne
    rw [pickPasses, List.length_take, length_passesFrom pass _ hlen]
    have : n * 1 ≤ n * shards.length := Nat.mul_le_mul_left n hpos
    omega
  · intro hn hnodup
    cases n with
    | zero => simp [pickPasses]
    | succ n =>
      have hle : n + 1 ≤ (pass 0).length := by rw [hlen]; exact hn
      rw [pickPasses, passesFrom, List.take_append_of_le_length hle]
      have hnd : ((pass 0).map (·.ID)).Nodup := (((hperm 0).map _).nodup_iff).mpr hnodup
      exact List.Nodup.sublist ((List.take_sublist _ _).map _) hnd
  · intro hn x hx
    cases n with
    | zero => exact absurd hn (Nat.not_lt_zero _)
    | succ n =>
      have hx0 : x ∈ pass 0 := (hperm 0).mem_iff.mpr hx
      have hle : (pass 0).length ≤ n + 1 := by rw [hlen]; exact Nat.le_of_lt hn
      rw [pickPasses, passesFrom, List.take_append_eq_append_take, List.take_of_length_le hle]
      exact List.mem_append_left _ hx0

/-- C21 as stated fails.  On the snapshot without shards both pickers return no
shard node for `n = 1`.  On a snapshot of two shards where shard 2 has a
follower and no leader, both return shard 1 twice for `n = 2`, and shard 2 is
not in the result for `n = 3`.  On a snapshot where shard 1 has a leader on
two nodes and shard 2 one leader, both return shard 1 twice for `n = 2`. -/
theorem PickShards_short_or_repeated :
    ((LeastTableShardPicker.PickShards ⟨[], []⟩ 1).length = 0 ∧
      (LeastTableShardPicker.PickShards ⟨[], []⟩ 1).length ≠ 1 ∧
      (RandomBalancedShardPicker.PickShards (fun _ shards => shards) ⟨[], []⟩ 1).length = 0 ∧
      (RandomBalancedShardPicker.PickShards (fun _ shards => shards) ⟨[], []⟩ 1).length ≠ 1) ∧
    ((LeastTableShardPicker.PickShards followerOnlySnapshot 2).map (·.ID) = [1, 1] ∧
      (RandomBalancedShardPicker.PickShards (fun _ shards => shards) followerOnlySnapshot 2).map
        (·.ID) = [1, 1] ∧
      ¬ ([1, 1] : List ShardID).Nodup ∧
      2 ∉ (LeastTableShardPicker.PickShards followerOnlySnapshot 3).map (·.ID) ∧
      2 ∉ (RandomBalancedShardPicker.PickShards (fun _ shards => shards)
        followerOnlySnapshot 3).map (·.ID)) ∧
    ((LeastTableShardPicker.PickShards twoLeadersSnapshot 2).map (·.ID) = [1, 1] ∧
      (RandomBalancedShardPicker.PickShards (fun _ shards => shards) twoLeadersSnapshot 2).map
        (·.ID) = [1, 1]) := by
  decide

/-- C21 (amended): for every snapshot in which some shard has a leader and no
shard has two, every shuffle (a permutation for each pass) and every `n`,
`PickShards` of the random-balanced and of the least-table picker returns
exactly `n` shard nodes, each a leader shard node of the snapshot; when `n`
is at most the number of shards with a leader the `n` shard IDs are pairwise
distinct, and when `n` is greater every shard with a leader is in the
result. -/
theorem PickShards_size_and_distinct (shuffle : Nat → List ShardNode → List ShardNode)
    (hshuffle : ∀ k shards, (shuffle k shards).Perm shards)
    (snapshot : ClusterSnapshot) (n : Nat)
    (hleader : leaderShards snapshot ≠ [])
    (hone : ((leaderShards snapshot).map (·.ID)).Nodup) :
    ((RandomBalancedShardPicker.PickShards shuffle snapshot n).length = n ∧
      (LeastTableShardPicker.PickShards snapshot n).length = n) ∧
    ((∀ x ∈ RandomBalancedShardPicker.PickShards shuffle snapshot n,
        x ∈ snapshot.shardNodes ∧ x.ShardRole = .Leader) ∧
      (∀ x ∈ LeastTableShardPicker.PickShards snapshot n,
        x ∈ snapshot.shardNodes ∧ x.ShardRole = .Leader)) ∧
    (n ≤ (leaderShards snapshot).length →
      ((RandomBalancedShardPicker.PickShards shuffle snapshot n).map (·.ID)).Nodup ∧
      ((LeastTableShardPicker.PickShards snapshot n).map (·.ID)).Nodup) ∧
    ((leaderShards snapshot).length < n →
      ∀ x ∈ snapshot.shardNodes, x.ShardRole = .Leader →
        x ∈ RandomBalancedShardPicker.PickShards shuffle snapshot n ∧
        x ∈ LeastTableShardPicker.PickShards snapshot n) := by
  have hr := pickPasses_spec (fun k => shuffle k (leaderShards snapshot)) (leaderShards snapshot)
    (fun k => hshuffle k _) n
  have hl := pickPasses_spec (fun _ => sortByTableCount snapshot (leaderShards snapshot))
    (leaderShards snapshot) (fun _ => List.perm_insertionSort _ _) n
  have hmem : ∀ x, x ∈ leaderShards snapshot ↔
      x ∈ snapshot.shardNodes ∧ x.ShardRole = .Leader := by
    intro x
    simp [leaderShards]
  refine ⟨⟨hr.2.1 hleader, hl.2.1 hleader⟩,
    ⟨fun x hx => (hmem x).mp (hr.1 x hx), fun x hx => (hmem x).mp (hl.1 x hx)⟩,
    fun hn => ⟨hr.2.2.1 hn hone, hl.2.2.1 hn hone⟩,
    fun hn x hx hrole => ⟨hr.2.2.2 hn x ((hmem x).mpr ⟨hx, hrole⟩),
      hl.2.2.2 hn x ((hmem x).mpr ⟨hx, hrole⟩)⟩⟩

/-- Witness for C21 (amended): the snapshot of the tests, four shards with their
leaders, each pass a rotation, `n = 4`; the least-table picker for `n = 7` and,
after a table was placed on shard 0, for `n = 3`. -/
theorem PickShards_size_and_distinct_witness :
    ((RandomBalancedShardPicker.PickShards (fun k shards => shards.rotate (k + 1))
        testSnapshot 4).length = 4 ∧
      (LeastTableShardPicker.PickShards testSnapshot 4).length = 4) ∧
    (((RandomBalancedShardPicker.PickShards (fun k shards => shards.rotate (k + 1))
        testSnapshot 4).map (·.ID)).Nodup ∧
      ((LeastTableShardPicker.PickShards testSnapshot 4).map (·.ID)).Nodup) ∧
    (LeastTableShardPicker.PickShards testSnapshot 7).map (·.ID) = [0, 1, 2, 3, 0, 1, 2] ∧
    (LeastTableShardPicker.PickShards placedSnapshot 3).map (·.ID) = [1, 2, 3] :=
  ⟨(PickShards_size_and_distinct (fun k shards => shards.rotate (k + 1))
      (fun k shards => List.rotate_perm shards (k + 1)) testSnapshot 4 (by decide) (by decide)).1,
    (PickShards_size_and_distinct (fun k shards => shards.rotate (k + 1))
      (fun k shards => List.rotate_perm shards (k + 1)) testSnapshot 4 (by decide)
      (by decide)).2.2.1 (by decide),
    by decide, by decide⟩

end Horaemeta
